import Mathlib

/-!
# Frame-graph task scheduler (`src/src/framegraph/scheduler.cpp`)

A shallow embedding of `FrameGraphTaskScheduler` and a verification of the
ordering, batching and reset properties stated for it.

Modelling conventions.

* A `ComPtr<ID3D12GraphicsCommandList>` and the raw pointer obtained from it
  with `Get()` are an `Option Nat`: `none` is the null pointer, `some h` the
  command list with handle `h`.
* A pointer into `passNodes_` is an `Option Nat`: `none` is `nullptr`,
  `some i` is `&passNodes_[0] + i`.
* `size_t` values are natural numbers, and `size_t` is taken to be 64 bits
  wide.  The one `size_t` sum that can leave the size of `tasks_`,
  `nodeIdx + tasks_[nodeIdx].nodeCount` at line 93, wraps modulo `2 ^ 64`
  (`sizeAdd`).
* Reading or writing a vector element outside the vector, a failing `assert`
  (assertions are taken to be compiled in), and a pointer pair that does not
  denote a range are reported as a `Fault`; the state after a fault is not
  modelled.
* The calls into the command queue and the command list pool are recorded, in
  call order, as a list of `Effect`s.
-/

namespace FrameGraph

/-! ## Data model -/

/-- Modelled from the spec: the enumeration `TaskState` is declared in
`scheduler.h`, which is not among the sources; its three enumerators are the
ones `scheduler.cpp` names. -/
inductive TaskState where
  | NotFinished
  | Pending
  | Submitted
  deriving DecidableEq, Repr

/-- Modelled from the spec: the record `Task` is declared in `scheduler.h`,
which is not among the sources; its fields are the ones `scheduler.cpp`
reads and writes (`taskState`, `nodeCount`, `cmdList`). -/
structure Task where
  taskState : TaskState
  nodeCount : Nat
  cmdList : Option Nat
  deriving DecidableEq, Repr

/-- Modelled from the spec: a value-initialised `Task`, as produced by
`tasks_.resize`; every field is overwritten by `restart` before it is read. -/
instance : Inhabited Task := ⟨⟨TaskState.NotFinished, 0, none⟩⟩

/-- Modelled from the spec: `FrameGraphPassNode` is declared outside the
sources; the scheduler never looks inside a pass node, only at its position. -/
structure FrameGraphPassNode where
  id : Nat
  deriving DecidableEq, Repr

/-- Modelled from the spec: `TaskRange` is declared in `scheduler.h`, which is
not among the sources; it is the pair of pass-node pointers `begNode`,
`endNode` that `scheduler.cpp` builds and reads. -/
structure TaskRange where
  begNode : Option Nat
  endNode : Option Nat
  deriving DecidableEq, Repr

/-- The members of `FrameGraphTaskScheduler` that hold state.  The pool
`cmdListPool_` and the queue `cmdQueue_` are external; calls into them are
recorded as `Effect`s. -/
structure FrameGraphTaskScheduler where
  passNodes_ : List FrameGraphPassNode
  tasks_ : List Task
  dispatchedNodeCount_ : Nat
  finishedNodeCount_ : Nat
  deriving DecidableEq, Repr

/-- How a call can leave the modelled behaviour. -/
inductive Fault where
  /-- a vector element outside the vector was read or written -/
  | outOfRange
  /-- an `assert` failed -/
  | assertFailed
  /-- a null or reversed pointer pair was used as a range -/
  | badRange
  /-- the bound on loop iterations was used up -/
  | fuelExhausted
  deriving DecidableEq, Repr

/-- A call into one of the two external collaborators. -/
inductive Effect where
  /-- `cmdQueue_->ExecuteCommandLists(numCommandLists, cmdLists)` -/
  | ExecuteCommandLists (numCommandLists : Nat) (cmdLists : List (Option Nat))
  /-- `cmdListPool_.addUnusedGraphicsCmdLists(cmdList)` -/
  | addUnusedGraphicsCmdLists (cmdList : Option Nat)
  deriving DecidableEq, Repr

/-! ## Operations -/

/-- The body of `restart` (lines 19-30). -/
def restart (s : FrameGraphTaskScheduler) : FrameGraphTaskScheduler :=
  { s with
    tasks_ := s.tasks_.map
      (fun t => { t with taskState := TaskState.NotFinished, nodeCount := 0, cmdList := none })
    dispatchedNodeCount_ := 0
    finishedNodeCount_ := 0 }

/-- The constructor `FrameGraphTaskScheduler::FrameGraphTaskScheduler`
(lines 5-17): both counters start at 0, `tasks_` is resized to the number of
pass nodes, and `restart` is called. -/
def construct (passNodes : List FrameGraphPassNode) : FrameGraphTaskScheduler :=
  restart
    { passNodes_ := passNodes
      tasks_ := List.replicate passNodes.length default
      dispatchedNodeCount_ := 0
      finishedNodeCount_ := 0 }

/-- The body of `requestTask` (lines 32-43). -/
def requestTask (s : FrameGraphTaskScheduler) :
    Except Fault (FrameGraphTaskScheduler × TaskRange) :=
  if s.dispatchedNodeCount_ ≥ s.passNodes_.length then
    Except.ok (s, { begNode := none, endNode := none })
  else
    match s.tasks_[s.dispatchedNodeCount_]? with
    | none => Except.error Fault.outOfRange
    | some t =>
      Except.ok
        ({ s with
            tasks_ := s.tasks_.set s.dispatchedNodeCount_
              { t with taskState := TaskState.NotFinished }
            dispatchedNodeCount_ := s.dispatchedNodeCount_ + 1 },
         { begNode := some s.dispatchedNodeCount_
           endNode := some (s.dispatchedNodeCount_ + 1) })

/-- The loop `for(size_t i = first; i < last; ++i) tasks_[i].taskState = st;`
with `count = last - first` iterations left and `i` the current index. -/
def setTaskStates (st : TaskState) : Nat → Nat → List Task → Except Fault (List Task)
  | 0, _, ts => Except.ok ts
  | count + 1, i, ts =>
    match ts[i]? with
    | none => Except.error Fault.outOfRange
    | some t => setTaskStates st count (i + 1) (ts.set i { t with taskState := st })

/-- The branch of `submitTask` under the comment `// pend` (lines 60-66). -/
def submitTask.pend (s : FrameGraphTaskScheduler) (begNodeIdx endNodeIdx nodeCount : Nat)
    (cmdList : Option Nat) : Except Fault FrameGraphTaskScheduler :=
  match s.tasks_[begNodeIdx]? with
  | none => Except.error Fault.outOfRange
  | some t =>
    match setTaskStates TaskState.Pending (endNodeIdx - begNodeIdx) begNodeIdx
        (s.tasks_.set begNodeIdx { t with cmdList := cmdList, nodeCount := nodeCount }) with
    | Except.error e => Except.error e
    | Except.ok ts => Except.ok { s with tasks_ := ts }

/-- The `size_t` sum `a + b` of an index `a` into a vector of `size` elements
and a stored length `b` (line 93).  A `size_t` sum wraps modulo `2 ^ 64`; a
sum that stays within the size of the vector does not wrap, that size being a
`size_t` itself, so that on every vector of fewer than `2 ^ 64` elements this
is `(a + b) % 2 ^ 64` (`sizeAdd_eq_mod`). -/
def sizeAdd (size a b : Nat) : Nat :=
  if a + b ≤ size then a + b else (a + b) % 2 ^ 64

/-- The loop `for(;;)` of `submitTask` (lines 80-99), entered with `nodeIdx`
and the two vectors built so far.  The first argument bounds the number of
times the loop head is reached.  `nodeEnd` is the `size_t` sum of line 93; the
inner loop of lines 94-97 runs `nodeEnd - nodeIdx` times, which is no time at
all when the sum has wrapped to `nodeEnd ≤ nodeIdx`. -/
def submitTask.loop : Nat → FrameGraphTaskScheduler → Nat → List (Option Nat) → List (Option Nat) →
    Except Fault (FrameGraphTaskScheduler × List (Option Nat) × List (Option Nat))
  | 0, _, _, _, _ => Except.error Fault.fuelExhausted
  | fuel + 1, s, nodeIdx, cmdLists, gCmdLists =>
    if nodeIdx ≥ s.tasks_.length then
      Except.ok (s, cmdLists, gCmdLists)
    else
      match s.tasks_[nodeIdx]? with
      | none => Except.error Fault.outOfRange
      | some t =>
        if t.taskState ≠ TaskState.Pending then
          Except.ok (s, cmdLists, gCmdLists)
        else if ¬ (t.nodeCount > 0) then
          Except.error Fault.assertFailed
        else if t.cmdList = none then
          Except.error Fault.assertFailed
        else
          match setTaskStates TaskState.Submitted
              (sizeAdd s.tasks_.length nodeIdx t.nodeCount - nodeIdx) nodeIdx s.tasks_ with
          | Except.error e => Except.error e
          | Except.ok ts =>
            submitTask.loop fuel
              { s with
                tasks_ := ts
                finishedNodeCount_ := sizeAdd s.tasks_.length nodeIdx t.nodeCount }
              (sizeAdd s.tasks_.length nodeIdx t.nodeCount)
              (cmdLists ++ [t.cmdList]) (gCmdLists ++ [t.cmdList])

/-- The number of passes through the head of its loop that `submitTask` is
given: `(tasks_.size() + 1) ^ 2 + 1`.  An iteration either turns a `Pending`
task into a `Submitted` one or, when the sum of line 93 wraps, moves `nodeIdx`
to a smaller index and changes no task; `submitTask.loop_fuel` shows that the
bound is never used up when the sizes and stored lengths are `size_t` values. -/
def submitTask.loopBound (s : FrameGraphTaskScheduler) : Nat :=
  (s.tasks_.length + 1) * (s.tasks_.length + 1) + 1

/-- The part of `submitTask` under the comment `// submit` (lines 71-106).
The loop is given `submitTask.loopBound` passes through its head. -/
def submitTask.submit (s : FrameGraphTaskScheduler) (begNodeIdx endNodeIdx : Nat)
    (cmdList : Option Nat) : Except Fault (FrameGraphTaskScheduler × List Effect) :=
  match setTaskStates TaskState.Submitted (endNodeIdx - begNodeIdx) begNodeIdx s.tasks_ with
  | Except.error e => Except.error e
  | Except.ok ts =>
    match submitTask.loop (submitTask.loopBound s)
        { s with tasks_ := ts, finishedNodeCount_ := endNodeIdx } endNodeIdx
        [cmdList] [cmdList] with
    | Except.error e => Except.error e
    | Except.ok (s', cmdLists, gCmdLists) =>
      if cmdLists.isEmpty then
        Except.error Fault.assertFailed
      else
        Except.ok (s',
          Effect.ExecuteCommandLists (cmdLists.length % 2 ^ 32) cmdLists ::
            gCmdLists.map Effect.addUnusedGraphicsCmdLists)

/-- The body of `submitTask` (lines 45-107).  `begNodeIdx` and `endNodeIdx`
are the pointer differences of lines 52-53; a null pointer or a pair with
`endNode` before `begNode` is a `Fault.badRange`. -/
def submitTask (s : FrameGraphTaskScheduler) (taskRange : TaskRange) (cmdList : Option Nat) :
    Except Fault (FrameGraphTaskScheduler × List Effect) :=
  match taskRange.begNode, taskRange.endNode with
  | some begNodeIdx, some endNodeIdx =>
    if endNodeIdx < begNodeIdx then
      Except.error Fault.badRange
    else if begNodeIdx > 0 then
      match s.tasks_[begNodeIdx - 1]? with
      | none => Except.error Fault.outOfRange
      | some prev =>
        if prev.taskState ≠ TaskState.Submitted then
          match submitTask.pend s begNodeIdx endNodeIdx (endNodeIdx - begNodeIdx) cmdList with
          | Except.error e => Except.error e
          | Except.ok s' => Except.ok (s', [])
        else
          submitTask.submit s begNodeIdx endNodeIdx cmdList
    else
      submitTask.submit s begNodeIdx endNodeIdx cmdList
  | _, _ => Except.error Fault.badRange

/-- The body of `isAllFinished` (lines 109-112). -/
def isAllFinished (s : FrameGraphTaskScheduler) : Bool :=
  decide (s.finishedNodeCount_ ≥ s.tasks_.length)

/-! ## A frame driver: sequences of calls -/

/-- A call made by a producer. -/
inductive Call where
  | requestTask
  | submitTask (taskRange : TaskRange) (cmdList : Option Nat)
  deriving DecidableEq, Repr

/-- What a call returned to the producer (`requestTask`) or did to the
queue and the pool (`submitTask`). -/
inductive Reply where
  | range (taskRange : TaskRange)
  | effects (es : List Effect)
  deriving DecidableEq, Repr

/-- The empty sentinel `{ nullptr, nullptr }` returned by `requestTask`. -/
def TaskRange.sentinel : TaskRange := { begNode := none, endNode := none }

/-- The range `[i, i + 1)` of pass node `i`. -/
def TaskRange.node (i : Nat) : TaskRange := { begNode := some i, endNode := some (i + 1) }

/-- A scheduler together with the record of what its callers have seen: the
reply of every call so far (oldest first), the ranges handed out by
`requestTask` and not yet passed to `submitTask`, and the arguments of the
`submitTask` calls so far (newest first). -/
structure FrameDriver where
  sched : FrameGraphTaskScheduler
  replies : List Reply
  outstanding : List TaskRange
  submitted : List (TaskRange × Option Nat)
  deriving DecidableEq, Repr

/-- A driver that has made no call yet. -/
def FrameDriver.start (s : FrameGraphTaskScheduler) : FrameDriver :=
  { sched := s, replies := [], outstanding := [], submitted := [] }

/-- One call, with its bookkeeping. -/
def FrameDriver.call (d : FrameDriver) : Call → Except Fault FrameDriver
  | Call.requestTask =>
    match requestTask d.sched with
    | Except.error e => Except.error e
    | Except.ok (s', r) =>
      Except.ok
        { d with
          sched := s'
          replies := d.replies ++ [Reply.range r]
          outstanding := if r = TaskRange.sentinel then d.outstanding else r :: d.outstanding }
  | Call.submitTask r c =>
    match submitTask d.sched r c with
    | Except.error e => Except.error e
    | Except.ok (s', es) =>
      Except.ok
        { sched := s'
          replies := d.replies ++ [Reply.effects es]
          outstanding := d.outstanding.erase r
          submitted := (r, c) :: d.submitted }

/-- A sequence of calls, stopping at the first fault. -/
def FrameDriver.run (d : FrameDriver) : List Call → Except Fault FrameDriver
  | [] => Except.ok d
  | c :: cs =>
    match d.call c with
    | Except.error e => Except.error e
    | Except.ok d' => FrameDriver.run d' cs

/-- The batches passed to `ExecuteCommandLists` by one call's effects. -/
def Effect.batches : List Effect → List (List (Option Nat))
  | [] => []
  | Effect.ExecuteCommandLists _ cmdLists :: es => cmdLists :: Effect.batches es
  | Effect.addUnusedGraphicsCmdLists _ :: es => Effect.batches es

/-- The batches passed to `ExecuteCommandLists`, in call order. -/
def Reply.batches : List Reply → List (List (Option Nat))
  | [] => []
  | Reply.range _ :: rs => Reply.batches rs
  | Reply.effects es :: rs => Effect.batches es ++ Reply.batches rs

/-- The states a driver can be in when the scheduler is used as intended:
it starts from a constructed or restarted scheduler over `passNodes`, and
every `submitTask` call passes a range that `requestTask` returned and that
has not been passed to `submitTask` before. -/
inductive Reachable (passNodes : List FrameGraphPassNode) : FrameDriver → Prop where
  | construct : Reachable passNodes (FrameDriver.start (construct passNodes))
  | restart (s : FrameGraphTaskScheduler) (hp : s.passNodes_ = passNodes)
      (ht : s.tasks_.length = passNodes.length) :
      Reachable passNodes (FrameDriver.start (restart s))
  | requestTask (d d' : FrameDriver) (hd : Reachable passNodes d)
      (hc : d.call Call.requestTask = Except.ok d') : Reachable passNodes d'
  | submitTask (d d' : FrameDriver) (r : TaskRange) (c : Option Nat)
      (hd : Reachable passNodes d) (hr : r ∈ d.outstanding)
      (hc : d.call (Call.submitTask r c) = Except.ok d') : Reachable passNodes d'

/-- The calls of one full cycle: `n` claims, then the ranges of the nodes
listed in `p` submitted in that order, node `i` with command list `buf i`. -/
def cycle (n : Nat) (p : List Nat) (buf : Nat → Nat) : List Call :=
  List.replicate n Call.requestTask ++
    p.map (fun i => Call.submitTask (TaskRange.node i) (some (buf i)))

/-- The task `t` with its `taskState` overwritten. -/
def Task.withState (st : TaskState) (t : Task) : Task := { t with taskState := st }

/-- The command list held by the task at index `k` (null outside the vector). -/
def storedCmdList (ts : List Task) (k : Nat) : Option Nat := (ts.getD k default).cmdList

/-- The result of the loop entered at `a` in state `s`: the tasks in `[a, j)`
were `Pending` with a command list and are now `Submitted`, the task at `j`
(if any) is not `Pending`, and the stored command lists of `[a, j)` were
appended to both vectors. -/
def submitTask.LoopPost (s : FrameGraphTaskScheduler) (a : Nat) (cl gcl : List (Option Nat))
    (s' : FrameGraphTaskScheduler) (cl' gcl' : List (Option Nat)) : Prop :=
  ∃ j, a ≤ j ∧
    (∀ k, a ≤ k → k < j →
      ∃ t, s.tasks_[k]? = some t ∧ t.taskState = TaskState.Pending ∧ t.cmdList ≠ none) ∧
    (∀ t, s.tasks_[j]? = some t → t.taskState ≠ TaskState.Pending) ∧
    s'.tasks_.length = s.tasks_.length ∧
    (∀ k, s'.tasks_[k]? =
      if a ≤ k ∧ k < j then (s.tasks_[k]?).map (Task.withState TaskState.Submitted)
      else s.tasks_[k]?) ∧
    s'.finishedNodeCount_ = (if j = a then s.finishedNodeCount_ else j) ∧
    s'.passNodes_ = s.passNodes_ ∧ s'.dispatchedNodeCount_ = s.dispatchedNodeCount_ ∧
    cl' = cl ++ (List.range' a (j - a)).map (storedCmdList s.tasks_) ∧
    gcl' = gcl ++ (List.range' a (j - a)).map (storedCmdList s.tasks_)

/-- The invariant of intended use over `passNodes`: the `Submitted` tasks
are exactly those below `finishedNodeCount_`, the task at `finishedNodeCount_`
and every unclaimed task is `NotFinished`, a `NotFinished` task holds nothing,
the outstanding ranges are the claimed `NotFinished` nodes, a `Pending` task
covers one node and holds the command list it was submitted with, and the
batches issued so far list the command lists of the nodes below
`finishedNodeCount_` in index order. -/
structure Inv (passNodes : List FrameGraphPassNode) (d : FrameDriver) : Prop where
  passNodes_eq : d.sched.passNodes_ = passNodes
  length_eq : d.sched.tasks_.length = passNodes.length
  dispatched_le : d.sched.dispatchedNodeCount_ ≤ passNodes.length
  finished_le : d.sched.finishedNodeCount_ ≤ d.sched.dispatchedNodeCount_
  submitted_iff : ∀ (i : Nat) (t : Task), d.sched.tasks_[i]? = some t →
    (t.taskState = TaskState.Submitted ↔ i < d.sched.finishedNodeCount_)
  unclaimed : ∀ (i : Nat) (t : Task), d.sched.tasks_[i]? = some t →
    d.sched.dispatchedNodeCount_ ≤ i → t.taskState = TaskState.NotFinished
  front : ∀ t : Task, d.sched.tasks_[d.sched.finishedNodeCount_]? = some t →
    t.taskState = TaskState.NotFinished
  blank : ∀ (i : Nat) (t : Task), d.sched.tasks_[i]? = some t →
    t.taskState = TaskState.NotFinished → t.nodeCount = 0 ∧ t.cmdList = none
  outstanding_nodup : d.outstanding.Nodup
  outstanding_iff : ∀ r, r ∈ d.outstanding ↔
    ∃ (i : Nat) (t : Task), r = TaskRange.node i ∧ i < d.sched.dispatchedNodeCount_ ∧
      d.sched.tasks_[i]? = some t ∧ t.taskState = TaskState.NotFinished
  pending : ∀ (i : Nat) (t : Task), d.sched.tasks_[i]? = some t →
    t.taskState = TaskState.Pending →
    t.nodeCount = 1 ∧ d.submitted.lookup (TaskRange.node i) = some t.cmdList
  batches : (List.range d.sched.finishedNodeCount_).map
      (fun i => d.submitted.lookup (TaskRange.node i)) =
    (Reply.batches d.replies).flatten.map some

/-- A `submitTask` call for node `i` that was deferred. -/
def PendStep (d d' : FrameDriver) (i : Nat) (c : Option Nat) : Prop :=
  d.sched.finishedNodeCount_ < i ∧
  d'.sched = { d.sched with tasks_ := d.sched.tasks_.set i ⟨TaskState.Pending, 1, c⟩ } ∧
  d'.replies = d.replies ++ [Reply.effects []]

/-- A `submitTask` call for node `i` that went to the queue, together with
the `Pending` nodes `i + 1, ..., j - 1` behind it. -/
def FlushStep (d d' : FrameDriver) (i : Nat) (c : Option Nat) : Prop :=
  i = d.sched.finishedNodeCount_ ∧
  ∃ j, i < j ∧
    (∀ k, i < k → k < j →
      ∃ t, d.sched.tasks_[k]? = some t ∧ t.taskState = TaskState.Pending ∧ t.cmdList ≠ none) ∧
    (∀ t, d.sched.tasks_[j]? = some t → t.taskState = TaskState.NotFinished) ∧
    d'.sched.tasks_.length = d.sched.tasks_.length ∧
    (∀ k, d'.sched.tasks_[k]? =
      if i ≤ k ∧ k < j then (d.sched.tasks_[k]?).map (Task.withState TaskState.Submitted)
      else d.sched.tasks_[k]?) ∧
    d'.sched.finishedNodeCount_ = j ∧
    d'.sched.passNodes_ = d.sched.passNodes_ ∧
    d'.sched.dispatchedNodeCount_ = d.sched.dispatchedNodeCount_ ∧
    d'.replies = d.replies ++
      [Reply.effects
        (Effect.ExecuteCommandLists
            ((c :: (List.range' (i + 1) (j - (i + 1))).map (storedCmdList d.sched.tasks_)).length
              % 2 ^ 32)
            (c :: (List.range' (i + 1) (j - (i + 1))).map (storedCmdList d.sched.tasks_)) ::
          (c :: (List.range' (i + 1) (j - (i + 1))).map (storedCmdList d.sched.tasks_)).map
            Effect.addUnusedGraphicsCmdLists)]

/-- The driver after `m` claims on a fresh scheduler. -/
def claimed (passNodes : List FrameGraphPassNode) (m : Nat) : FrameDriver :=
  { sched := { construct passNodes with dispatchedNodeCount_ := min m passNodes.length }
    replies := (List.range m).map
      (fun k => Reply.range (if k < passNodes.length then TaskRange.node k else TaskRange.sentinel))
    outstanding := ((List.range (min m passNodes.length)).map TaskRange.node).reverse
    submitted := [] }

/-- A scheduler over `passNodes` that was just constructed or just restarted. -/
def Fresh (passNodes : List FrameGraphPassNode) (s0 : FrameGraphTaskScheduler) : Prop :=
  s0 = construct passNodes ∨
    ∃ s : FrameGraphTaskScheduler,
      s.passNodes_ = passNodes ∧ s.tasks_.length = passNodes.length ∧ s0 = restart s

/-- Five pass nodes, for concrete instances. -/
def demoNodes : List FrameGraphPassNode := [⟨0⟩, ⟨1⟩, ⟨2⟩, ⟨3⟩, ⟨4⟩]

/-- A scheduler over `demoNodes` in the middle of a frame: node 0 submitted,
node 1 claimed and still recording, nodes 2, 3, 4 pending with command lists
12, 13, 14. -/
def demoSched : FrameGraphTaskScheduler :=
  { passNodes_ := demoNodes
    tasks_ := [⟨TaskState.Submitted, 0, none⟩, ⟨TaskState.NotFinished, 0, none⟩,
      ⟨TaskState.Pending, 1, some 12⟩, ⟨TaskState.Pending, 1, some 13⟩,
      ⟨TaskState.Pending, 1, some 14⟩]
    dispatchedNodeCount_ := 5
    finishedNodeCount_ := 1 }

/-- The driver that reached `demoSched`: five claims, then node 0 submitted
with command list 10 and nodes 2, 3, 4 with command lists 12, 13, 14. -/
def demoDriver : FrameDriver :=
  { sched := demoSched
    replies := [Reply.range (TaskRange.node 0), Reply.range (TaskRange.node 1),
      Reply.range (TaskRange.node 2), Reply.range (TaskRange.node 3),
      Reply.range (TaskRange.node 4),
      Reply.effects [Effect.ExecuteCommandLists 1 [some 10],
        Effect.addUnusedGraphicsCmdLists (some 10)],
      Reply.effects [], Reply.effects [], Reply.effects []]
    outstanding := [TaskRange.node 1]
    submitted := [(TaskRange.node 4, some 14), (TaskRange.node 3, some 13),
      (TaskRange.node 2, some 12), (TaskRange.node 0, some 10)] }

/-- All five tasks of `demoNodes` submitted: the state at the end of the
frame that claims all five nodes and submits them in the order 0, 2, 3, 4, 1
with command lists 10, 12, 13, 14, 11. -/
def doneSched : FrameGraphTaskScheduler :=
  { passNodes_ := demoNodes
    tasks_ := [⟨TaskState.Submitted, 0, none⟩, ⟨TaskState.Submitted, 0, none⟩,
      ⟨TaskState.Submitted, 1, some 12⟩, ⟨TaskState.Submitted, 1, some 13⟩,
      ⟨TaskState.Submitted, 1, some 14⟩]
    dispatchedNodeCount_ := 5
    finishedNodeCount_ := 5 }

/-- The command lists handed to `addUnusedGraphicsCmdLists` by one call's
effects, in call order. -/
def Effect.reclaimed : List Effect → List (Option Nat)
  | [] => []
  | Effect.ExecuteCommandLists _ _ :: es => Effect.reclaimed es
  | Effect.addUnusedGraphicsCmdLists c :: es => c :: Effect.reclaimed es

/-- The command lists handed to `addUnusedGraphicsCmdLists`, in call order. -/
def Reply.reclaimed : List Reply → List (Option Nat)
  | [] => []
  | Reply.range _ :: rs => Reply.reclaimed rs
  | Reply.effects es :: rs => Effect.reclaimed es ++ Reply.reclaimed rs

/-- The driver after `demoDriver` submits node 1 with command list 11: the
call flushes nodes 1, 2, 3, 4 in one batch and ends the frame in `doneSched`. -/
def doneDriver : FrameDriver :=
  { sched := doneSched
    replies := demoDriver.replies ++
      [Reply.effects [Effect.ExecuteCommandLists 4 [some 11, some 12, some 13, some 14],
        Effect.addUnusedGraphicsCmdLists (some 11), Effect.addUnusedGraphicsCmdLists (some 12),
        Effect.addUnusedGraphicsCmdLists (some 13), Effect.addUnusedGraphicsCmdLists (some 14)]]
    outstanding := []
    submitted := (TaskRange.node 1, some 11) :: demoDriver.submitted }

/-- Whether `submitTask` takes the `// submit` path on a range: the test of
line 58 fails, that is, the range starts at node 0 or the task before it is
`Submitted`. -/
def TaskRange.ready (s : FrameGraphTaskScheduler) (r : TaskRange) : Bool :=
  match r.begNode with
  | some begNodeIdx =>
    decide (begNodeIdx = 0) ||
      (s.tasks_[begNodeIdx - 1]?).any (fun p => decide (p.taskState = TaskState.Submitted))
  | none => false

/-- The states of intended use, as in `Reachable`, together with the number
of `submitTask` calls so far that found their range ready. -/
inductive ReachableReady (passNodes : List FrameGraphPassNode) : FrameDriver → Nat → Prop where
  | construct : ReachableReady passNodes (FrameDriver.start (construct passNodes)) 0
  | restart (s : FrameGraphTaskScheduler) (hp : s.passNodes_ = passNodes)
      (ht : s.tasks_.length = passNodes.length) :
      ReachableReady passNodes (FrameDriver.start (restart s)) 0
  | requestTask (d d' : FrameDriver) (n : Nat) (hd : ReachableReady passNodes d n)
      (hc : d.call Call.requestTask = Except.ok d') : ReachableReady passNodes d' n
  | submitTask (d d' : FrameDriver) (n : Nat) (r : TaskRange) (c : Option Nat)
      (hd : ReachableReady passNodes d n) (hr : r ∈ d.outstanding)
      (hc : d.call (Call.submitTask r c) = Except.ok d') :
      ReachableReady passNodes d' (n + if r.ready d.sched then 1 else 0)

/-- A state in which the sum of line 93 wraps: task 3 is `Pending` with stored
length `2 ^ 64 - 3` and command list 33, task 0 is `Pending` with stored
length 1 and command list 30, task 1 is `Submitted`, task 2 is not submitted
yet. -/
def wrapSched : FrameGraphTaskScheduler :=
  { passNodes_ := [⟨0⟩, ⟨1⟩, ⟨2⟩, ⟨3⟩]
    tasks_ := [⟨TaskState.Pending, 1, some 30⟩, ⟨TaskState.Submitted, 0, none⟩,
      ⟨TaskState.NotFinished, 0, none⟩, ⟨TaskState.Pending, 2 ^ 64 - 3, some 33⟩]
    dispatchedNodeCount_ := 4
    finishedNodeCount_ := 2 }

/-- The state in which that loop exits, with `nodeIdx = 1`: task 0 is
`Submitted` as well, task 3 is still `Pending`, `finishedNodeCount_` is 1. -/
def wrapExit : FrameGraphTaskScheduler :=
  { wrapSched with
    tasks_ := [⟨TaskState.Submitted, 1, some 30⟩, ⟨TaskState.Submitted, 0, none⟩,
      ⟨TaskState.Submitted, 0, none⟩, ⟨TaskState.Pending, 2 ^ 64 - 3, some 33⟩]
    finishedNodeCount_ := 1 }

/-- The maximal run of consecutive `Pending` ranges starting at index `i`, as
the list of the indices at which its ranges start, in increasing order: a
`Pending` task at `i` starts a range of `nodeCount` tasks, and the run goes on
with the task behind that range; the run stops at the first task that is not
`Pending` or at the end of the list.  At most `fuel` ranges are listed. -/
def pendingRun (ts : List Task) : Nat → Nat → List Nat
  | 0, _ => []
  | fuel + 1, i =>
    match ts[i]? with
    | none => []
    | some t =>
      if t.taskState = TaskState.Pending then i :: pendingRun ts fuel (i + t.nodeCount) else []

/-- The index at which the run `pendingRun ts fuel i` stops. -/
def pendingRunEnd (ts : List Task) : Nat → Nat → Nat
  | 0, i => i
  | fuel + 1, i =>
    match ts[i]? with
    | none => i
    | some t =>
      if t.taskState = TaskState.Pending then pendingRunEnd ts fuel (i + t.nodeCount) else i

/-- The list `run` holds the starts of the maximal run of consecutive
`Pending` ranges from `i`, and `j` is the index at which the run stops: the
first index behind a range of the run (or `i` itself) whose task is not
`Pending` or that is the end of the list. -/
inductive IsPendingRun (ts : List Task) : Nat → List Nat → Nat → Prop where
  | stop (i : Nat) (h : ∀ t, ts[i]? = some t → t.taskState ≠ TaskState.Pending) :
      IsPendingRun ts i [] i
  | range (i : Nat) (t : Task) (run : List Nat) (j : Nat) (ht : ts[i]? = some t)
      (hst : t.taskState = TaskState.Pending) (h : IsPendingRun ts (i + t.nodeCount) run j) :
      IsPendingRun ts i (i :: run) j

/-- What the loop has done when it returns from the run of `Pending` ranges
from `i` that stops at `j`. -/
def submitTask.RunPost (s : FrameGraphTaskScheduler) (i j : Nat)
    (s' : FrameGraphTaskScheduler) : Prop :=
  i ≤ j ∧ (i ≤ s.tasks_.length → j ≤ s.tasks_.length) ∧
  (∀ t, s.tasks_[j]? = some t → t.taskState ≠ TaskState.Pending) ∧
  s'.tasks_.length = s.tasks_.length ∧
  (∀ k, s'.tasks_[k]? =
    if i ≤ k ∧ k < j then (s.tasks_[k]?).map (Task.withState TaskState.Submitted)
    else s.tasks_[k]?) ∧
  s'.finishedNodeCount_ = (if j = i then s.finishedNodeCount_ else j) ∧
  s'.passNodes_ = s.passNodes_ ∧ s'.dispatchedNodeCount_ = s.dispatchedNodeCount_

/-- Two pass nodes, for concrete instances. -/
def pairNodes : List FrameGraphPassNode := [⟨0⟩, ⟨1⟩]

/-- The driver after two claims on a fresh scheduler over `pairNodes` and a
`submitTask` call on the range of node 1 with a null command list: node 1 is
pending without a stored command list, node 0 is still outstanding. -/
def nullDriver : FrameDriver :=
  { sched :=
      { passNodes_ := pairNodes
        tasks_ := [⟨TaskState.NotFinished, 0, none⟩, ⟨TaskState.Pending, 1, none⟩]
        dispatchedNodeCount_ := 2
        finishedNodeCount_ := 0 }
    replies := [Reply.range (TaskRange.node 0), Reply.range (TaskRange.node 1),
      Reply.effects []]
    outstanding := [TaskRange.node 0]
    submitted := [(TaskRange.node 1, none)] }

/-- Six pass nodes, for concrete instances. -/
def rangeNodes : List FrameGraphPassNode := [⟨0⟩, ⟨1⟩, ⟨2⟩, ⟨3⟩, ⟨4⟩, ⟨5⟩]

/-- A scheduler over `rangeNodes` in the middle of a frame: node 0 submitted,
node 1 not submitted yet, the range `[2, 4)` of nodes 2 and 3 pending with
command list 12 (task 2 stores the length 2 and the command list), node 4
pending with command list 14, node 5 not submitted yet. -/
def rangeSched : FrameGraphTaskScheduler :=
  { passNodes_ := rangeNodes
    tasks_ := [⟨TaskState.Submitted, 0, none⟩, ⟨TaskState.NotFinished, 0, none⟩,
      ⟨TaskState.Pending, 2, some 12⟩, ⟨TaskState.Pending, 0, none⟩,
      ⟨TaskState.Pending, 1, some 14⟩, ⟨TaskState.NotFinished, 0, none⟩]
    dispatchedNodeCount_ := 6
    finishedNodeCount_ := 1 }

/-- The state after `submitTask` on `rangeSched` for node 1: nodes 0 to 4 are
submitted. -/
def rangeDone : FrameGraphTaskScheduler :=
  { passNodes_ := rangeNodes
    tasks_ := [⟨TaskState.Submitted, 0, none⟩, ⟨TaskState.Submitted, 0, none⟩,
      ⟨TaskState.Submitted, 2, some 12⟩, ⟨TaskState.Submitted, 0, none⟩,
      ⟨TaskState.Submitted, 1, some 14⟩, ⟨TaskState.NotFinished, 0, none⟩]
    dispatchedNodeCount_ := 6
    finishedNodeCount_ := 5 }

/-! ## The loops of `submitTask` -/

theorem getElem?_lt {α : Type} {l : List α} {i : Nat} {a : α} (h : l[i]? = some a) :
    i < l.length := (List.getElem?_eq_some.mp h).1

theorem setTaskStates_fault (st : TaskState) :
    ∀ (count i : Nat) (ts : List Task) (e : Fault),
      setTaskStates st count i ts = Except.error e → e = Fault.outOfRange := by
  intro count
  induction count with
  | zero => intro i ts e h; simp [setTaskStates] at h
  | succ n ih =>
    intro i ts e h
    unfold setTaskStates at h
    cases hti : ts[i]? with
    | none => simp [hti] at h; exact h.symm
    | some t =>
      simp only [hti] at h
      exact ih _ _ _ h

theorem setTaskStates_bound (st : TaskState) :
    ∀ (count i : Nat) (ts ts' : List Task),
      setTaskStates st count i ts = Except.ok ts' → 0 < count → i + count ≤ ts.length := by
  intro count
  induction count with
  | zero => intro i ts ts' _ h; omega
  | succ n ih =>
    intro i ts ts' h _
    unfold setTaskStates at h
    cases hti : ts[i]? with
    | none => simp [hti] at h
    | some t =>
      simp only [hti] at h
      have hi : i < ts.length := by
        rcases List.getElem?_eq_some.mp hti with ⟨hlt, _⟩
        exact hlt
      rcases Nat.eq_zero_or_pos n with hn | hn
      · omega
      · have := ih _ _ _ h hn
        simp at this
        omega

theorem setTaskStates_ok (st : TaskState) :
    ∀ (count i : Nat) (ts : List Task), i + count ≤ ts.length →
      ∃ ts', setTaskStates st count i ts = Except.ok ts' ∧ ts'.length = ts.length ∧
        ∀ k, ts'[k]? = if i ≤ k ∧ k < i + count then (ts[k]?).map (Task.withState st) else ts[k]? := by
  intro count
  induction count with
  | zero =>
    intro i ts _
    refine ⟨ts, rfl, rfl, ?_⟩
    intro k
    rw [if_neg (by omega)]
  | succ n ih =>
    intro i ts h
    have hi : i < ts.length := by omega
    have hti : ts[i]? = some ts[i] := List.getElem?_eq_getElem hi
    obtain ⟨ts', h1, h2, h3⟩ := ih (i + 1) (ts.set i { ts[i] with taskState := st })
      (by simp; omega)
    refine ⟨ts', ?_, ?_, ?_⟩
    · rw [setTaskStates, hti]
      exact h1
    · simpa using h2
    · intro k
      rw [h3 k]
      by_cases hk : k = i
      · subst hk
        have c1 : ¬ (k + 1 ≤ k ∧ k < k + 1 + n) := by omega
        have c2 : (k ≤ k ∧ k < k + (n + 1)) := by omega
        simp [c1, c2, hi, Task.withState]
      · have hne : i ≠ k := fun h => hk h.symm
        rw [List.getElem?_set_ne hne]
        by_cases c : i + 1 ≤ k ∧ k < i + 1 + n
        · have c2 : (i ≤ k ∧ k < i + (n + 1)) := by omega
          simp [c, c2]
        · have c2 : ¬ (i ≤ k ∧ k < i + (n + 1)) := by omega
          simp [c, c2]

theorem setTaskStates_one (st : TaskState) (i : Nat) (ts : List Task) (t : Task)
    (h : ts[i]? = some t) :
    setTaskStates st 1 i ts = Except.ok (ts.set i (t.withState st)) := by
  simp [setTaskStates, h, Task.withState]

/-- Both vectors built by the loop grow by the same elements. -/
theorem submitTask.loop_sync :
    ∀ (fuel : Nat) (s : FrameGraphTaskScheduler) (nodeIdx : Nat) (cl gcl : List (Option Nat))
      (s' : FrameGraphTaskScheduler) (cl' gcl' : List (Option Nat)),
      submitTask.loop fuel s nodeIdx cl gcl = Except.ok (s', cl', gcl') →
      ∃ ext, cl' = cl ++ ext ∧ gcl' = gcl ++ ext := by
  intro fuel
  induction fuel with
  | zero => intro s a cl gcl s' cl' gcl' h; simp [submitTask.loop] at h
  | succ n ih =>
    intro s a cl gcl s' cl' gcl' h
    unfold submitTask.loop at h
    split at h
    · simp at h; exact ⟨[], by simp [h.2.1], by simp [h.2.2]⟩
    · split at h
      · simp at h
      · split at h
        · simp at h; exact ⟨[], by simp [h.2.1], by simp [h.2.2]⟩
        · split at h
          · simp at h
          · split at h
            · simp at h
            · split at h
              · simp at h
              · rename_i t _ _ _ _ _ _ _
                obtain ⟨ext, e1, e2⟩ := ih _ _ _ _ _ _ _ h
                refine ⟨[t.cmdList] ++ ext, ?_, ?_⟩
                · rw [e1, List.append_assoc]
                · rw [e2, List.append_assoc]

theorem sizeAdd_of_le {size a b : Nat} (h : a + b ≤ size) : sizeAdd size a b = a + b := by
  simp [sizeAdd, h]

theorem submitTask.loopBound_ge (s : FrameGraphTaskScheduler) (a : Nat) :
    s.tasks_.length - a + 1 ≤ submitTask.loopBound s := by
  unfold submitTask.loopBound
  have := Nat.le_mul_self (s.tasks_.length + 1)
  omega

theorem storedCmdList_of_getElem? (ts : List Task) (k : Nat) (t : Task) (h : ts[k]? = some t) :
    storedCmdList ts k = t.cmdList := by
  simp [storedCmdList, h]

theorem submitTask.loop_stop_end (fuel : Nat) (s : FrameGraphTaskScheduler) (a : Nat)
    (cl gcl : List (Option Nat)) (h : s.tasks_.length ≤ a) :
    submitTask.loop (fuel + 1) s a cl gcl = Except.ok (s, cl, gcl) := by
  unfold submitTask.loop
  simp [h]

theorem submitTask.loop_stop_state (fuel : Nat) (s : FrameGraphTaskScheduler) (a : Nat)
    (cl gcl : List (Option Nat)) (t : Task) (h : s.tasks_[a]? = some t)
    (hst : t.taskState ≠ TaskState.Pending) :
    submitTask.loop (fuel + 1) s a cl gcl = Except.ok (s, cl, gcl) := by
  have hlt : a < s.tasks_.length := (List.getElem?_eq_some.mp h).1
  unfold submitTask.loop
  simp [h, hst, Nat.not_le.mpr hlt]

theorem submitTask.loop_null (fuel : Nat) (s : FrameGraphTaskScheduler) (a : Nat)
    (cl gcl : List (Option Nat)) (t : Task) (h : s.tasks_[a]? = some t)
    (hst : t.taskState = TaskState.Pending) (hc : t.cmdList = none) :
    ∃ e, submitTask.loop (fuel + 1) s a cl gcl = Except.error e := by
  have hlt : a < s.tasks_.length := (List.getElem?_eq_some.mp h).1
  unfold submitTask.loop
  simp only [h, hst, hc, ge_iff_le, Nat.not_le.mpr hlt]
  by_cases hn : t.nodeCount > 0 <;> simp [hn]

theorem submitTask.loop_unit_step (fuel : Nat) (s : FrameGraphTaskScheduler) (a : Nat)
    (cl gcl : List (Option Nat)) (t : Task) (h : s.tasks_[a]? = some t)
    (hst : t.taskState = TaskState.Pending) (hn : t.nodeCount = 1) (hc : t.cmdList ≠ none) :
    submitTask.loop (fuel + 1) s a cl gcl =
      submitTask.loop fuel
        { s with tasks_ := s.tasks_.set a (t.withState TaskState.Submitted),
                 finishedNodeCount_ := a + 1 }
        (a + 1) (cl ++ [t.cmdList]) (gcl ++ [t.cmdList]) := by
  have hlt : a < s.tasks_.length := (List.getElem?_eq_some.mp h).1
  have h1 := setTaskStates_one TaskState.Submitted a s.tasks_ t h
  have hadd : sizeAdd s.tasks_.length a 1 = a + 1 := sizeAdd_of_le (by omega)
  conv => lhs; unfold submitTask.loop
  simp only [h, hst, hn, hc, ge_iff_le, Nat.not_le.mpr hlt, hadd]
  simp [h1]

theorem submitTask.LoopPost.stop (s : FrameGraphTaskScheduler) (a : Nat)
    (cl gcl : List (Option Nat))
    (hne : ∀ t, s.tasks_[a]? = some t → t.taskState ≠ TaskState.Pending) :
    submitTask.LoopPost s a cl gcl s cl gcl := by
  refine ⟨a, le_refl _, ?_, hne, rfl, ?_, by simp, rfl, rfl, by simp, by simp⟩
  · intro k h1 h2; omega
  · intro k
    rw [if_neg (by omega)]

/-- What the loop does when every `Pending` task from `a` on covers one node. -/
theorem submitTask.loop_unit :
    ∀ (fuel : Nat) (s : FrameGraphTaskScheduler) (a : Nat) (cl gcl : List (Option Nat))
      (s' : FrameGraphTaskScheduler) (cl' gcl' : List (Option Nat)),
      (∀ k t, a ≤ k → s.tasks_[k]? = some t → t.taskState = TaskState.Pending → t.nodeCount = 1) →
      submitTask.loop fuel s a cl gcl = Except.ok (s', cl', gcl') →
      submitTask.LoopPost s a cl gcl s' cl' gcl' := by
  intro fuel
  induction fuel with
  | zero => intro s a cl gcl s' cl' gcl' _ h; simp [submitTask.loop] at h
  | succ n ih =>
    intro s a cl gcl s' cl' gcl' H h
    have stop : submitTask.loop (n + 1) s a cl gcl = Except.ok (s, cl, gcl) →
        (∀ t, s.tasks_[a]? = some t → t.taskState ≠ TaskState.Pending) →
        submitTask.LoopPost s a cl gcl s' cl' gcl' := by
      intro e hne
      rw [e] at h
      simp only [Except.ok.injEq, Prod.mk.injEq] at h
      obtain ⟨rfl, rfl, rfl⟩ := h
      exact submitTask.LoopPost.stop _ _ _ _ hne
    by_cases hlen : s.tasks_.length ≤ a
    · apply stop (submitTask.loop_stop_end _ _ _ _ _ hlen)
      intro t ht
      have := (List.getElem?_eq_some.mp ht).1
      omega
    · have hlt : a < s.tasks_.length := by omega
      have hta : s.tasks_[a]? = some s.tasks_[a] := List.getElem?_eq_getElem hlt
      generalize s.tasks_[a] = t at hta
      by_cases hst : t.taskState = TaskState.Pending
      · have hn := H a t (le_refl _) hta hst
        by_cases hc : t.cmdList = none
        · obtain ⟨e, he⟩ := submitTask.loop_null n s a cl gcl t hta hst hc
          rw [he] at h
          simp at h
        · rw [submitTask.loop_unit_step n s a cl gcl t hta hst hn hc] at h
          have H' : ∀ k u, a + 1 ≤ k →
              (s.tasks_.set a (t.withState TaskState.Submitted))[k]? = some u →
              u.taskState = TaskState.Pending → u.nodeCount = 1 := by
            intro k u hk hu
            rw [List.getElem?_set_ne (by omega)] at hu
            exact H k u (by omega) hu
          obtain ⟨j, j1, j2, j3, j4, j5, j6, j7, j8, j9, j10⟩ := ih _ _ _ _ _ _ _ H' h
          have hstored : (List.range' (a + 1) (j - (a + 1))).map
                (storedCmdList (s.tasks_.set a (t.withState TaskState.Submitted))) =
              (List.range' (a + 1) (j - (a + 1))).map (storedCmdList s.tasks_) := by
            apply List.map_congr_left
            intro k hk
            simp only [List.mem_range'_1] at hk
            simp only [storedCmdList, List.getD_eq_getElem?_getD]
            rw [List.getElem?_set_ne (by omega)]
          have hrange : List.range' a (j - a) = a :: List.range' (a + 1) (j - (a + 1)) := by
            have : j - a = (j - (a + 1)) + 1 := by omega
            rw [this, List.range'_succ]
          simp only at j3 j4 j5 j6 j7 j8 j9 j10
          refine ⟨j, by omega, ?_, ?_, ?_, ?_, ?_, j7, j8, ?_, ?_⟩
          · intro k h1 h2
            by_cases hk : k = a
            · subst hk
              exact ⟨t, hta, hst, hc⟩
            · obtain ⟨u, hu, r⟩ := j2 k (by omega) h2
              rw [List.getElem?_set_ne (by omega)] at hu
              exact ⟨u, hu, r⟩
          · intro u hu
            apply j3
            rw [List.getElem?_set_ne (by omega)]
            exact hu
          · simpa using j4
          · intro k
            rw [j5 k]
            by_cases hk : k = a
            · subst hk
              rw [if_neg (by omega), if_pos (by omega)]
              simp [hlt, hta]
            · rw [List.getElem?_set_ne (fun h => hk h.symm)]
              by_cases c : a + 1 ≤ k ∧ k < j
              · rw [if_pos c, if_pos (by omega)]
              · rw [if_neg c, if_neg (by omega)]
          · rw [if_neg (show ¬ j = a by omega), j6]
            by_cases hj : j = a + 1
            · rw [if_pos hj, hj]
            · rw [if_neg hj]
          · rw [j9, hstored, hrange, List.map_cons, storedCmdList_of_getElem? _ _ _ hta]
            simp
          · rw [j10, hstored, hrange, List.map_cons, storedCmdList_of_getElem? _ _ _ hta]
            simp
      · apply stop (submitTask.loop_stop_state _ _ _ _ _ t hta hst)
        intro u hu
        rw [hta] at hu
        cases hu
        exact hst

/-- The loop returns when every `Pending` task from `a` on covers one node
and holds a command list. -/
theorem submitTask.loop_unit_ok :
    ∀ (fuel : Nat) (s : FrameGraphTaskScheduler) (a : Nat) (cl gcl : List (Option Nat)),
      (∀ k t, a ≤ k → s.tasks_[k]? = some t → t.taskState = TaskState.Pending →
        t.nodeCount = 1 ∧ t.cmdList ≠ none) →
      s.tasks_.length - a + 1 ≤ fuel →
      ∃ r, submitTask.loop fuel s a cl gcl = Except.ok r := by
  intro fuel
  induction fuel with
  | zero => intro s a cl gcl _ h; omega
  | succ n ih =>
    intro s a cl gcl H hf
    by_cases hlen : s.tasks_.length ≤ a
    · exact ⟨_, submitTask.loop_stop_end _ _ _ _ _ hlen⟩
    · have hlt : a < s.tasks_.length := by omega
      have hta : s.tasks_[a]? = some s.tasks_[a] := List.getElem?_eq_getElem hlt
      generalize s.tasks_[a] = t at hta
      by_cases hst : t.taskState = TaskState.Pending
      · obtain ⟨hn, hc⟩ := H a t (le_refl _) hta hst
        rw [submitTask.loop_unit_step n s a cl gcl t hta hst hn hc]
        apply ih
        · intro k u hk hu
          rw [List.getElem?_set_ne (by omega)] at hu
          exact H k u (by omega) hu
        · simp only [List.length_set]
          omega
      · exact ⟨_, submitTask.loop_stop_state _ _ _ _ _ t hta hst⟩

theorem setTaskStates_above (st : TaskState) :
    ∀ (count i : Nat) (ts ts' : List Task),
      setTaskStates st count i ts = Except.ok ts' → ∀ k, i + count ≤ k → ts'[k]? = ts[k]? := by
  intro count
  induction count with
  | zero =>
    intro i ts ts' h k _
    simp [setTaskStates] at h
    rw [← h]
  | succ n ih =>
    intro i ts ts' h k hk
    unfold setTaskStates at h
    cases hti : ts[i]? with
    | none => simp [hti] at h
    | some t =>
      simp only [hti] at h
      rw [ih _ _ _ h k (by omega), List.getElem?_set_ne (by omega)]

/-- One pass through the head of the loop: it stops with a result that does
not depend on the bound, or it completes an iteration on a `Pending` task with
a positive stored length and a command list, and goes on from `nodeEnd`. -/
theorem submitTask.loop_cases (s : FrameGraphTaskScheduler) (a : Nat)
    (cl gcl : List (Option Nat)) :
    (∃ r, r ≠ Except.error Fault.fuelExhausted ∧
      ∀ k, submitTask.loop (k + 1) s a cl gcl = r) ∨
    (∃ t ts, s.tasks_[a]? = some t ∧ t.taskState = TaskState.Pending ∧ 0 < t.nodeCount ∧
      t.cmdList ≠ none ∧
      setTaskStates TaskState.Submitted (sizeAdd s.tasks_.length a t.nodeCount - a) a
        s.tasks_ = Except.ok ts ∧
      ∀ k, submitTask.loop (k + 1) s a cl gcl =
        submitTask.loop k
          { s with
            tasks_ := ts
            finishedNodeCount_ := sizeAdd s.tasks_.length a t.nodeCount }
          (sizeAdd s.tasks_.length a t.nodeCount) (cl ++ [t.cmdList]) (gcl ++ [t.cmdList])) := by
  by_cases hlen : s.tasks_.length ≤ a
  · exact Or.inl ⟨_, by simp, fun k => submitTask.loop_stop_end k s a cl gcl hlen⟩
  · have hlt : a < s.tasks_.length := by omega
    have hta : s.tasks_[a]? = some s.tasks_[a] := List.getElem?_eq_getElem hlt
    generalize s.tasks_[a] = t at hta
    by_cases hst : t.taskState = TaskState.Pending
    · by_cases hn : 0 < t.nodeCount
      · by_cases hc : t.cmdList = none
        · left
          refine ⟨Except.error Fault.assertFailed, by simp, ?_⟩
          intro k
          unfold submitTask.loop
          simp [hta, hst, hc, hn, Nat.not_le.mpr hlt]
        · cases hset : setTaskStates TaskState.Submitted
              (sizeAdd s.tasks_.length a t.nodeCount - a) a s.tasks_ with
          | error e =>
            left
            have he := setTaskStates_fault _ _ _ _ _ hset
            refine ⟨Except.error e, by rw [he]; simp, ?_⟩
            intro k
            unfold submitTask.loop
            simp [hta, hst, hc, hn, Nat.not_le.mpr hlt, hset]
          | ok ts =>
            right
            refine ⟨t, ts, hta, hst, hn, hc, hset, ?_⟩
            intro k
            conv => lhs; unfold submitTask.loop
            simp [hta, hst, hc, hn, Nat.not_le.mpr hlt, hset]
      · left
        refine ⟨Except.error Fault.assertFailed, by simp, ?_⟩
        intro k
        unfold submitTask.loop
        simp [hta, hst, hn, Nat.not_le.mpr hlt]
    · exact Or.inl ⟨_, by simp, fun k => submitTask.loop_stop_state k s a cl gcl t hta hst⟩

/-- A result of the loop that is not the used-up bound is the result for
every larger bound. -/
theorem submitTask.loop_mono :
    ∀ (fuel fuel' : Nat) (s : FrameGraphTaskScheduler) (a : Nat) (cl gcl : List (Option Nat)),
      fuel ≤ fuel' → submitTask.loop fuel s a cl gcl ≠ Except.error Fault.fuelExhausted →
      submitTask.loop fuel' s a cl gcl = submitTask.loop fuel s a cl gcl := by
  intro fuel
  induction fuel with
  | zero => intro fuel' s a cl gcl _ h; exact absurd rfl h
  | succ n ih =>
    intro fuel' s a cl gcl hle h
    obtain ⟨m, rfl⟩ : ∃ m, fuel' = m + 1 := ⟨fuel' - 1, by omega⟩
    rcases submitTask.loop_cases s a cl gcl with ⟨r, _, hr⟩ | ⟨t, ts, _, _, _, _, _, hstep⟩
    · rw [hr m, hr n]
    · rw [hstep m, hstep n]
      rw [hstep n] at h
      exact ih m _ _ _ _ (by omega) h

/-- One iteration of the loop on a `Pending` task whose range lies within the
task list: the sum of line 93 does not wrap. -/
theorem submitTask.loop_step (fuel : Nat) (s : FrameGraphTaskScheduler) (a : Nat)
    (cl gcl : List (Option Nat)) (t : Task) (ts : List Task) (ht : s.tasks_[a]? = some t)
    (hst : t.taskState = TaskState.Pending) (hn : 1 ≤ t.nodeCount) (hc : t.cmdList ≠ none)
    (hset : setTaskStates TaskState.Submitted t.nodeCount a s.tasks_ = Except.ok ts) :
    submitTask.loop (fuel + 1) s a cl gcl =
      submitTask.loop fuel { s with tasks_ := ts, finishedNodeCount_ := a + t.nodeCount }
        (a + t.nodeCount) (cl ++ [t.cmdList]) (gcl ++ [t.cmdList]) := by
  have hlt := getElem?_lt ht
  have hb := setTaskStates_bound _ _ _ _ _ hset (by omega)
  have hadd : sizeAdd s.tasks_.length a t.nodeCount = a + t.nodeCount := sizeAdd_of_le hb
  have hcount : a + t.nodeCount - a = t.nodeCount := by omega
  have hpos : t.nodeCount > 0 := by omega
  conv => lhs; unfold submitTask.loop
  simp [ht, hst, hc, hpos, Nat.not_le.mpr hlt, hadd, hcount, hset]

theorem pendingRun_ge (ts : List Task) :
    ∀ (fuel i k : Nat), k ∈ pendingRun ts fuel i → i ≤ k := by
  intro fuel
  induction fuel with
  | zero => intro i k h; simp [pendingRun] at h
  | succ n ih =>
    intro i k h
    unfold pendingRun at h
    cases hti : ts[i]? with
    | none => simp [hti] at h
    | some t =>
      simp only [hti] at h
      by_cases hst : t.taskState = TaskState.Pending
      · rw [if_pos hst] at h
        rcases List.mem_cons.mp h with rfl | h
        · exact le_refl _
        · have := ih _ _ h
          omega
      · rw [if_neg hst] at h
        cases h

/-- Every start listed in a run is the index of a `Pending` task. -/
theorem pendingRun_mem (ts : List Task) :
    ∀ (fuel i k : Nat), k ∈ pendingRun ts fuel i →
      ∃ t, ts[k]? = some t ∧ t.taskState = TaskState.Pending := by
  intro fuel
  induction fuel with
  | zero => intro i k h; simp [pendingRun] at h
  | succ n ih =>
    intro i k h
    unfold pendingRun at h
    cases hti : ts[i]? with
    | none => simp [hti] at h
    | some t =>
      simp only [hti] at h
      by_cases hst : t.taskState = TaskState.Pending
      · rw [if_pos hst] at h
        rcases List.mem_cons.mp h with rfl | h
        · exact ⟨t, hti, hst⟩
        · exact ih _ _ h
      · rw [if_neg hst] at h
        cases h

/-- The run from `i` looks only at the tasks from `i` on. -/
theorem pendingRun_congr (ts ts' : List Task) :
    ∀ (fuel i : Nat), (∀ k, i ≤ k → ts'[k]? = ts[k]?) →
      pendingRun ts' fuel i = pendingRun ts fuel i ∧
      pendingRunEnd ts' fuel i = pendingRunEnd ts fuel i := by
  intro fuel
  induction fuel with
  | zero => intro i _; exact ⟨rfl, rfl⟩
  | succ n ih =>
    intro i h
    unfold pendingRun pendingRunEnd
    rw [h i (le_refl _)]
    cases hti : ts[i]? with
    | none => exact ⟨rfl, rfl⟩
    | some t =>
      simp only
      by_cases hst : t.taskState = TaskState.Pending
      · obtain ⟨h1, h2⟩ := ih (i + t.nodeCount) (fun k hk => h k (by omega))
        rw [if_pos hst, if_pos hst, if_pos hst, if_pos hst, h1, h2]
        exact ⟨rfl, rfl⟩
      · rw [if_neg hst, if_neg hst, if_neg hst, if_neg hst]
        exact ⟨rfl, rfl⟩

theorem pendingRun_none (ts : List Task) (fuel i : Nat) (h : ts.length ≤ i) :
    pendingRun ts fuel i = [] ∧ pendingRunEnd ts fuel i = i := by
  have hn : ts[i]? = none := List.getElem?_eq_none h
  cases fuel with
  | zero => exact ⟨rfl, rfl⟩
  | succ n => simp [pendingRun, pendingRunEnd, hn]

theorem pendingRun_other (ts : List Task) (fuel i : Nat) (t : Task) (ht : ts[i]? = some t)
    (hst : t.taskState ≠ TaskState.Pending) :
    pendingRun ts fuel i = [] ∧ pendingRunEnd ts fuel i = i := by
  cases fuel with
  | zero => exact ⟨rfl, rfl⟩
  | succ n => simp [pendingRun, pendingRunEnd, ht, hst]

theorem pendingRun_pending (ts : List Task) (fuel i : Nat) (t : Task) (ht : ts[i]? = some t)
    (hst : t.taskState = TaskState.Pending) :
    pendingRun ts (fuel + 1) i = i :: pendingRun ts fuel (i + t.nodeCount) ∧
    pendingRunEnd ts (fuel + 1) i = pendingRunEnd ts fuel (i + t.nodeCount) := by
  simp [pendingRun, pendingRunEnd, ht, hst]

/-- The run behind node 1 when nodes 2, 3 and 4 are `Pending` single-node
ranges. -/
theorem pendingRun_three (ts : List Task)
    (h : ∀ k, 2 ≤ k → k ≤ 4 →
      ∃ t, ts[k]? = some t ∧ t.taskState = TaskState.Pending ∧ t.nodeCount = 1) :
    ∃ rest, pendingRun ts ts.length 2 = 2 :: 3 :: 4 :: rest := by
  obtain ⟨t2, h2, s2, n2⟩ := h 2 (by omega) (by omega)
  obtain ⟨t3, h3, s3, n3⟩ := h 3 (by omega) (by omega)
  obtain ⟨t4, h4, s4, n4⟩ := h 4 (by omega) (by omega)
  have hlen := getElem?_lt h4
  obtain ⟨m, hm⟩ : ∃ m, ts.length = m + 1 + 1 + 1 := ⟨ts.length - 3, by omega⟩
  refine ⟨pendingRun ts m 5, ?_⟩
  rw [hm, (pendingRun_pending ts _ 2 t2 h2 s2).1, n2, (pendingRun_pending ts _ 3 t3 h3 s3).1, n3,
    (pendingRun_pending ts _ 4 t4 h4 s4).1, n4]

/-- The run computed by `pendingRun` is the maximal run of consecutive
`Pending` ranges, and its starts increase, when its ranges have a stored
length of at least 1. -/
theorem pendingRun_spec (ts : List Task) :
    ∀ (fuel i : Nat), ts.length - i ≤ fuel →
      (∀ k ∈ pendingRun ts fuel i, ∀ t, ts[k]? = some t → 1 ≤ t.nodeCount) →
      IsPendingRun ts i (pendingRun ts fuel i) (pendingRunEnd ts fuel i) ∧
      (pendingRun ts fuel i).Pairwise (fun a b => a < b) := by
  intro fuel
  induction fuel with
  | zero =>
    intro i hf _
    refine ⟨IsPendingRun.stop i ?_, List.Pairwise.nil⟩
    intro t ht
    have := getElem?_lt ht
    omega
  | succ n ih =>
    intro i hf hwf
    by_cases hlen : ts.length ≤ i
    · obtain ⟨h1, h2⟩ := pendingRun_none ts (n + 1) i hlen
      rw [h1, h2]
      refine ⟨IsPendingRun.stop i ?_, List.Pairwise.nil⟩
      intro t ht
      have := getElem?_lt ht
      omega
    · have hlt : i < ts.length := by omega
      have hti : ts[i]? = some ts[i] := List.getElem?_eq_getElem hlt
      generalize ts[i] = t at hti
      by_cases hst : t.taskState = TaskState.Pending
      · obtain ⟨h1, h2⟩ := pendingRun_pending ts n i t hti hst
        rw [h1] at hwf
        have hn := hwf i (List.mem_cons_self _ _) t hti
        obtain ⟨r1, r2⟩ := ih (i + t.nodeCount) (by omega)
          (fun k hk => hwf k (List.mem_cons_of_mem _ hk))
        rw [h1, h2]
        refine ⟨IsPendingRun.range i t _ _ hti hst r1, List.Pairwise.cons ?_ r2⟩
        intro k hk
        have := pendingRun_ge ts _ _ _ hk
        omega
      · obtain ⟨h1, h2⟩ := pendingRun_other ts (n + 1) i t hti hst
        rw [h1, h2]
        refine ⟨IsPendingRun.stop i ?_, List.Pairwise.nil⟩
        intro u hu
        rw [hti] at hu
        cases hu
        exact hst

theorem submitTask.RunPost.empty_run (s : FrameGraphTaskScheduler) (i : Nat)
    (h : ∀ t, s.tasks_[i]? = some t → t.taskState ≠ TaskState.Pending) :
    submitTask.RunPost s i i s := by
  refine ⟨le_refl _, fun h => h, h, rfl, ?_, by simp, rfl, rfl⟩
  intro k
  rw [if_neg (by omega)]

/-- What the loop does on a run of `Pending` ranges that have a stored length
of at least 1 and a stored command list and lie within the task list: it
returns, has appended the stored command lists of the run to both vectors, and
has marked the tasks of the run `Submitted`. -/
theorem submitTask.loop_run :
    ∀ (f fuel : Nat) (s : FrameGraphTaskScheduler) (i : Nat) (cl gcl : List (Option Nat)),
      s.tasks_.length - i ≤ f → f < fuel →
      (∀ k ∈ pendingRun s.tasks_ f i, ∀ t, s.tasks_[k]? = some t →
        1 ≤ t.nodeCount ∧ t.cmdList ≠ none ∧ k + t.nodeCount ≤ s.tasks_.length) →
      ∃ s', submitTask.loop fuel s i cl gcl =
          Except.ok (s', cl ++ (pendingRun s.tasks_ f i).map (storedCmdList s.tasks_),
            gcl ++ (pendingRun s.tasks_ f i).map (storedCmdList s.tasks_)) ∧
        submitTask.RunPost s i (pendingRunEnd s.tasks_ f i) s' := by
  intro f
  induction f with
  | zero =>
    intro fuel s i cl gcl hf hfuel _
    obtain ⟨m, rfl⟩ : ∃ m, fuel = m + 1 := ⟨fuel - 1, by omega⟩
    refine ⟨s, ?_, ?_⟩
    · rw [submitTask.loop_stop_end m s i cl gcl (by omega)]
      simp [pendingRun]
    · apply submitTask.RunPost.empty_run
      intro t ht
      have := getElem?_lt ht
      omega
  | succ n ih =>
    intro fuel s i cl gcl hf hfuel hwf
    obtain ⟨m, rfl⟩ : ∃ m, fuel = m + 1 := ⟨fuel - 1, by omega⟩
    by_cases hlen : s.tasks_.length ≤ i
    · obtain ⟨h1, h2⟩ := pendingRun_none s.tasks_ (n + 1) i hlen
      rw [h1, h2]
      refine ⟨s, ?_, ?_⟩
      · rw [submitTask.loop_stop_end m s i cl gcl hlen]
        simp
      · apply submitTask.RunPost.empty_run
        intro t ht
        have := getElem?_lt ht
        omega
    · have hlt : i < s.tasks_.length := by omega
      have hti : s.tasks_[i]? = some s.tasks_[i] := List.getElem?_eq_getElem hlt
      generalize s.tasks_[i] = t at hti
      by_cases hst : t.taskState = TaskState.Pending
      · obtain ⟨h1, h2⟩ := pendingRun_pending s.tasks_ n i t hti hst
        rw [h1] at hwf
        obtain ⟨hn, hc, hb⟩ := hwf i (List.mem_cons_self _ _) t hti
        obtain ⟨ts, hset, hl, hpt⟩ := setTaskStates_ok TaskState.Submitted t.nodeCount i
          s.tasks_ hb
        have habove : ∀ k, i + t.nodeCount ≤ k → ts[k]? = s.tasks_[k]? :=
          setTaskStates_above _ _ _ _ _ hset
        obtain ⟨c1, c2⟩ := pendingRun_congr s.tasks_ ts n (i + t.nodeCount) habove
        have hstored : (pendingRun s.tasks_ n (i + t.nodeCount)).map (storedCmdList ts) =
            (pendingRun s.tasks_ n (i + t.nodeCount)).map (storedCmdList s.tasks_) := by
          apply List.map_congr_left
          intro k hk
          have := pendingRun_ge _ _ _ _ hk
          simp only [storedCmdList, List.getD_eq_getElem?_getD]
          rw [habove k this]
        obtain ⟨s', hloop, p1, p2, p3, p4, p5, p6, p7, p8⟩ := ih m
          { s with tasks_ := ts, finishedNodeCount_ := i + t.nodeCount } (i + t.nodeCount)
          (cl ++ [t.cmdList]) (gcl ++ [t.cmdList]) (by simp only [hl]; omega) (by omega)
          (by
            intro k hk u hu
            simp only at hk hu
            rw [c1] at hk
            have hge := pendingRun_ge _ _ _ _ hk
            rw [habove k hge] at hu
            simp only [hl]
            exact hwf k (List.mem_cons_of_mem _ hk) u hu)
        simp only [c1, c2, hl] at hloop p1 p2 p3 p4 p5 p6 p7 p8
        rw [hstored] at hloop
        rw [h1, h2]
        refine ⟨s', ?_, by omega, fun _ => p2 hb, ?_, p4, ?_, ?_, p7, p8⟩
        · rw [submitTask.loop_step m s i cl gcl t ts hti hst hn hc hset, hloop,
            List.map_cons, storedCmdList_of_getElem? _ _ _ hti]
          simp
        · intro u hu
          apply p3
          rw [habove _ p1]
          exact hu
        · intro k
          rw [p5 k, hpt k]
          by_cases ha : i + t.nodeCount ≤ k
          · have hn1 : ¬ (i ≤ k ∧ k < i + t.nodeCount) := by omega
            rw [if_neg hn1]
            by_cases hb1 : k < pendingRunEnd s.tasks_ n (i + t.nodeCount)
            · rw [if_pos ⟨ha, hb1⟩, if_pos ⟨by omega, hb1⟩]
            · rw [if_neg (by omega), if_neg (by omega)]
          · rw [if_neg (by omega)]
            by_cases hik : i ≤ k
            · rw [if_pos ⟨hik, by omega⟩, if_pos ⟨hik, by omega⟩]
            · rw [if_neg (by omega), if_neg (by omega)]
        · have hne : ¬ pendingRunEnd s.tasks_ n (i + t.nodeCount) = i := by omega
          rw [if_neg hne, p6]
          by_cases hj : pendingRunEnd s.tasks_ n (i + t.nodeCount) = i + t.nodeCount
          · rw [if_pos hj, hj]
          · rw [if_neg hj]
      · obtain ⟨h1, h2⟩ := pendingRun_other s.tasks_ (n + 1) i t hti hst
        rw [h1, h2]
        refine ⟨s, ?_, ?_⟩
        · rw [submitTask.loop_stop_state m s i cl gcl t hti hst]
          simp
        · apply submitTask.RunPost.empty_run
          intro u hu
          rw [hti] at hu
          cases hu
          exact hst

/-! ## Single calls -/

theorem Task.withState_self (t : Task) : t.withState t.taskState = t := rfl

/-- A deferred single-node range. -/
theorem submitTask_node_pend (s : FrameGraphTaskScheduler) (i : Nat) (c : Option Nat)
    (t p : Task) (ht : s.tasks_[i]? = some t) (hi : 0 < i) (hp : s.tasks_[i - 1]? = some p)
    (hps : p.taskState ≠ TaskState.Submitted) :
    submitTask s (TaskRange.node i) c =
      Except.ok ({ s with tasks_ := s.tasks_.set i ⟨TaskState.Pending, 1, c⟩ }, []) := by
  have hlt := getElem?_lt ht
  have h1 : (s.tasks_.set i { t with cmdList := c, nodeCount := 1 })[i]? =
      some { t with cmdList := c, nodeCount := 1 } := by
    simp [hlt]
  have h2 := setTaskStates_one TaskState.Pending i _ _ h1
  simp only [submitTask, TaskRange.node, submitTask.pend, ht, hp, hi, hps]
  simp [h2, Task.withState, hps]

/-- A single-node range whose predecessor is done takes the `// submit` path. -/
theorem submitTask_node_ready (s : FrameGraphTaskScheduler) (i : Nat) (c : Option Nat)
    (h : i = 0 ∨ ∃ p, s.tasks_[i - 1]? = some p ∧ p.taskState = TaskState.Submitted) :
    submitTask s (TaskRange.node i) c = submitTask.submit s i (i + 1) c := by
  rcases h with h | ⟨p, hp, hps⟩
  · subst h
    simp [submitTask, TaskRange.node]
  · by_cases hi : i > 0
    · simp [submitTask, TaskRange.node, hp, hps, hi]
    · have : i = 0 := by omega
      subst this
      simp [submitTask, TaskRange.node]

/-- The `// submit` path on a single-node range, up to the loop. -/
theorem submitTask.submit_node (s : FrameGraphTaskScheduler) (i : Nat) (c : Option Nat)
    (t : Task) (ht : s.tasks_[i]? = some t) (s' : FrameGraphTaskScheduler) (es : List Effect)
    (h : submitTask.submit s i (i + 1) c = Except.ok (s', es)) :
    ∃ cl gcl,
      submitTask.loop (submitTask.loopBound s)
        { s with tasks_ := s.tasks_.set i (t.withState TaskState.Submitted),
                 finishedNodeCount_ := i + 1 } (i + 1) [c] [c] = Except.ok (s', cl, gcl) ∧
      es = Effect.ExecuteCommandLists (cl.length % 2 ^ 32) cl ::
        gcl.map Effect.addUnusedGraphicsCmdLists := by
  have h1 := setTaskStates_one TaskState.Submitted i s.tasks_ t ht
  unfold submitTask.submit at h
  have e : i + 1 - i = 1 := by omega
  rw [e, h1] at h
  simp only at h
  split at h
  · simp at h
  · rename_i s'' cl gcl hl
    split at h
    · simp at h
    · simp only [Except.ok.injEq, Prod.mk.injEq] at h
      obtain ⟨rfl, rfl⟩ := h
      exact ⟨cl, gcl, hl, rfl⟩

/-- The `// submit` path on a single-node range returns when the loop does. -/
theorem submitTask.submit_node_ok (s : FrameGraphTaskScheduler) (i : Nat) (c : Option Nat)
    (t : Task) (ht : s.tasks_[i]? = some t) (r : FrameGraphTaskScheduler × List (Option Nat) × List (Option Nat))
    (h : submitTask.loop (submitTask.loopBound s)
        { s with tasks_ := s.tasks_.set i (t.withState TaskState.Submitted),
                 finishedNodeCount_ := i + 1 } (i + 1) [c] [c] = Except.ok r) :
    ∃ r', submitTask.submit s i (i + 1) c = Except.ok r' := by
  have h1 := setTaskStates_one TaskState.Submitted i s.tasks_ t ht
  obtain ⟨s', cl, gcl⟩ := r
  obtain ⟨ext, e1, _⟩ := submitTask.loop_sync _ _ _ _ _ _ _ _ h
  unfold submitTask.submit
  have e : i + 1 - i = 1 := by omega
  rw [e, h1]
  simp only
  rw [h]
  simp [e1]

/-- A range whose predecessor is done takes the `// submit` path. -/
theorem submitTask_range_ready (s : FrameGraphTaskScheduler) (begIdx endIdx : Nat)
    (c : Option Nat) (hle : begIdx ≤ endIdx)
    (h : begIdx = 0 ∨
      ∃ p, s.tasks_[begIdx - 1]? = some p ∧ p.taskState = TaskState.Submitted) :
    submitTask s ⟨some begIdx, some endIdx⟩ c = submitTask.submit s begIdx endIdx c := by
  have hnlt : ¬ endIdx < begIdx := by omega
  rcases h with h | ⟨p, hp, hps⟩
  · subst h
    simp [submitTask]
  · by_cases hi : begIdx > 0
    · simp [submitTask, hp, hps, hi, hnlt]
    · have : begIdx = 0 := by omega
      subst this
      simp [submitTask]

/-- The `// submit` path on a range within the task list, when the `Pending`
ranges of the run behind it have a stored length of at least 1 and a stored
command list and lie within the task list. -/
theorem submitTask.submit_run (s : FrameGraphTaskScheduler) (begIdx endIdx : Nat)
    (c : Option Nat) (hle : begIdx ≤ endIdx) (hend : endIdx ≤ s.tasks_.length)
    (hrun : ∀ k ∈ pendingRun s.tasks_ s.tasks_.length endIdx, ∀ t, s.tasks_[k]? = some t →
      1 ≤ t.nodeCount ∧ t.cmdList ≠ none ∧ k + t.nodeCount ≤ s.tasks_.length) :
    ∃ s', submitTask.submit s begIdx endIdx c =
        Except.ok (s',
          Effect.ExecuteCommandLists
              ((c :: (pendingRun s.tasks_ s.tasks_.length endIdx).map
                (storedCmdList s.tasks_)).length % 2 ^ 32)
              (c :: (pendingRun s.tasks_ s.tasks_.length endIdx).map (storedCmdList s.tasks_)) ::
            (c :: (pendingRun s.tasks_ s.tasks_.length endIdx).map
              (storedCmdList s.tasks_)).map Effect.addUnusedGraphicsCmdLists) ∧
      endIdx ≤ pendingRunEnd s.tasks_ s.tasks_.length endIdx ∧
      pendingRunEnd s.tasks_ s.tasks_.length endIdx ≤ s.tasks_.length ∧
      (∀ t, s.tasks_[pendingRunEnd s.tasks_ s.tasks_.length endIdx]? = some t →
        t.taskState ≠ TaskState.Pending) ∧
      s'.tasks_.length = s.tasks_.length ∧
      (∀ k, s'.tasks_[k]? =
        if begIdx ≤ k ∧ k < pendingRunEnd s.tasks_ s.tasks_.length endIdx then
          (s.tasks_[k]?).map (Task.withState TaskState.Submitted)
        else s.tasks_[k]?) ∧
      s'.finishedNodeCount_ = pendingRunEnd s.tasks_ s.tasks_.length endIdx ∧
      s'.passNodes_ = s.passNodes_ ∧ s'.dispatchedNodeCount_ = s.dispatchedNodeCount_ := by
  obtain ⟨ts, hset, hl, hpt⟩ := setTaskStates_ok TaskState.Submitted (endIdx - begIdx) begIdx
    s.tasks_ (by omega)
  have habove : ∀ k, endIdx ≤ k → ts[k]? = s.tasks_[k]? := by
    intro k hk
    rw [hpt k, if_neg (by omega)]
  obtain ⟨c1, c2⟩ := pendingRun_congr s.tasks_ ts s.tasks_.length endIdx habove
  have hstored : (pendingRun s.tasks_ s.tasks_.length endIdx).map (storedCmdList ts) =
      (pendingRun s.tasks_ s.tasks_.length endIdx).map (storedCmdList s.tasks_) := by
    apply List.map_congr_left
    intro k hk
    have := pendingRun_ge _ _ _ _ hk
    simp only [storedCmdList, List.getD_eq_getElem?_getD]
    rw [habove k this]
  obtain ⟨s', hloop, p1, p2, p3, p4, p5, p6, p7, p8⟩ := submitTask.loop_run s.tasks_.length
    (submitTask.loopBound s) { s with tasks_ := ts, finishedNodeCount_ := endIdx } endIdx
    [c] [c] (by simp only [hl]; omega)
    (by have := submitTask.loopBound_ge s 0; omega)
    (by
      intro k hk u hu
      simp only at hk hu
      rw [c1] at hk
      have hge := pendingRun_ge _ _ _ _ hk
      rw [habove k hge] at hu
      simp only [hl]
      exact hrun k hk u hu)
  simp only [c1, c2, hl] at hloop p1 p2 p3 p4 p5 p6 p7 p8
  rw [hstored] at hloop
  refine ⟨s', ?_, p1, p2 hend, ?_, p4, ?_, ?_, p7, p8⟩
  · unfold submitTask.submit
    rw [hset]
    simp only
    rw [hloop]
    simp
  · intro u hu
    apply p3
    rw [habove _ p1]
    exact hu
  · intro k
    rw [p5 k, hpt k]
    by_cases ha : endIdx ≤ k
    · have hn1 : ¬ (begIdx ≤ k ∧ k < begIdx + (endIdx - begIdx)) := by omega
      rw [if_neg hn1]
      by_cases hb1 : k < pendingRunEnd s.tasks_ s.tasks_.length endIdx
      · rw [if_pos ⟨ha, hb1⟩, if_pos ⟨by omega, hb1⟩]
      · rw [if_neg (by omega), if_neg (by omega)]
    · rw [if_neg (by omega)]
      by_cases hik : begIdx ≤ k
      · rw [if_pos ⟨hik, by omega⟩, if_pos ⟨hik, by omega⟩]
      · rw [if_neg (by omega), if_neg (by omega)]
  · rw [p6]
    by_cases hj : pendingRunEnd s.tasks_ s.tasks_.length endIdx = endIdx
    · rw [if_pos hj, hj]
    · rw [if_neg hj]

theorem requestTask_done (s : FrameGraphTaskScheduler)
    (h : s.passNodes_.length ≤ s.dispatchedNodeCount_) :
    requestTask s = Except.ok (s, TaskRange.sentinel) := by
  simp [requestTask, h, TaskRange.sentinel]

theorem requestTask_claim (s : FrameGraphTaskScheduler) (t : Task)
    (h : s.dispatchedNodeCount_ < s.passNodes_.length)
    (ht : s.tasks_[s.dispatchedNodeCount_]? = some t) :
    requestTask s = Except.ok
      ({ s with tasks_ := s.tasks_.set s.dispatchedNodeCount_ (t.withState TaskState.NotFinished),
                dispatchedNodeCount_ := s.dispatchedNodeCount_ + 1 },
        TaskRange.node s.dispatchedNodeCount_) := by
  simp [requestTask, Nat.not_le.mpr h, ht, TaskRange.node, Task.withState]

theorem TaskRange.node_inj {i j : Nat} (h : TaskRange.node i = TaskRange.node j) : i = j := by
  simp [TaskRange.node] at h
  exact h

theorem TaskRange.node_ne_sentinel (i : Nat) : TaskRange.node i ≠ TaskRange.sentinel := by
  simp [TaskRange.node, TaskRange.sentinel]

theorem Effect.batches_execute (n : Nat) (b : List (Option Nat)) (g : List (Option Nat)) :
    Effect.batches (Effect.ExecuteCommandLists n b :: g.map Effect.addUnusedGraphicsCmdLists) =
      [b] := by
  have : ∀ g : List (Option Nat), Effect.batches (g.map Effect.addUnusedGraphicsCmdLists) = [] := by
    intro g
    induction g with
    | nil => rfl
    | cons x xs ih => simpa [Effect.batches] using ih
  simp [Effect.batches, this]

theorem Reply.batches_append (rs rs' : List Reply) :
    Reply.batches (rs ++ rs') = Reply.batches rs ++ Reply.batches rs' := by
  induction rs with
  | nil => rfl
  | cons r rs ih =>
    cases r with
    | range _ => simpa [Reply.batches] using ih
    | effects es => simp [Reply.batches, ih]

theorem Reply.batches_range (rs : List Reply) (r : TaskRange) :
    Reply.batches (rs ++ [Reply.range r]) = Reply.batches rs := by
  simp [Reply.batches_append, Reply.batches]

theorem Reply.batches_effects (rs : List Reply) (es : List Effect) :
    Reply.batches (rs ++ [Reply.effects es]) = Reply.batches rs ++ Effect.batches es := by
  simp [Reply.batches_append, Reply.batches]

theorem FrameDriver.call_submitTask (d d' : FrameDriver) (r : TaskRange) (c : Option Nat)
    (h : d.call (Call.submitTask r c) = Except.ok d') :
    ∃ s' es, submitTask d.sched r c = Except.ok (s', es) ∧
      d' = { sched := s', replies := d.replies ++ [Reply.effects es],
             outstanding := d.outstanding.erase r, submitted := (r, c) :: d.submitted } := by
  unfold FrameDriver.call at h
  cases hs : submitTask d.sched r c with
  | error e => simp [hs] at h
  | ok p =>
    obtain ⟨s', es⟩ := p
    simp only [hs, Except.ok.injEq] at h
    exact ⟨s', es, rfl, h.symm⟩

/-- What a `submitTask` call on an outstanding range does. -/
theorem submit_step (passNodes : List FrameGraphPassNode) (d d' : FrameDriver) (r : TaskRange)
    (c : Option Nat) (inv : Inv passNodes d) (hr : r ∈ d.outstanding)
    (hc : d.call (Call.submitTask r c) = Except.ok d') :
    ∃ i t, r = TaskRange.node i ∧ i < d.sched.dispatchedNodeCount_ ∧
      d.sched.tasks_[i]? = some t ∧ t.taskState = TaskState.NotFinished ∧
      d'.outstanding = d.outstanding.erase r ∧ d'.submitted = (r, c) :: d.submitted ∧
      (PendStep d d' i c ∨ FlushStep d d' i c) := by
  obtain ⟨i, t, rfl, hi, ht, hst⟩ := (inv.outstanding_iff r).mp hr
  obtain ⟨s', es, hs, rfl⟩ := FrameDriver.call_submitTask d d' _ c hc
  refine ⟨i, t, rfl, hi, ht, hst, rfl, rfl, ?_⟩
  have hfi : d.sched.finishedNodeCount_ ≤ i := by
    by_contra hlt
    have := (inv.submitted_iff i t ht).mpr (by omega)
    rw [this] at hst
    cases hst
  have hilt := getElem?_lt ht
  rcases Nat.lt_or_eq_of_le hfi with hlt | heq
  · left
    have hp : d.sched.tasks_[i - 1]? = some d.sched.tasks_[i - 1] :=
      List.getElem?_eq_getElem (by omega)
    generalize d.sched.tasks_[i - 1] = p at hp
    have hps : p.taskState ≠ TaskState.Submitted := by
      intro h
      have := (inv.submitted_iff (i - 1) p hp).mp h
      omega
    rw [submitTask_node_pend d.sched i c t p ht (by omega) hp hps] at hs
    simp only [Except.ok.injEq, Prod.mk.injEq] at hs
    obtain ⟨rfl, rfl⟩ := hs
    exact ⟨hlt, rfl, rfl⟩
  · right
    have hready : i = 0 ∨ ∃ p, d.sched.tasks_[i - 1]? = some p ∧
        p.taskState = TaskState.Submitted := by
      rcases Nat.eq_zero_or_pos i with h0 | hpos
      · exact Or.inl h0
      · right
        have hp : d.sched.tasks_[i - 1]? = some d.sched.tasks_[i - 1] :=
          List.getElem?_eq_getElem (by omega)
        exact ⟨_, hp, (inv.submitted_iff (i - 1) _ hp).mpr (by omega)⟩
    rw [submitTask_node_ready d.sched i c hready] at hs
    obtain ⟨cl, gcl, hl, rfl⟩ := submitTask.submit_node d.sched i c t ht s' es hs
    have H : ∀ k u, i + 1 ≤ k →
        (d.sched.tasks_.set i (t.withState TaskState.Submitted))[k]? = some u →
        u.taskState = TaskState.Pending → u.nodeCount = 1 := by
      intro k u hk hu hup
      rw [List.getElem?_set_ne (by omega)] at hu
      exact (inv.pending k u hu hup).1
    obtain ⟨j, j1, j2, j3, j4, j5, j6, j7, j8, j9, j10⟩ :=
      submitTask.loop_unit _ _ _ _ _ _ _ _ H hl
    simp only at j2 j3 j4 j5 j6 j7 j8 j9 j10
    have hstored : (List.range' (i + 1) (j - (i + 1))).map
          (storedCmdList (d.sched.tasks_.set i (t.withState TaskState.Submitted))) =
        (List.range' (i + 1) (j - (i + 1))).map (storedCmdList d.sched.tasks_) := by
      apply List.map_congr_left
      intro k hk
      simp only [List.mem_range'_1] at hk
      simp only [storedCmdList, List.getD_eq_getElem?_getD]
      rw [List.getElem?_set_ne (by omega)]
    rw [hstored] at j9 j10
    refine ⟨heq.symm, j, by omega, ?_, ?_, ?_, ?_, ?_, j7, j8, ?_⟩
    · intro k h1 h2
      obtain ⟨u, hu, r⟩ := j2 k (by omega) h2
      rw [List.getElem?_set_ne (by omega)] at hu
      exact ⟨u, hu, r⟩
    · intro u hu
      have hnp : u.taskState ≠ TaskState.Pending := by
        apply j3
        rw [List.getElem?_set_ne (by omega)]
        exact hu
      have hns : u.taskState ≠ TaskState.Submitted := by
        intro h
        have := (inv.submitted_iff j u hu).mp h
        omega
      cases hu' : u.taskState with
      | NotFinished => rfl
      | Pending => exact absurd hu' hnp
      | Submitted => exact absurd hu' hns
    · simpa using j4
    · intro k
      simp only
      rw [j5 k]
      by_cases hk : k = i
      · subst hk
        rw [if_neg (by omega), if_pos (by omega)]
        simp [hilt, ht]
      · rw [List.getElem?_set_ne (fun h => hk h.symm)]
        by_cases c1 : i + 1 ≤ k ∧ k < j
        · rw [if_pos c1, if_pos (by omega)]
        · rw [if_neg c1, if_neg (by omega)]
    · simp only
      rw [j6]
      by_cases hj : j = i + 1
      · rw [if_pos hj, hj]
      · rw [if_neg hj]
    · simp only
      rw [j9, j10]
      rfl

/-! ## The invariant of intended use -/

theorem lookup_node_cons_self (i : Nat) (c : Option Nat) (sub : List (TaskRange × Option Nat)) :
    ((TaskRange.node i, c) :: sub).lookup (TaskRange.node i) = some c := by
  simp [List.lookup_cons]

theorem lookup_node_cons_ne (i k : Nat) (c : Option Nat) (sub : List (TaskRange × Option Nat))
    (h : k ≠ i) :
    ((TaskRange.node i, c) :: sub).lookup (TaskRange.node k) = sub.lookup (TaskRange.node k) := by
  have : (TaskRange.node k == TaskRange.node i) = false := by
    simp [TaskRange.node, h]
  simp [List.lookup_cons, this]

theorem set_eq_self {α : Type} (l : List α) (i : Nat) (a : α) (h : l[i]? = some a) :
    l.set i a = l := by
  apply List.ext_getElem?
  intro k
  by_cases hk : i = k
  · subst hk
    rw [List.getElem?_set_self (getElem?_lt h), h]
  · rw [List.getElem?_set_ne hk]

theorem restart_eq_construct (s : FrameGraphTaskScheduler) :
    restart s =
      { construct s.passNodes_ with
        tasks_ := List.replicate s.tasks_.length ⟨TaskState.NotFinished, 0, none⟩ } := by
  simp [restart, construct, List.map_const']

theorem construct_eq (passNodes : List FrameGraphPassNode) :
    construct passNodes =
      { passNodes_ := passNodes
        tasks_ := List.replicate passNodes.length ⟨TaskState.NotFinished, 0, none⟩
        dispatchedNodeCount_ := 0
        finishedNodeCount_ := 0 } := by
  simp [restart, construct]

theorem restart_of_length (s : FrameGraphTaskScheduler) (passNodes : List FrameGraphPassNode)
    (hp : s.passNodes_ = passNodes) (ht : s.tasks_.length = passNodes.length) :
    restart s = construct passNodes := by
  rw [restart_eq_construct, hp, ht, construct_eq]

theorem Inv.construct (passNodes : List FrameGraphPassNode) :
    Inv passNodes (FrameDriver.start (construct passNodes)) := by
  rw [construct_eq]
  have hget : ∀ (i : Nat) (t : Task),
      (List.replicate passNodes.length (⟨TaskState.NotFinished, 0, none⟩ : Task))[i]? = some t →
      t = ⟨TaskState.NotFinished, 0, none⟩ := by
    intro i t h
    rw [List.getElem?_replicate] at h
    split at h
    · cases h; rfl
    · cases h
  constructor
  · rfl
  · simp [FrameDriver.start]
  · simp [FrameDriver.start]
  · simp [FrameDriver.start]
  · intro i t h
    simp only [FrameDriver.start] at h
    rw [hget i t h]
    simp [FrameDriver.start]
  · intro i t h _
    simp only [FrameDriver.start] at h
    rw [hget i t h]
  · intro t h
    simp only [FrameDriver.start] at h
    rw [hget _ t h]
  · intro i t h _
    simp only [FrameDriver.start] at h
    rw [hget i t h]
    exact ⟨rfl, rfl⟩
  · simp [FrameDriver.start]
  · intro r
    simp [FrameDriver.start]
  · intro i t h hp
    simp only [FrameDriver.start] at h
    rw [hget i t h] at hp
    cases hp
  · simp [FrameDriver.start, Reply.batches]

/-- What a `requestTask` call does in a state of intended use. -/
theorem request_step (passNodes : List FrameGraphPassNode) (d : FrameDriver)
    (inv : Inv passNodes d) :
    d.call Call.requestTask = Except.ok
      (if d.sched.dispatchedNodeCount_ < passNodes.length then
        { d with
          sched := { d.sched with dispatchedNodeCount_ := d.sched.dispatchedNodeCount_ + 1 }
          replies := d.replies ++ [Reply.range (TaskRange.node d.sched.dispatchedNodeCount_)]
          outstanding := TaskRange.node d.sched.dispatchedNodeCount_ :: d.outstanding }
      else
        { d with replies := d.replies ++ [Reply.range TaskRange.sentinel] }) := by
  by_cases h : d.sched.dispatchedNodeCount_ < passNodes.length
  · rw [if_pos h]
    have hlt : d.sched.dispatchedNodeCount_ < d.sched.tasks_.length := by
      rw [inv.length_eq]; exact h
    have ht : d.sched.tasks_[d.sched.dispatchedNodeCount_]? =
        some d.sched.tasks_[d.sched.dispatchedNodeCount_] := List.getElem?_eq_getElem hlt
    generalize d.sched.tasks_[d.sched.dispatchedNodeCount_] = t at ht
    have hst := inv.unclaimed _ t ht (le_refl _)
    have hself : t.withState TaskState.NotFinished = t := by
      rw [← hst]; rfl
    have hreq := requestTask_claim d.sched t (by rw [inv.passNodes_eq]; exact h) ht
    rw [hself, set_eq_self _ _ _ ht] at hreq
    simp [FrameDriver.call, hreq, TaskRange.node_ne_sentinel]
  · rw [if_neg h]
    have hreq := requestTask_done d.sched (by rw [inv.passNodes_eq]; omega)
    simp [FrameDriver.call, hreq]

theorem Inv.requestTask (passNodes : List FrameGraphPassNode) (d d' : FrameDriver)
    (inv : Inv passNodes d) (hc : d.call Call.requestTask = Except.ok d') :
    Inv passNodes d' := by
  rw [request_step passNodes d inv] at hc
  simp only [Except.ok.injEq] at hc
  subst hc
  by_cases h : d.sched.dispatchedNodeCount_ < passNodes.length
  · rw [if_pos h]
    have hnot : TaskRange.node d.sched.dispatchedNodeCount_ ∉ d.outstanding := by
      intro hm
      obtain ⟨i, t, e, hi, _, _⟩ := (inv.outstanding_iff _).mp hm
      have := TaskRange.node_inj e
      omega
    constructor
    · exact inv.passNodes_eq
    · exact inv.length_eq
    · simp only; omega
    · have := inv.finished_le
      simp only; omega
    · exact inv.submitted_iff
    · intro i t ht hi
      simp only at ht hi
      exact inv.unclaimed i t ht (by omega)
    · exact inv.front
    · exact inv.blank
    · simp only
      exact List.nodup_cons.mpr ⟨hnot, inv.outstanding_nodup⟩
    · intro r
      simp only [List.mem_cons]
      constructor
      · rintro (rfl | hm)
        · have hlt : d.sched.dispatchedNodeCount_ < d.sched.tasks_.length := by
            rw [inv.length_eq]; exact h
          have ht : d.sched.tasks_[d.sched.dispatchedNodeCount_]? =
              some d.sched.tasks_[d.sched.dispatchedNodeCount_] := List.getElem?_eq_getElem hlt
          exact ⟨_, _, rfl, by omega, ht, inv.unclaimed _ _ ht (le_refl _)⟩
        · obtain ⟨i, t, e, hi, ht, hs⟩ := (inv.outstanding_iff _).mp hm
          exact ⟨i, t, e, by omega, ht, hs⟩
      · rintro ⟨i, t, e, hi, ht, hs⟩
        by_cases hid : i = d.sched.dispatchedNodeCount_
        · left; rw [e, hid]
        · right
          exact (inv.outstanding_iff _).mpr ⟨i, t, e, by omega, ht, hs⟩
    · exact inv.pending
    · simp only [Reply.batches_range]
      exact inv.batches
  · rw [if_neg h]
    constructor
    · exact inv.passNodes_eq
    · exact inv.length_eq
    · exact inv.dispatched_le
    · exact inv.finished_le
    · exact inv.submitted_iff
    · exact inv.unclaimed
    · exact inv.front
    · exact inv.blank
    · exact inv.outstanding_nodup
    · exact inv.outstanding_iff
    · exact inv.pending
    · simp only [Reply.batches_range]
      exact inv.batches

theorem Inv.pendStep (passNodes : List FrameGraphPassNode) (d d' : FrameDriver) (i : Nat)
    (c : Option Nat) (t : Task) (inv : Inv passNodes d)
    (hi : i < d.sched.dispatchedNodeCount_) (ht : d.sched.tasks_[i]? = some t)
    (ho : d'.outstanding = d.outstanding.erase (TaskRange.node i))
    (hs : d'.submitted = (TaskRange.node i, c) :: d.submitted)
    (step : PendStep d d' i c) : Inv passNodes d' := by
  obtain ⟨hfi, hsched, hrep⟩ := step
  have hilt := getElem?_lt ht
  have hget : ∀ (k : Nat) (u : Task), d'.sched.tasks_[k]? = some u →
      (k = i ∧ u = ⟨TaskState.Pending, 1, c⟩) ∨ (k ≠ i ∧ d.sched.tasks_[k]? = some u) := by
    intro k u hu
    rw [hsched] at hu
    simp only at hu
    by_cases hk : k = i
    · subst hk
      rw [List.getElem?_set_self hilt] at hu
      cases hu
      exact Or.inl ⟨rfl, rfl⟩
    · rw [List.getElem?_set_ne (fun h => hk h.symm)] at hu
      exact Or.inr ⟨hk, hu⟩
  have hfin : d'.sched.finishedNodeCount_ = d.sched.finishedNodeCount_ := by rw [hsched]
  have hdsp : d'.sched.dispatchedNodeCount_ = d.sched.dispatchedNodeCount_ := by rw [hsched]
  constructor
  · rw [hsched]; exact inv.passNodes_eq
  · rw [hsched]; simpa using inv.length_eq
  · rw [hdsp]; exact inv.dispatched_le
  · rw [hdsp, hfin]; exact inv.finished_le
  · intro k u hu
    rw [hfin]
    rcases hget k u hu with ⟨rfl, rfl⟩ | ⟨_, h⟩
    · constructor
      · intro h; cases h
      · intro h; omega
    · exact inv.submitted_iff k u h
  · intro k u hu hk
    rw [hdsp] at hk
    rcases hget k u hu with ⟨rfl, rfl⟩ | ⟨_, h⟩
    · omega
    · exact inv.unclaimed k u h hk
  · intro u hu
    rw [hfin] at hu
    rcases hget _ u hu with ⟨h, _⟩ | ⟨_, h⟩
    · omega
    · exact inv.front u h
  · intro k u hu hst
    rcases hget k u hu with ⟨_, rfl⟩ | ⟨_, h⟩
    · cases hst
    · exact inv.blank k u h hst
  · rw [ho]; exact inv.outstanding_nodup.erase _
  · intro r
    rw [ho, inv.outstanding_nodup.mem_erase_iff, hdsp]
    constructor
    · rintro ⟨hne, hm⟩
      obtain ⟨k, u, e, hk, hu, hst⟩ := (inv.outstanding_iff r).mp hm
      have hki : k ≠ i := by
        intro h; apply hne; rw [e, h]
      refine ⟨k, u, e, hk, ?_, hst⟩
      rw [hsched]
      simp only
      rw [List.getElem?_set_ne (fun h => hki h.symm)]
      exact hu
    · rintro ⟨k, u, e, hk, hu, hst⟩
      rcases hget k u hu with ⟨_, rfl⟩ | ⟨hki, h⟩
      · cases hst
      · constructor
        · intro h'
          rw [e] at h'
          exact hki (TaskRange.node_inj h')
        · exact (inv.outstanding_iff r).mpr ⟨k, u, e, hk, h, hst⟩
  · intro k u hu hst
    rw [hs]
    rcases hget k u hu with ⟨rfl, rfl⟩ | ⟨hki, h⟩
    · exact ⟨rfl, lookup_node_cons_self _ _ _⟩
    · rw [lookup_node_cons_ne _ _ _ _ hki]
      exact inv.pending k u h hst
  · rw [hfin, hrep, Reply.batches_effects, hs]
    simp only [Effect.batches, List.append_nil]
    rw [← inv.batches]
    apply List.map_congr_left
    intro k hk
    simp only [List.mem_range] at hk
    exact lookup_node_cons_ne _ _ _ _ (by omega)

theorem Inv.flushStep (passNodes : List FrameGraphPassNode) (d d' : FrameDriver) (i : Nat)
    (c : Option Nat) (t : Task) (inv : Inv passNodes d)
    (hi : i < d.sched.dispatchedNodeCount_) (ht : d.sched.tasks_[i]? = some t)
    (ho : d'.outstanding = d.outstanding.erase (TaskRange.node i))
    (hs : d'.submitted = (TaskRange.node i, c) :: d.submitted)
    (step : FlushStep d d' i c) : Inv passNodes d' := by
  obtain ⟨hfi, j, hij, hrun, hstop, hlen, hpt, hfin, hpn, hdsp, hrep⟩ := step
  have hilt := getElem?_lt ht
  have hget : ∀ (k : Nat) (u : Task), d'.sched.tasks_[k]? = some u →
      (i ≤ k ∧ k < j ∧ u.taskState = TaskState.Submitted) ∨
      (¬ (i ≤ k ∧ k < j) ∧ d.sched.tasks_[k]? = some u) := by
    intro k u hu
    rw [hpt k] at hu
    by_cases hk : i ≤ k ∧ k < j
    · rw [if_pos hk] at hu
      left
      cases hk' : d.sched.tasks_[k]? with
      | none => rw [hk'] at hu; cases hu
      | some v =>
        rw [hk'] at hu
        simp only [Option.map_some', Option.some.injEq] at hu
        rw [← hu]
        exact ⟨hk.1, hk.2, rfl⟩
    · rw [if_neg hk] at hu
      exact Or.inr ⟨hk, hu⟩
  have hold : ∀ (k : Nat) (u : Task), d.sched.tasks_[k]? = some u →
      u.taskState ≠ TaskState.Submitted → i ≤ k ∧ (k = i ∨ j ≤ k ∨ u.taskState = TaskState.Pending) := by
    intro k u hu hns
    have h1 : i ≤ k := by
      by_contra h
      exact hns ((inv.submitted_iff k u hu).mpr (by omega))
    refine ⟨h1, ?_⟩
    by_cases hk : k = i
    · exact Or.inl hk
    · by_cases hkj : j ≤ k
      · exact Or.inr (Or.inl hkj)
      · obtain ⟨v, hv, hvs, _⟩ := hrun k (by omega) (by omega)
        rw [hu] at hv
        cases hv
        exact Or.inr (Or.inr hvs)
  have hjd : j ≤ d.sched.dispatchedNodeCount_ := by
    by_contra h
    have hj1 : i < j - 1 := by omega
    obtain ⟨v, hv, hvs, _⟩ := hrun (j - 1) hj1 (by omega)
    have := inv.unclaimed (j - 1) v hv (by omega)
    rw [this] at hvs
    cases hvs
  constructor
  · rw [hpn]; exact inv.passNodes_eq
  · rw [hlen]; exact inv.length_eq
  · rw [hdsp]; exact inv.dispatched_le
  · rw [hdsp, hfin]; exact hjd
  · intro k u hu
    rw [hfin]
    rcases hget k u hu with ⟨_, h2, h3⟩ | ⟨hk, h⟩
    · exact ⟨fun _ => h2, fun _ => h3⟩
    · rw [inv.submitted_iff k u h, ← hfi]
      constructor <;> intro <;> omega
  · intro k u hu hk
    rw [hdsp] at hk
    rcases hget k u hu with ⟨_, h2, _⟩ | ⟨_, h⟩
    · omega
    · exact inv.unclaimed k u h hk
  · intro u hu
    rw [hfin] at hu
    rcases hget _ u hu with ⟨_, h2, _⟩ | ⟨_, h⟩
    · omega
    · exact hstop u h
  · intro k u hu hst
    rcases hget k u hu with ⟨_, _, h3⟩ | ⟨_, h⟩
    · rw [h3] at hst; cases hst
    · exact inv.blank k u h hst
  · rw [ho]; exact inv.outstanding_nodup.erase _
  · intro r
    rw [ho, inv.outstanding_nodup.mem_erase_iff, hdsp]
    constructor
    · rintro ⟨hne, hm⟩
      obtain ⟨k, u, e, hk, hu, hst⟩ := (inv.outstanding_iff r).mp hm
      have hki : k ≠ i := by
        intro h; apply hne; rw [e, h]
      have hns : u.taskState ≠ TaskState.Submitted := by rw [hst]; intro h; cases h
      obtain ⟨h1, h2⟩ := hold k u hu hns
      have hkj : j ≤ k := by
        rcases h2 with h | h | h
        · exact absurd h hki
        · exact h
        · rw [hst] at h; cases h
      refine ⟨k, u, e, hk, ?_, hst⟩
      rw [hpt k, if_neg (by omega)]
      exact hu
    · rintro ⟨k, u, e, hk, hu, hst⟩
      rcases hget k u hu with ⟨_, _, h3⟩ | ⟨hkr, h⟩
      · rw [h3] at hst; cases hst
      · have hki : k ≠ i := by omega
        constructor
        · intro h'
          rw [e] at h'
          exact hki (TaskRange.node_inj h')
        · exact (inv.outstanding_iff r).mpr ⟨k, u, e, hk, h, hst⟩
  · intro k u hu hst
    rw [hs]
    rcases hget k u hu with ⟨_, _, h3⟩ | ⟨hkr, h⟩
    · rw [h3] at hst; cases hst
    · rw [lookup_node_cons_ne _ _ _ _ (by omega)]
      exact inv.pending k u h hst
  · rw [hfin, hrep, Reply.batches_effects, Effect.batches_execute, hs]
    have hsplit : List.range j =
        List.range i ++ i :: List.range' (i + 1) (j - (i + 1)) := by
      have h1 : List.range' 0 i ++ List.range' (0 + i) (j - i) = List.range' 0 (j - i + i) :=
        List.range'_append_1 0 i (j - i)
      have h2 : j - i + i = j := by omega
      have h3 : j - i = (j - (i + 1)) + 1 := by omega
      calc List.range j = List.range' 0 (j - i + i) := by rw [h2, List.range_eq_range']
        _ = List.range' 0 i ++ List.range' (0 + i) (j - i) := h1.symm
        _ = List.range i ++ i :: List.range' (i + 1) (j - (i + 1)) := by
          rw [Nat.zero_add, h3, List.range'_succ, List.range_eq_range']
    rw [hsplit]
    simp only [List.map_append, List.map_cons, List.flatten_append, List.flatten_cons,
      List.flatten_nil, List.append_nil, List.map_map]
    congr 1
    · rw [← inv.batches, hfi]
      apply List.map_congr_left
      intro k hk
      simp only [List.mem_range] at hk
      exact lookup_node_cons_ne _ _ _ _ (by omega)
    · congr 1
      · exact lookup_node_cons_self _ _ _
      · apply List.map_congr_left
        intro k hk
        simp only [List.mem_range'_1] at hk
        obtain ⟨v, hv, hvs, _⟩ := hrun k (by omega) (by omega)
        rw [lookup_node_cons_ne _ _ _ _ (by omega), (inv.pending k v hv hvs).2]
        simp [storedCmdList_of_getElem? _ _ _ hv]

theorem Inv.submitTask (passNodes : List FrameGraphPassNode) (d d' : FrameDriver)
    (r : TaskRange) (c : Option Nat) (inv : Inv passNodes d) (hr : r ∈ d.outstanding)
    (hc : d.call (Call.submitTask r c) = Except.ok d') : Inv passNodes d' := by
  obtain ⟨i, t, rfl, hi, ht, _, ho, hs, step | step⟩ := submit_step passNodes d d' r c inv hr hc
  · exact Inv.pendStep passNodes d d' i c t inv hi ht ho hs step
  · exact Inv.flushStep passNodes d d' i c t inv hi ht ho hs step

/-- Every state of intended use satisfies the invariant. -/
theorem Reachable.inv {passNodes : List FrameGraphPassNode} {d : FrameDriver}
    (h : Reachable passNodes d) : Inv passNodes d := by
  induction h with
  | construct => exact Inv.construct passNodes
  | restart s hp ht =>
    rw [restart_of_length s passNodes hp ht]
    exact Inv.construct passNodes
  | requestTask d d' _ hc ih => exact Inv.requestTask passNodes d d' ih hc
  | submitTask d d' r c _ hr hc ih => exact Inv.submitTask passNodes d d' r c ih hr hc

/-! ## Sequences of calls -/

theorem lookup_mem {sub : List (TaskRange × Option Nat)} {r : TaskRange} {c : Option Nat}
    (h : sub.lookup r = some c) : (r, c) ∈ sub := by
  obtain ⟨l1, l2, e, _⟩ := List.lookup_eq_some_iff.mp h
  rw [e]
  simp

/-- A `submitTask` call on an outstanding range returns when no null command
list was or is handed in. -/
theorem submit_progress (passNodes : List FrameGraphPassNode) (d : FrameDriver) (i : Nat)
    (c : Option Nat) (inv : Inv passNodes d) (hsub : ∀ e ∈ d.submitted, e.2 ≠ none)
    (hr : TaskRange.node i ∈ d.outstanding) :
    ∃ d', d.call (Call.submitTask (TaskRange.node i) c) = Except.ok d' := by
  suffices h : ∃ r', submitTask d.sched (TaskRange.node i) c = Except.ok r' by
    obtain ⟨⟨s', es⟩, h⟩ := h
    simp [FrameDriver.call, h]
  obtain ⟨k, t, e, hi, ht, hst⟩ := (inv.outstanding_iff _).mp hr
  have := TaskRange.node_inj e
  subst this
  have hfi : d.sched.finishedNodeCount_ ≤ i := by
    by_contra hlt
    have := (inv.submitted_iff i t ht).mpr (by omega)
    rw [this] at hst
    cases hst
  have hilt := getElem?_lt ht
  rcases Nat.lt_or_eq_of_le hfi with hlt | heq
  · have hp : d.sched.tasks_[i - 1]? = some d.sched.tasks_[i - 1] :=
      List.getElem?_eq_getElem (by omega)
    generalize d.sched.tasks_[i - 1] = p at hp
    have hps : p.taskState ≠ TaskState.Submitted := by
      intro h
      have := (inv.submitted_iff (i - 1) p hp).mp h
      omega
    exact ⟨_, submitTask_node_pend d.sched i c t p ht (by omega) hp hps⟩
  · have hready : i = 0 ∨ ∃ p, d.sched.tasks_[i - 1]? = some p ∧
        p.taskState = TaskState.Submitted := by
      rcases Nat.eq_zero_or_pos i with h0 | hpos
      · exact Or.inl h0
      · right
        have hp : d.sched.tasks_[i - 1]? = some d.sched.tasks_[i - 1] :=
          List.getElem?_eq_getElem (by omega)
        exact ⟨_, hp, (inv.submitted_iff (i - 1) _ hp).mpr (by omega)⟩
    rw [submitTask_node_ready d.sched i c hready]
    have H : ∀ k u, i + 1 ≤ k →
        (d.sched.tasks_.set i (t.withState TaskState.Submitted))[k]? = some u →
        u.taskState = TaskState.Pending → u.nodeCount = 1 ∧ u.cmdList ≠ none := by
      intro k u hk hu hup
      rw [List.getElem?_set_ne (by omega)] at hu
      obtain ⟨h1, h2⟩ := inv.pending k u hu hup
      exact ⟨h1, hsub _ (lookup_mem h2)⟩
    obtain ⟨r, hl⟩ := submitTask.loop_unit_ok (submitTask.loopBound d.sched)
      { d.sched with tasks_ := d.sched.tasks_.set i (t.withState TaskState.Submitted),
                     finishedNodeCount_ := i + 1 } (i + 1) [c] [c] H
      (by simpa using submitTask.loopBound_ge d.sched (i + 1))
    exact submitTask.submit_node_ok d.sched i c t ht r hl

theorem FrameDriver.run_append (d d1 : FrameDriver) (cs cs' : List Call)
    (h : d.run cs = Except.ok d1) : d.run (cs ++ cs') = d1.run cs' := by
  induction cs generalizing d with
  | nil =>
    simp only [FrameDriver.run, Except.ok.injEq] at h
    subst h
    rfl
  | cons c cs ih =>
    simp only [List.cons_append, FrameDriver.run] at h ⊢
    cases hc : d.call c with
    | error e => simp [hc] at h
    | ok d2 =>
      simp only [hc] at h ⊢
      exact ih d2 h

theorem FrameDriver.run_one (d : FrameDriver) (c : Call) :
    d.run [c] = d.call c := by
  simp only [FrameDriver.run]
  cases d.call c <;> rfl

theorem claimed_zero (passNodes : List FrameGraphPassNode) :
    claimed passNodes 0 = FrameDriver.start (construct passNodes) := by
  simp [claimed, FrameDriver.start, construct_eq]

theorem run_requests (passNodes : List FrameGraphPassNode) (m : Nat) :
    (FrameDriver.start (construct passNodes)).run (List.replicate m Call.requestTask) =
      Except.ok (claimed passNodes m) ∧ Reachable passNodes (claimed passNodes m) := by
  induction m with
  | zero =>
    rw [claimed_zero]
    exact ⟨rfl, Reachable.construct⟩
  | succ m ih =>
    obtain ⟨hrun, hreach⟩ := ih
    have hstep := request_step passNodes _ hreach.inv
    have hnext : (claimed passNodes m).call Call.requestTask =
        Except.ok (claimed passNodes (m + 1)) := by
      rw [hstep]
      congr 1
      by_cases h : m < passNodes.length
      · have h1 : min m passNodes.length = m := by omega
        have h2 : min (m + 1) passNodes.length = m + 1 := by omega
        simp only [claimed, h1, h2, if_pos h, List.range_succ, List.map_append, List.map_cons,
          List.map_nil, List.reverse_append, List.reverse_cons, List.reverse_nil, List.nil_append,
          List.singleton_append]
      · have h1 : min m passNodes.length = passNodes.length := by omega
        have h2 : min (m + 1) passNodes.length = passNodes.length := by omega
        simp only [claimed, h1, h2, if_neg h, List.range_succ, List.map_append, List.map_cons,
          List.map_nil, Nat.lt_irrefl, if_false]
    refine ⟨?_, Reachable.requestTask _ _ hreach hnext⟩
    rw [List.replicate_succ', FrameDriver.run_append _ _ _ _ hrun, FrameDriver.run_one, hnext]

/-- Submitting distinct outstanding ranges one after another, each with a
command list: every call returns, and the bookkeeping is as expected. -/
theorem run_submits (passNodes : List FrameGraphPassNode) (buf : Nat → Nat) :
    ∀ (q : List Nat) (d : FrameDriver), Reachable passNodes d →
      (∀ e ∈ d.submitted, e.2 ≠ none) → q.Nodup →
      (∀ i ∈ q, TaskRange.node i ∈ d.outstanding) →
      ∃ d', d.run (q.map (fun i => Call.submitTask (TaskRange.node i) (some (buf i)))) =
          Except.ok d' ∧
        Reachable passNodes d' ∧
        d'.submitted = (q.map (fun i => (TaskRange.node i, some (buf i)))).reverse ++ d.submitted ∧
        (∀ r, r ∈ d'.outstanding ↔ r ∈ d.outstanding ∧ ∀ i ∈ q, r ≠ TaskRange.node i) ∧
        d'.sched.dispatchedNodeCount_ = d.sched.dispatchedNodeCount_ ∧
        ∃ tail, d'.replies = d.replies ++ tail := by
  intro q
  induction q with
  | nil =>
    intro d hd _ _ _
    exact ⟨d, rfl, hd, by simp, by simp, rfl, [], by simp⟩
  | cons i q ih =>
    intro d hd hsub hnd hout
    have hi := hout i (List.mem_cons_self _ _)
    obtain ⟨d1, hc⟩ := submit_progress passNodes d i (some (buf i)) hd.inv hsub hi
    have hd1 := Reachable.submitTask d d1 _ _ hd hi hc
    obtain ⟨k, t, e, _, _, _, ho, hs, step⟩ := submit_step passNodes d d1 _ _ hd.inv hi hc
    have hdsp : d1.sched.dispatchedNodeCount_ = d.sched.dispatchedNodeCount_ := by
      rcases step with ⟨_, h, _⟩ | ⟨_, j, _, _, _, _, _, _, _, h, _⟩
      · rw [h]
      · exact h
    have hrep : ∃ tail, d1.replies = d.replies ++ tail := by
      rcases step with ⟨_, _, h⟩ | ⟨_, j, _, _, _, _, _, _, _, _, h⟩
      · exact ⟨_, h⟩
      · exact ⟨_, h⟩
    have hnd' := List.nodup_cons.mp hnd
    have hmem1 : ∀ r, r ∈ d1.outstanding ↔ r ≠ TaskRange.node i ∧ r ∈ d.outstanding := by
      intro r
      rw [ho, hd.inv.outstanding_nodup.mem_erase_iff]
    obtain ⟨d', hrun, hreach, hs', ho', hdsp', tail', htail'⟩ := ih d1 hd1
      (by
        intro e he
        rw [hs] at he
        rcases List.mem_cons.mp he with rfl | he
        · simp
        · exact hsub e he)
      hnd'.2
      (by
        intro k hk
        rw [hmem1]
        refine ⟨?_, hout k (List.mem_cons_of_mem _ hk)⟩
        intro h
        have := TaskRange.node_inj h
        subst this
        exact hnd'.1 hk)
    obtain ⟨tail, htail⟩ := hrep
    refine ⟨d', ?_, hreach, ?_, ?_, by rw [hdsp', hdsp],
      tail ++ tail', by rw [htail', htail, List.append_assoc]⟩
    · simp only [List.map_cons, FrameDriver.run, hc]
      exact hrun
    · rw [hs', hs]
      simp
    · intro r
      rw [ho' r, hmem1]
      constructor
      · rintro ⟨⟨h1, h2⟩, h3⟩
        refine ⟨h2, ?_⟩
        intro k hk
        rcases List.mem_cons.mp hk with rfl | hk
        · exact h1
        · exact h3 k hk
      · rintro ⟨h1, h2⟩
        exact ⟨⟨h2 i (List.mem_cons_self _ _), h1⟩, fun k hk => h2 k (List.mem_cons_of_mem _ hk)⟩

theorem lookup_map_node (buf : Nat → Nat) (i : Nat) :
    ∀ q : List Nat, i ∈ q →
      (q.map (fun k => (TaskRange.node k, some (buf k)))).lookup (TaskRange.node i) =
        some (some (buf i)) := by
  intro q
  induction q with
  | nil => intro h; cases h
  | cons k q ih =>
    intro h
    by_cases hk : i = k
    · subst hk
      exact lookup_node_cons_self _ _ _
    · rw [List.map_cons, lookup_node_cons_ne _ _ _ _ hk]
      rcases List.mem_cons.mp h with h | h
      · exact absurd h hk
      · exact ih h

theorem length_takeWhile_prefix {α : Type} (p : α → Bool) :
    ∀ (l : List α) (n : Nat), n ≤ l.length →
      (∀ (k : Nat) (a : α), l[k]? = some a → (p a = true ↔ k < n)) →
      (l.takeWhile p).length = n := by
  intro l
  induction l with
  | nil =>
    intro n hn _
    simp at hn
    simp [hn]
  | cons a l ih =>
    intro n hn h
    cases n with
    | zero =>
      have : p a = false := by
        have := h 0 a (by simp)
        simpa using this
      simp [List.takeWhile_cons, this]
    | succ m =>
      have hpa : p a = true := (h 0 a (by simp)).mpr (by omega)
      have := ih m (by simpa using hn) (by
        intro k b hk
        have := h (k + 1) b (by simpa using hk)
        rw [this]
        omega)
      simp [List.takeWhile_cons, hpa, this]

/-- A full cycle over distinct nodes runs without fault and ends in a state
of intended use. -/
theorem cycle_reachable (passNodes : List FrameGraphPassNode) (q : List Nat) (buf : Nat → Nat)
    (hq : q.Nodup) (hlt : ∀ i ∈ q, i < passNodes.length) :
    ∃ d', (FrameDriver.start (construct passNodes)).run (cycle passNodes.length q buf) =
        Except.ok d' ∧
      Reachable passNodes d' ∧
      d'.submitted = (q.map (fun i => (TaskRange.node i, some (buf i)))).reverse ∧
      (∀ r, r ∈ d'.outstanding ↔
        (∃ k, k < passNodes.length ∧ r = TaskRange.node k) ∧ ∀ i ∈ q, r ≠ TaskRange.node i) ∧
      d'.sched.dispatchedNodeCount_ = passNodes.length ∧
      d'.replies.take passNodes.length =
        (List.range passNodes.length).map (fun j => Reply.range (TaskRange.node j)) := by
  obtain ⟨hrun, hreach⟩ := run_requests passNodes passNodes.length
  have hout : ∀ r, r ∈ (claimed passNodes passNodes.length).outstanding ↔
      ∃ k, k < passNodes.length ∧ r = TaskRange.node k := by
    intro r
    simp only [claimed, Nat.min_self, List.mem_reverse, List.mem_map, List.mem_range]
    constructor
    · rintro ⟨k, hk, e⟩
      exact ⟨k, hk, e.symm⟩
    · rintro ⟨k, hk, e⟩
      exact ⟨k, hk, e.symm⟩
  obtain ⟨d', h1, h2, h3, h4, h5, tail, h6⟩ := run_submits passNodes buf q _ hreach
    (by simp [claimed]) hq (by
      intro i hi
      exact (hout _).mpr ⟨i, hlt i hi, rfl⟩)
  refine ⟨d', ?_, h2, ?_, ?_, ?_, ?_⟩
  · rw [cycle, FrameDriver.run_append _ _ _ _ hrun]
    exact h1
  · rw [h3]
    simp [claimed]
  · intro r
    rw [h4 r, hout r]
  · rw [h5]
    simp [claimed]
  · have hrep : (claimed passNodes passNodes.length).replies =
        (List.range passNodes.length).map (fun j => Reply.range (TaskRange.node j)) := by
      simp only [claimed]
      apply List.map_congr_left
      intro j hj
      rw [if_pos (List.mem_range.mp hj)]
    rw [h6, hrep, List.take_left']
    simp

/-- A full cycle that submits every node once, in any order, ends with every
node in the queue. -/
theorem cycle_complete (passNodes : List FrameGraphPassNode) (p : List Nat) (buf : Nat → Nat)
    (hp : p.Perm (List.range passNodes.length)) :
    ∃ d', (FrameDriver.start (construct passNodes)).run (cycle passNodes.length p buf) =
        Except.ok d' ∧
      Inv passNodes d' ∧
      d'.sched.finishedNodeCount_ = passNodes.length ∧
      (Reply.batches d'.replies).flatten =
        (List.range passNodes.length).map (fun i => some (buf i)) ∧
      d'.replies.take passNodes.length =
        (List.range passNodes.length).map (fun j => Reply.range (TaskRange.node j)) := by
  have hnd : p.Nodup := hp.nodup_iff.mpr (List.nodup_range _)
  have hmem : ∀ i, i ∈ p ↔ i < passNodes.length := by
    intro i
    rw [hp.mem_iff, List.mem_range]
  obtain ⟨d', hrun, hreach, hsub, hout, hdsp, hclaims⟩ :=
    cycle_reachable passNodes p buf hnd (fun i hi => (hmem i).mp hi)
  have inv := hreach.inv
  have hfin : d'.sched.finishedNodeCount_ = passNodes.length := by
    have h1 := inv.finished_le
    rw [hdsp] at h1
    by_contra hne
    have hlt : d'.sched.finishedNodeCount_ < d'.sched.tasks_.length := by
      rw [inv.length_eq]; omega
    have ht := List.getElem?_eq_getElem hlt
    have hin : TaskRange.node d'.sched.finishedNodeCount_ ∈ d'.outstanding :=
      (inv.outstanding_iff _).mpr ⟨_, _, rfl, by rw [hdsp]; omega, ht, inv.front _ ht⟩
    have := ((hout _).mp hin).2 d'.sched.finishedNodeCount_ ((hmem _).mpr (by omega))
    exact this rfl
  refine ⟨d', hrun, inv, hfin, ?_, hclaims⟩
  have hb := inv.batches
  rw [hfin, hsub] at hb
  have hl : (List.range passNodes.length).map
      (fun i => ((p.map (fun i => (TaskRange.node i, some (buf i)))).reverse).lookup
        (TaskRange.node i)) =
      ((List.range passNodes.length).map (fun i => some (buf i))).map some := by
    rw [List.map_map]
    apply List.map_congr_left
    intro i hi
    rw [← List.map_reverse]
    exact lookup_map_node buf i _ (List.mem_reverse.mpr ((hmem i).mpr (List.mem_range.mp hi)))
  rw [hl] at hb
  exact (List.map_injective_iff.mpr (Option.some_injective _) hb).symm

/-- The batch of a `submitTask` call on an outstanding range lists, in index
order, the command lists handed in for the nodes from the old to the new
`finishedNodeCount_`. -/
theorem submit_step_batch (passNodes : List FrameGraphPassNode) (d d' : FrameDriver)
    (r : TaskRange) (c : Option Nat) (inv : Inv passNodes d) (hr : r ∈ d.outstanding)
    (hc : d.call (Call.submitTask r c) = Except.ok d') :
    ∃ es, d'.replies = d.replies ++ [Reply.effects es] ∧
      ((es = [] ∧ d'.sched.finishedNodeCount_ = d.sched.finishedNodeCount_) ∨
        ∃ batch, es = Effect.ExecuteCommandLists (batch.length % 2 ^ 32) batch ::
            batch.map Effect.addUnusedGraphicsCmdLists ∧
          d.sched.finishedNodeCount_ < d'.sched.finishedNodeCount_ ∧
          batch.map some =
            (List.range' d.sched.finishedNodeCount_
              (d'.sched.finishedNodeCount_ - d.sched.finishedNodeCount_)).map
              (fun k => d'.submitted.lookup (TaskRange.node k))) := by
  obtain ⟨i, t, rfl, hi, ht, hst, ho, hs, step | step⟩ := submit_step passNodes d d' r c inv hr hc
  · obtain ⟨_, hsched, hrep⟩ := step
    exact ⟨[], hrep, Or.inl ⟨rfl, by rw [hsched]⟩⟩
  · obtain ⟨hfi, j, hij, hrun, hstop, hlen, hpt, hfin, hpn, hdsp, hrep⟩ := step
    refine ⟨_, hrep, Or.inr ⟨_, rfl, by omega, ?_⟩⟩
    rw [hfin, ← hfi, hs]
    have h3 : j - i = (j - (i + 1)) + 1 := by omega
    rw [h3, List.range'_succ, List.map_cons, List.map_cons, lookup_node_cons_self, List.map_map]
    congr 1
    apply List.map_congr_left
    intro k hk
    simp only [List.mem_range'_1] at hk
    obtain ⟨v, hv, hvs, _⟩ := hrun k (by omega) (by omega)
    rw [lookup_node_cons_ne _ _ _ _ (by omega), (inv.pending k v hv hvs).2]
    simp [storedCmdList_of_getElem? _ _ _ hv]

/-- The `// submit` path, when it returns, has made one queue call with a
batch that starts with the command list handed in, and has then handed the
same command lists to the pool. -/
theorem submitTask.submit_effects (s : FrameGraphTaskScheduler) (begIdx endIdx : Nat)
    (c : Option Nat) (s' : FrameGraphTaskScheduler) (es : List Effect)
    (h : submitTask.submit s begIdx endIdx c = Except.ok (s', es)) :
    ∃ ext, es = Effect.ExecuteCommandLists ((c :: ext).length % 2 ^ 32) (c :: ext) ::
      (c :: ext).map Effect.addUnusedGraphicsCmdLists := by
  unfold submitTask.submit at h
  cases h1 : setTaskStates TaskState.Submitted (endIdx - begIdx) begIdx s.tasks_ with
  | error e => simp [h1] at h
  | ok ts =>
    simp only [h1] at h
    cases h2 : submitTask.loop (submitTask.loopBound s)
        { s with tasks_ := ts, finishedNodeCount_ := endIdx } endIdx [c] [c] with
    | error e => simp [h2] at h
    | ok r =>
      obtain ⟨s'', cl, gcl⟩ := r
      obtain ⟨ext, e1, e2⟩ := submitTask.loop_sync _ _ _ _ _ _ _ _ h2
      simp only [h2] at h
      subst e1 e2
      simp only [List.singleton_append, List.isEmpty_cons, Bool.false_eq_true, if_false,
        Except.ok.injEq, Prod.mk.injEq] at h
      exact ⟨ext, h.2.symm⟩

/-- A `submitTask` call that returns was either deferred, with no queue or
pool call, or made one queue call with a batch that starts with the command
list handed in, followed by the pool calls for that batch. -/
theorem submitTask_effects (s : FrameGraphTaskScheduler) (r : TaskRange) (c : Option Nat)
    (s' : FrameGraphTaskScheduler) (es : List Effect)
    (h : submitTask s r c = Except.ok (s', es)) :
    es = [] ∨
      ∃ ext, es = Effect.ExecuteCommandLists ((c :: ext).length % 2 ^ 32) (c :: ext) ::
        (c :: ext).map Effect.addUnusedGraphicsCmdLists := by
  unfold submitTask at h
  split at h
  · rename_i b e hb he
    split at h
    · simp at h
    · split at h
      · split at h
        · simp at h
        · split at h
          · split at h
            · simp at h
            · simp only [Except.ok.injEq, Prod.mk.injEq] at h
              exact Or.inl h.2.symm
          · exact Or.inr (submitTask.submit_effects _ _ _ _ _ _ h)
      · exact Or.inr (submitTask.submit_effects _ _ _ _ _ _ h)
  · simp at h

/-! ## The properties of the scheduler -/

theorem Fresh.eq {passNodes : List FrameGraphPassNode} {s0 : FrameGraphTaskScheduler}
    (h : Fresh passNodes s0) : s0 = construct passNodes := by
  rcases h with h | ⟨s, hp, ht, rfl⟩
  · exact h
  · exact restart_of_length s passNodes hp ht

theorem demoDriver_reachable : Reachable demoNodes demoDriver := by
  obtain ⟨d', hrun, hreach, _⟩ := cycle_reachable demoNodes [0, 2, 3, 4] (fun i => 10 + i)
    (by decide) (by decide)
  have : (FrameDriver.start (construct demoNodes)).run
      (cycle demoNodes.length [0, 2, 3, 4] (fun i => 10 + i)) = Except.ok demoDriver := by
    rfl
  rw [this] at hrun
  cases hrun
  exact hreach

/-- C1. Submission order: on a constructed or restarted scheduler over `N`
pass nodes, after `N` `requestTask` calls (which return the ranges of nodes
`0, ..., N-1`) and one `submitTask` call per claimed range in the order of any
permutation `p` of `0..N-1` (node `i` with command list `buf i`), every call
returns and the batches passed to `ExecuteCommandLists`, concatenated in call
order, are exactly `buf 0, ..., buf (N-1)`; when the command lists are
distinct none occurs twice. -/
theorem C1_submission_order (passNodes : List FrameGraphPassNode)
    (s0 : FrameGraphTaskScheduler) (hs0 : Fresh passNodes s0) (p : List Nat) (buf : Nat → Nat)
    (hp : p.Perm (List.range passNodes.length)) :
    ∃ d', (FrameDriver.start s0).run (cycle passNodes.length p buf) = Except.ok d' ∧
      d'.replies.take passNodes.length =
        (List.range passNodes.length).map (fun j => Reply.range (TaskRange.node j)) ∧
      (Reply.batches d'.replies).flatten =
        (List.range passNodes.length).map (fun i => some (buf i)) ∧
      (Function.Injective buf → (Reply.batches d'.replies).flatten.Nodup) := by
  rw [hs0.eq]
  obtain ⟨d', hrun, _, _, hb, hclaims⟩ := cycle_complete passNodes p buf hp
  refine ⟨d', hrun, hclaims, hb, ?_⟩
  intro hinj
  rw [hb]
  exact (List.nodup_range _).map (fun a b h => hinj (Option.some.inj h))

theorem C1_submission_order_witness :
    Fresh demoNodes (restart demoSched) ∧ [2, 0, 4, 1, 3].Perm (List.range demoNodes.length) ∧
    ∃ d', (FrameDriver.start (restart demoSched)).run
        (cycle demoNodes.length [2, 0, 4, 1, 3] (fun i => 10 + i)) = Except.ok d' ∧
      d'.replies.take demoNodes.length =
        (List.range demoNodes.length).map (fun j => Reply.range (TaskRange.node j)) ∧
      (Reply.batches d'.replies).flatten =
        (List.range demoNodes.length).map (fun i => some ((fun i => 10 + i) i)) ∧
      (Function.Injective (fun i => 10 + i) → (Reply.batches d'.replies).flatten.Nodup) :=
  ⟨Or.inr ⟨demoSched, rfl, rfl, rfl⟩, by decide,
    C1_submission_order demoNodes (restart demoSched) (Or.inr ⟨demoSched, rfl, rfl, rfl⟩)
      [2, 0, 4, 1, 3] (fun i => 10 + i) (by decide)⟩

/-- C2. Completion: on a constructed or restarted scheduler over `N` pass
nodes, after `N` `requestTask` calls and one `submitTask` call per claimed
range in any order, every call returns, `finishedNodeCount_ = N`, every task
is `Submitted`, and `isAllFinished()` is true. -/
theorem C2_all_finished (passNodes : List FrameGraphPassNode)
    (s0 : FrameGraphTaskScheduler) (hs0 : Fresh passNodes s0) (p : List Nat) (buf : Nat → Nat)
    (hp : p.Perm (List.range passNodes.length)) :
    ∃ d', (FrameDriver.start s0).run (cycle passNodes.length p buf) = Except.ok d' ∧
      d'.sched.finishedNodeCount_ = passNodes.length ∧
      d'.sched.tasks_.length = passNodes.length ∧
      (∀ t ∈ d'.sched.tasks_, t.taskState = TaskState.Submitted) ∧
      isAllFinished d'.sched = true := by
  rw [hs0.eq]
  obtain ⟨d', hrun, inv, hfin, _, _⟩ := cycle_complete passNodes p buf hp
  refine ⟨d', hrun, hfin, inv.length_eq, ?_, ?_⟩
  · intro t ht
    obtain ⟨k, hk⟩ := List.mem_iff_getElem?.mp ht
    have hlt := getElem?_lt hk
    exact (inv.submitted_iff k t hk).mpr (by rw [hfin, ← inv.length_eq]; exact hlt)
  · simp [isAllFinished, hfin, inv.length_eq]

theorem C2_all_finished_witness :
    Fresh demoNodes (construct demoNodes) ∧ [4, 1, 2, 0, 3].Perm (List.range demoNodes.length) ∧
    ∃ d', (FrameDriver.start (construct demoNodes)).run
        (cycle demoNodes.length [4, 1, 2, 0, 3] (fun i => 7 * i + 1)) = Except.ok d' ∧
      d'.sched.finishedNodeCount_ = demoNodes.length ∧
      d'.sched.tasks_.length = demoNodes.length ∧
      (∀ t ∈ d'.sched.tasks_, t.taskState = TaskState.Submitted) ∧
      isAllFinished d'.sched = true :=
  ⟨Or.inl rfl, by decide,
    C2_all_finished demoNodes (construct demoNodes) (Or.inl rfl) [4, 1, 2, 0, 3]
      (fun i => 7 * i + 1) (by decide)⟩

/-- C3. Prefix invariant: in every state of intended use, a `Submitted` node
has only `Submitted` nodes below it; and a `submitTask` call on an outstanding
range either issues nothing or issues one batch that lists, in index order,
the command lists handed in for the nodes `f, f+1, ..., f'-1`, where `f` is
`finishedNodeCount_` before the call (every node below `f` is `Submitted`
then) and `f'` after it. -/
theorem C3_prefix_invariant (passNodes : List FrameGraphPassNode) (d : FrameDriver)
    (h : Reachable passNodes d) :
    (∀ (i j : Nat) (ti tj : Task), j < i → d.sched.tasks_[i]? = some ti →
      ti.taskState = TaskState.Submitted → d.sched.tasks_[j]? = some tj →
      tj.taskState = TaskState.Submitted) ∧
    (∀ (r : TaskRange) (c : Option Nat) (d' : FrameDriver), r ∈ d.outstanding →
      d.call (Call.submitTask r c) = Except.ok d' →
      (∀ (k : Nat) (t : Task), k < d.sched.finishedNodeCount_ → d.sched.tasks_[k]? = some t →
        t.taskState = TaskState.Submitted) ∧
      ∃ es, d'.replies = d.replies ++ [Reply.effects es] ∧
        (es = [] ∨
          ∃ batch, Effect.batches es = [batch] ∧
            batch.map some =
              (List.range' d.sched.finishedNodeCount_
                (d'.sched.finishedNodeCount_ - d.sched.finishedNodeCount_)).map
                (fun k => d'.submitted.lookup (TaskRange.node k)))) := by
  have inv := h.inv
  constructor
  · intro i j ti tj hji hi hti hj
    have := (inv.submitted_iff i ti hi).mp hti
    exact (inv.submitted_iff j tj hj).mpr (by omega)
  · intro r c d' hr hc
    refine ⟨fun k t hk ht => (inv.submitted_iff k t ht).mpr hk, ?_⟩
    obtain ⟨es, hrep, hcase⟩ := submit_step_batch passNodes d d' r c inv hr hc
    refine ⟨es, hrep, ?_⟩
    rcases hcase with ⟨he, _⟩ | ⟨batch, he, _, hb⟩
    · exact Or.inl he
    · right
      refine ⟨batch, ?_, hb⟩
      rw [he]
      exact Effect.batches_execute _ _ _

theorem C3_prefix_invariant_witness :
    Reachable demoNodes demoDriver ∧
    ((∀ (i j : Nat) (ti tj : Task), j < i → demoDriver.sched.tasks_[i]? = some ti →
      ti.taskState = TaskState.Submitted → demoDriver.sched.tasks_[j]? = some tj →
      tj.taskState = TaskState.Submitted) ∧
    (∀ (r : TaskRange) (c : Option Nat) (d' : FrameDriver), r ∈ demoDriver.outstanding →
      demoDriver.call (Call.submitTask r c) = Except.ok d' →
      (∀ (k : Nat) (t : Task), k < demoDriver.sched.finishedNodeCount_ →
        demoDriver.sched.tasks_[k]? = some t → t.taskState = TaskState.Submitted) ∧
      ∃ es, d'.replies = demoDriver.replies ++ [Reply.effects es] ∧
        (es = [] ∨
          ∃ batch, Effect.batches es = [batch] ∧
            batch.map some =
              (List.range' demoDriver.sched.finishedNodeCount_
                (d'.sched.finishedNodeCount_ - demoDriver.sched.finishedNodeCount_)).map
                (fun k => d'.submitted.lookup (TaskRange.node k))))) :=
  ⟨demoDriver_reachable, C3_prefix_invariant demoNodes demoDriver demoDriver_reachable⟩

/-- C4. In every state of intended use, `finishedNodeCount_` is the length of
the longest prefix of `tasks_` whose tasks are all `Submitted`. -/
theorem C4_finished_is_longest_prefix (passNodes : List FrameGraphPassNode) (d : FrameDriver)
    (h : Reachable passNodes d) :
    d.sched.finishedNodeCount_ =
      (d.sched.tasks_.takeWhile (fun t => decide (t.taskState = TaskState.Submitted))).length := by
  have inv := h.inv
  symm
  apply length_takeWhile_prefix
  · have h1 := inv.finished_le
    have h2 := inv.dispatched_le
    rw [inv.length_eq]
    omega
  · intro k t hk
    rw [decide_eq_true_iff]
    exact inv.submitted_iff k t hk

theorem C4_finished_is_longest_prefix_witness :
    Reachable demoNodes demoDriver ∧
    demoDriver.sched.finishedNodeCount_ =
      (demoDriver.sched.tasks_.takeWhile
        (fun t => decide (t.taskState = TaskState.Submitted))).length :=
  ⟨demoDriver_reachable, C4_finished_is_longest_prefix demoNodes demoDriver demoDriver_reachable⟩

/-- C5. Claim order: on a constructed or restarted scheduler over `N` pass
nodes, `k` successive `requestTask` calls return, for call `j = 0, ..., k-1`,
the range `[j, j+1)` if `j < N` and the empty sentinel otherwise, and leave
the claim cursor at `min k N` with every task untouched; the next call (call
`k`) returns `[k, k+1)`, with task `k` in state `NotFinished` and the cursor
at `k + 1`, when `k < N`, and returns the sentinel and changes nothing when
`k ≥ N`.  In any state whatever, a call below the end of the node list sets
the task at the cursor to `NotFinished`, and a call at or past it changes
nothing. -/
theorem C5_requestTask_order (passNodes : List FrameGraphPassNode)
    (s0 : FrameGraphTaskScheduler) (hs0 : Fresh passNodes s0) (k : Nat) :
    (FrameDriver.start s0).run (List.replicate k Call.requestTask) =
      Except.ok
        { sched := { s0 with dispatchedNodeCount_ := min k passNodes.length }
          replies := (List.range k).map (fun j =>
            Reply.range (if j < passNodes.length then TaskRange.node j else TaskRange.sentinel))
          outstanding := ((List.range (min k passNodes.length)).map TaskRange.node).reverse
          submitted := [] } ∧
    (k < passNodes.length →
      requestTask { s0 with dispatchedNodeCount_ := min k passNodes.length } =
        Except.ok ({ s0 with dispatchedNodeCount_ := k + 1 }, TaskRange.node k) ∧
      s0.tasks_[k]? = some ⟨TaskState.NotFinished, 0, none⟩) ∧
    (passNodes.length ≤ k →
      requestTask { s0 with dispatchedNodeCount_ := min k passNodes.length } =
        Except.ok ({ s0 with dispatchedNodeCount_ := min k passNodes.length },
          TaskRange.sentinel)) ∧
    (∀ (s : FrameGraphTaskScheduler) (t : Task),
      s.dispatchedNodeCount_ < s.passNodes_.length → s.tasks_[s.dispatchedNodeCount_]? = some t →
      requestTask s = Except.ok
        ({ s with
            tasks_ := s.tasks_.set s.dispatchedNodeCount_ (t.withState TaskState.NotFinished)
            dispatchedNodeCount_ := s.dispatchedNodeCount_ + 1 },
          TaskRange.node s.dispatchedNodeCount_)) ∧
    (∀ s : FrameGraphTaskScheduler, s.passNodes_.length ≤ s.dispatchedNodeCount_ →
      requestTask s = Except.ok (s, TaskRange.sentinel)) := by
  rw [hs0.eq]
  refine ⟨(run_requests passNodes k).1, ?_, ?_, ?_, ?_⟩
  · intro hk
    have h1 : min k passNodes.length = k := by omega
    have ht : (construct passNodes).tasks_[k]? = some ⟨TaskState.NotFinished, 0, none⟩ := by
      rw [construct_eq]
      simp [List.getElem?_replicate, hk]
    refine ⟨?_, ht⟩
    rw [h1]
    have := requestTask_claim { construct passNodes with dispatchedNodeCount_ := k }
      ⟨TaskState.NotFinished, 0, none⟩ (by rw [construct_eq]; exact hk) ht
    rw [this]
    have hself : (construct passNodes).tasks_.set k
        (Task.withState TaskState.NotFinished ⟨TaskState.NotFinished, 0, none⟩) =
        (construct passNodes).tasks_ := set_eq_self _ _ _ ht
    simp only [hself]
  · intro hk
    apply requestTask_done
    have h1 : min k passNodes.length = passNodes.length := by omega
    rw [h1, construct_eq]
  · intro s t h ht
    exact requestTask_claim s t h ht
  · intro s h
    exact requestTask_done s h

theorem C5_requestTask_order_witness :
    Fresh demoNodes (restart demoSched) ∧
    ((FrameDriver.start (restart demoSched)).run (List.replicate 7 Call.requestTask) =
      Except.ok
        { sched := { restart demoSched with dispatchedNodeCount_ := min 7 demoNodes.length }
          replies := (List.range 7).map (fun j =>
            Reply.range (if j < demoNodes.length then TaskRange.node j else TaskRange.sentinel))
          outstanding := ((List.range (min 7 demoNodes.length)).map TaskRange.node).reverse
          submitted := [] } ∧
    (7 < demoNodes.length →
      requestTask { restart demoSched with dispatchedNodeCount_ := min 7 demoNodes.length } =
        Except.ok ({ restart demoSched with dispatchedNodeCount_ := 7 + 1 }, TaskRange.node 7) ∧
      (restart demoSched).tasks_[7]? = some ⟨TaskState.NotFinished, 0, none⟩) ∧
    (demoNodes.length ≤ 7 →
      requestTask { restart demoSched with dispatchedNodeCount_ := min 7 demoNodes.length } =
        Except.ok ({ restart demoSched with dispatchedNodeCount_ := min 7 demoNodes.length },
          TaskRange.sentinel)) ∧
    (∀ (s : FrameGraphTaskScheduler) (t : Task),
      s.dispatchedNodeCount_ < s.passNodes_.length → s.tasks_[s.dispatchedNodeCount_]? = some t →
      requestTask s = Except.ok
        ({ s with
            tasks_ := s.tasks_.set s.dispatchedNodeCount_ (t.withState TaskState.NotFinished)
            dispatchedNodeCount_ := s.dispatchedNodeCount_ + 1 },
          TaskRange.node s.dispatchedNodeCount_)) ∧
    (∀ s : FrameGraphTaskScheduler, s.passNodes_.length ≤ s.dispatchedNodeCount_ →
      requestTask s = Except.ok (s, TaskRange.sentinel))) :=
  ⟨Or.inr ⟨demoSched, rfl, rfl, rfl⟩,
    C5_requestTask_order demoNodes (restart demoSched) (Or.inr ⟨demoSched, rfl, rfl, rfl⟩) 7⟩

/-- C6. Deferral: in every state, for every range `[beg, end)` of tasks
(`beg < end ≤ tasks_.size()`) with `beg > 0` whose predecessor task `beg - 1`
is not `Submitted`, `submitTask` returns without any queue or pool call,
stores the command list and the length `end - beg` on task `beg`, sets every
task of `[beg, end)` to `Pending`, and leaves `finishedNodeCount_`, the claim
cursor, the pass nodes and every task outside `[beg, end)` unchanged. -/
theorem C6_deferral (s : FrameGraphTaskScheduler) (begIdx endIdx : Nat) (c : Option Nat)
    (p : Task) (hbeg : 0 < begIdx) (hlt : begIdx < endIdx) (hend : endIdx ≤ s.tasks_.length)
    (hp : s.tasks_[begIdx - 1]? = some p) (hps : p.taskState ≠ TaskState.Submitted) :
    ∃ s', submitTask s { begNode := some begIdx, endNode := some endIdx } c =
        Except.ok (s', []) ∧
      s'.tasks_[begIdx]? = some ⟨TaskState.Pending, endIdx - begIdx, c⟩ ∧
      (∀ k, begIdx < k → k < endIdx →
        s'.tasks_[k]? = (s.tasks_[k]?).map (Task.withState TaskState.Pending)) ∧
      (∀ k, k < begIdx ∨ endIdx ≤ k → s'.tasks_[k]? = s.tasks_[k]?) ∧
      s'.tasks_.length = s.tasks_.length ∧
      s'.finishedNodeCount_ = s.finishedNodeCount_ ∧
      s'.dispatchedNodeCount_ = s.dispatchedNodeCount_ ∧
      s'.passNodes_ = s.passNodes_ := by
  have hb : begIdx < s.tasks_.length := by omega
  have ht : s.tasks_[begIdx]? = some s.tasks_[begIdx] := List.getElem?_eq_getElem hb
  generalize s.tasks_[begIdx] = t at ht
  obtain ⟨ts', h1, h2, h3⟩ := setTaskStates_ok TaskState.Pending (endIdx - begIdx) begIdx
    (s.tasks_.set begIdx { t with cmdList := c, nodeCount := endIdx - begIdx })
    (by simp; omega)
  refine ⟨{ s with tasks_ := ts' }, ?_, ?_, ?_, ?_, ?_, rfl, rfl, rfl⟩
  · simp only [submitTask, submitTask.pend, ht, hp]
    simp [Nat.not_lt.mpr (Nat.le_of_lt hlt), hbeg, hps, h1]
  · simp only
    rw [h3 begIdx, if_pos (by omega), List.getElem?_set_self hb]
    rfl
  · intro k hk1 hk2
    simp only
    rw [h3 k, if_pos (by omega), List.getElem?_set_ne (by omega)]
  · intro k hk
    simp only
    rw [h3 k, if_neg (by omega), List.getElem?_set_ne (by omega)]
  · simpa using h2

theorem C6_deferral_witness :
    0 < 2 ∧ 2 < 4 ∧ 4 ≤ (restart demoSched).tasks_.length ∧
    (restart demoSched).tasks_[2 - 1]? = some ⟨TaskState.NotFinished, 0, none⟩ ∧
    (⟨TaskState.NotFinished, 0, none⟩ : Task).taskState ≠ TaskState.Submitted ∧
    ∃ s', submitTask (restart demoSched) { begNode := some 2, endNode := some 4 } (some 7) =
        Except.ok (s', []) ∧
      s'.tasks_[2]? = some ⟨TaskState.Pending, 4 - 2, some 7⟩ ∧
      (∀ k, 2 < k → k < 4 →
        s'.tasks_[k]? = ((restart demoSched).tasks_[k]?).map (Task.withState TaskState.Pending)) ∧
      (∀ k, k < 2 ∨ 4 ≤ k → s'.tasks_[k]? = (restart demoSched).tasks_[k]?) ∧
      s'.tasks_.length = (restart demoSched).tasks_.length ∧
      s'.finishedNodeCount_ = (restart demoSched).finishedNodeCount_ ∧
      s'.dispatchedNodeCount_ = (restart demoSched).dispatchedNodeCount_ ∧
      s'.passNodes_ = (restart demoSched).passNodes_ :=
  ⟨by decide, by decide, by decide, rfl, by decide,
    C6_deferral (restart demoSched) 2 4 (some 7) ⟨TaskState.NotFinished, 0, none⟩
      (by decide) (by decide) (by decide) rfl (by decide)⟩

/-- In a state of intended use, a `submitTask` call on an outstanding
single-node range `[i, i+1)` that is ready returns when no null command list
was handed in before, and a call that returns has issued one
`ExecuteCommandLists` call whose batch is the command list handed in followed
by the stored command lists of the `Pending` nodes `i+1, ..., j-1`, where node
`j` is `NotFinished` or `j` is the number of tasks. -/
theorem batching_reachable (passNodes : List FrameGraphPassNode) (d : FrameDriver)
    (h : Reachable passNodes d) (i : Nat) (c : Option Nat)
    (hr : TaskRange.node i ∈ d.outstanding)
    (hready : i = 0 ∨
      ∃ p, d.sched.tasks_[i - 1]? = some p ∧ p.taskState = TaskState.Submitted) :
    ((∀ e ∈ d.submitted, e.2 ≠ none) →
      ∃ d', d.call (Call.submitTask (TaskRange.node i) c) = Except.ok d') ∧
    (∀ d', d.call (Call.submitTask (TaskRange.node i) c) = Except.ok d' →
      ∃ j batch, i < j ∧ j ≤ d.sched.tasks_.length ∧
        (∀ k, i < k → k < j →
          ∃ t, d.sched.tasks_[k]? = some t ∧ t.taskState = TaskState.Pending) ∧
        (∀ t, d.sched.tasks_[j]? = some t → t.taskState = TaskState.NotFinished) ∧
        batch = c :: (List.range' (i + 1) (j - (i + 1))).map (storedCmdList d.sched.tasks_) ∧
        d'.replies = d.replies ++
          [Reply.effects (Effect.ExecuteCommandLists (batch.length % 2 ^ 32) batch ::
            batch.map Effect.addUnusedGraphicsCmdLists)] ∧
        Effect.batches (Effect.ExecuteCommandLists (batch.length % 2 ^ 32) batch ::
            batch.map Effect.addUnusedGraphicsCmdLists) = [batch] ∧
        (i = 1 →
          (∀ k, 2 ≤ k → k ≤ 4 →
            ∃ t, d.sched.tasks_[k]? = some t ∧ t.taskState = TaskState.Pending) →
          ∃ rest, batch = c :: storedCmdList d.sched.tasks_ 2 ::
            storedCmdList d.sched.tasks_ 3 :: storedCmdList d.sched.tasks_ 4 :: rest)) ∧
    (∀ (s s' : FrameGraphTaskScheduler) (r : TaskRange) (b : Option Nat) (es : List Effect),
      submitTask s r b = Except.ok (s', es) →
      es = [] ∨ ∃ ext, Effect.batches es = [b :: ext]) := by
  have inv := h.inv
  refine ⟨?prog, ?main, ?gen⟩
  case prog =>
    intro hsub
    exact submit_progress passNodes d i c inv hsub hr
  case gen =>
    intro s s' r b es hs
    rcases submitTask_effects s r b s' es hs with he | ⟨ext, he⟩
    · exact Or.inl he
    · right
      refine ⟨ext, ?_⟩
      rw [he]
      exact Effect.batches_execute _ _ _
  case main =>
    intro d' hc
    have inv' := Inv.submitTask passNodes d d' _ c inv hr hc
    obtain ⟨k, t, e, hk, ht, hst, ho, hs, step⟩ := submit_step passNodes d d' _ c inv hr hc
    have := TaskRange.node_inj e
    subst this
    have hnotpend : ¬ PendStep d d' i c := by
      rintro ⟨hlt, _, _⟩
      rcases hready with h0 | ⟨p, hp, hps⟩
      · omega
      · have := (inv.submitted_iff (i - 1) p hp).mp hps
        omega
    rcases step with step | step
    · exact absurd step hnotpend
    · obtain ⟨hfi, j, hij, hrun, hstop, hlen, hpt, hfin, hpn, hdsp, hrep⟩ := step
      have hjN : j ≤ d.sched.tasks_.length := by
        have h1 := inv'.finished_le
        have h2 := inv'.dispatched_le
        rw [inv.length_eq]
        omega
      refine ⟨j, _, hij, hjN, ?_, hstop, rfl, hrep, Effect.batches_execute _ _ _, ?_⟩
      · intro k h1 h2
        obtain ⟨u, hu, hus, _⟩ := hrun k h1 h2
        exact ⟨u, hu, hus⟩
      · intro hi1 hpend
        subst hi1
        have hj5 : 5 ≤ j := by
          by_contra hlt
          have h2j : 2 ≤ j := by omega
          obtain ⟨u, hu, hus⟩ := hpend j h2j (by omega)
          have := hstop u hu
          rw [this] at hus
          cases hus
        have hsplit : j - (1 + 1) = (j - 5) + 1 + 1 + 1 := by omega
        refine ⟨(List.range' 5 (j - 5)).map (storedCmdList d.sched.tasks_), ?_⟩
        rw [hsplit, List.range'_succ, List.range'_succ, List.range'_succ]
        rfl

/-- The calls that lead to `rangeSched`: six claims, then `submitTask` for
node 0 with command list 10, for the range `[2, 4)` with command list 12 and
for node 4 with command list 14. -/
theorem rangeSched_calls :
    Except.map FrameDriver.sched
        ((FrameDriver.start (construct rangeNodes)).run
          (List.replicate 6 Call.requestTask ++
            [Call.submitTask (TaskRange.node 0) (some 10),
             Call.submitTask ⟨some 2, some 4⟩ (some 12),
             Call.submitTask (TaskRange.node 4) (some 14)])) =
      Except.ok rangeSched := by
  rfl

theorem nullDriver_reachable : Reachable pairNodes nullDriver := by
  have h := (run_requests pairNodes 2).2
  exact Reachable.submitTask (claimed pairNodes 2) nullDriver (TaskRange.node 1) none h
    (by decide) (by rfl)

theorem nullDriver_submit (c : Option Nat) :
    submitTask nullDriver.sched (TaskRange.node 0) c = Except.error Fault.assertFailed := by
  rfl

/-- C7, as stated, fails in three ways.  A `Pending` task can hold a null
command list: `nullDriver` is a state of intended use (two claims and a
`submitTask` call for node 1 with a null command list, which is deferred); the
range of node 0 is outstanding and ready, yet the `submitTask` call for it
issues no queue call, because the loop reaches node 1 and its assertion on the
stored command list fails.  A `Pending` task can hold the stored length 0:
after two claims, `submitTask` for node 1 and `submitTask` for the empty range
`[1, 1)`, both deferred, task 1 is `Pending` with stored length 0 and the call
for node 0 fails on the assertion on the stored length.  And the sum of line
93 can wrap: on `wrapSched` the call for node 2, which is ready, returns the
batch 32, 33, 30, in which the command list of task 0 follows that of
task 3. -/
theorem C7_batching_counterexample :
    (Reachable pairNodes nullDriver ∧ TaskRange.node 0 ∈ nullDriver.outstanding ∧
      TaskRange.ready nullDriver.sched (TaskRange.node 0) = true ∧
      nullDriver.sched.tasks_[1]? = some ⟨TaskState.Pending, 1, none⟩ ∧
      submitTask nullDriver.sched (TaskRange.node 0) (some 5) =
        Except.error Fault.assertFailed ∧
      (¬ ∃ d', nullDriver.call (Call.submitTask (TaskRange.node 0) (some 5)) =
        Except.ok d')) ∧
    (Except.map FrameDriver.sched
        ((FrameDriver.start (construct pairNodes)).run
          [Call.requestTask, Call.requestTask,
           Call.submitTask (TaskRange.node 1) (some 7),
           Call.submitTask ⟨some 1, some 1⟩ (some 8)]) =
        Except.ok
          { passNodes_ := pairNodes
            tasks_ := [⟨TaskState.NotFinished, 0, none⟩, ⟨TaskState.Pending, 0, some 8⟩]
            dispatchedNodeCount_ := 2
            finishedNodeCount_ := 0 } ∧
      (FrameDriver.start (construct pairNodes)).run
          [Call.requestTask, Call.requestTask,
           Call.submitTask (TaskRange.node 1) (some 7),
           Call.submitTask ⟨some 1, some 1⟩ (some 8),
           Call.submitTask (TaskRange.node 0) (some 5)] =
        Except.error Fault.assertFailed) ∧
    (TaskRange.ready wrapSched (TaskRange.node 2) = true ∧
      submitTask wrapSched (TaskRange.node 2) (some 32) =
        Except.ok (wrapExit,
          [Effect.ExecuteCommandLists 3 [some 32, some 33, some 30],
           Effect.addUnusedGraphicsCmdLists (some 32),
           Effect.addUnusedGraphicsCmdLists (some 33),
           Effect.addUnusedGraphicsCmdLists (some 30)]) ∧
      storedCmdList wrapSched.tasks_ 3 = some 33 ∧ storedCmdList wrapSched.tasks_ 0 = some 30) :=
  ⟨⟨nullDriver_reachable, by decide, by decide, rfl, nullDriver_submit (some 5), by
      rintro ⟨d', h⟩
      have h' : nullDriver.call (Call.submitTask (TaskRange.node 0) (some 5)) =
          Except.error Fault.assertFailed := by rfl
      rw [h'] at h
      cases h⟩,
    ⟨by rfl, by rfl⟩, ⟨by decide, by rfl, rfl, rfl⟩⟩

/-- C7. Batching: in any state, `submitTask` on a range
`[begIdx, endIdx)` within the task list that is ready (`begIdx = 0` or task
`begIdx - 1` is `Submitted`) returns and issues exactly one
`ExecuteCommandLists` call, followed by the pool calls for the same command
lists, provided every `Pending` range of the run behind it has a stored length
of at least 1 and a stored command list and lies within the task list.  The
batch is the command list handed in followed by the stored command lists of
the maximal run of consecutive `Pending` ranges starting at `endIdx`
(`pendingRun`, which `IsPendingRun` characterises), in increasing index order;
the run stops at `j`, the first index behind its ranges whose task is not
`Pending` or the end of the list.  The call marks the tasks of `[begIdx, j)`
`Submitted`, leaves the others as they are and sets `finishedNodeCount_` to
`j`.  In particular, for the range of node 1 with nodes 2, 3 and 4 `Pending`
single-node ranges, the batch starts with the command lists of nodes 1, 2, 3,
4 in that order.  In a state of intended use in which no null command list was
handed in, the condition on the run holds for every index, the call on an
outstanding ready range returns, and the run stops at a `NotFinished` node or
at the end of the list.  In any state, a call that returns and was not
deferred has issued exactly one queue call, whose batch starts with the
command list handed in. -/
theorem C7_batching (s : FrameGraphTaskScheduler) (begIdx endIdx : Nat) (c : Option Nat)
    (hbeg : begIdx ≤ endIdx) (hend : endIdx ≤ s.tasks_.length)
    (hready : begIdx = 0 ∨
      ∃ p, s.tasks_[begIdx - 1]? = some p ∧ p.taskState = TaskState.Submitted)
    (hrun : ∀ k ∈ pendingRun s.tasks_ s.tasks_.length endIdx, ∀ t, s.tasks_[k]? = some t →
      1 ≤ t.nodeCount ∧ t.cmdList ≠ none ∧ k + t.nodeCount ≤ s.tasks_.length) :
    (∃ s' batch,
      batch = c :: (pendingRun s.tasks_ s.tasks_.length endIdx).map (storedCmdList s.tasks_) ∧
      submitTask s ⟨some begIdx, some endIdx⟩ c =
        Except.ok (s', Effect.ExecuteCommandLists (batch.length % 2 ^ 32) batch ::
          batch.map Effect.addUnusedGraphicsCmdLists) ∧
      Effect.batches (Effect.ExecuteCommandLists (batch.length % 2 ^ 32) batch ::
          batch.map Effect.addUnusedGraphicsCmdLists) = [batch] ∧
      s'.finishedNodeCount_ = pendingRunEnd s.tasks_ s.tasks_.length endIdx ∧
      (∀ k, s'.tasks_[k]? =
        if begIdx ≤ k ∧ k < pendingRunEnd s.tasks_ s.tasks_.length endIdx then
          (s.tasks_[k]?).map (Task.withState TaskState.Submitted)
        else s.tasks_[k]?)) ∧
    (IsPendingRun s.tasks_ endIdx (pendingRun s.tasks_ s.tasks_.length endIdx)
        (pendingRunEnd s.tasks_ s.tasks_.length endIdx) ∧
      (pendingRun s.tasks_ s.tasks_.length endIdx).Pairwise (fun a b => a < b) ∧
      endIdx ≤ pendingRunEnd s.tasks_ s.tasks_.length endIdx ∧
      pendingRunEnd s.tasks_ s.tasks_.length endIdx ≤ s.tasks_.length ∧
      (∀ t, s.tasks_[pendingRunEnd s.tasks_ s.tasks_.length endIdx]? = some t →
        t.taskState ≠ TaskState.Pending)) ∧
    (begIdx = 1 → endIdx = 2 →
      (∀ k, 2 ≤ k → k ≤ 4 →
        ∃ t, s.tasks_[k]? = some t ∧ t.taskState = TaskState.Pending ∧ t.nodeCount = 1) →
      ∃ rest, c :: (pendingRun s.tasks_ s.tasks_.length endIdx).map (storedCmdList s.tasks_) =
        c :: storedCmdList s.tasks_ 2 :: storedCmdList s.tasks_ 3 ::
          storedCmdList s.tasks_ 4 :: rest) ∧
    (∀ (passNodes : List FrameGraphPassNode) (d : FrameDriver), Reachable passNodes d →
      (∀ e ∈ d.submitted, e.2 ≠ none) →
      (∀ (e : Nat), ∀ k ∈ pendingRun d.sched.tasks_ d.sched.tasks_.length e,
        ∀ t, d.sched.tasks_[k]? = some t →
          1 ≤ t.nodeCount ∧ t.cmdList ≠ none ∧ k + t.nodeCount ≤ d.sched.tasks_.length) ∧
      ∀ (i : Nat) (b : Option Nat), TaskRange.node i ∈ d.outstanding →
        (i = 0 ∨ ∃ p, d.sched.tasks_[i - 1]? = some p ∧ p.taskState = TaskState.Submitted) →
        ∃ d' j batch, d.call (Call.submitTask (TaskRange.node i) b) = Except.ok d' ∧
          i < j ∧ j ≤ d.sched.tasks_.length ∧
          (∀ k, i < k → k < j →
            ∃ t, d.sched.tasks_[k]? = some t ∧ t.taskState = TaskState.Pending) ∧
          (∀ t, d.sched.tasks_[j]? = some t → t.taskState = TaskState.NotFinished) ∧
          batch = b :: (List.range' (i + 1) (j - (i + 1))).map (storedCmdList d.sched.tasks_) ∧
          d'.replies = d.replies ++
            [Reply.effects (Effect.ExecuteCommandLists (batch.length % 2 ^ 32) batch ::
              batch.map Effect.addUnusedGraphicsCmdLists)]) ∧
    (∀ (s1 s2 : FrameGraphTaskScheduler) (r : TaskRange) (b : Option Nat) (es : List Effect),
      submitTask s1 r b = Except.ok (s2, es) →
      es = [] ∨ ∃ ext, Effect.batches es = [b :: ext]) := by
  obtain ⟨s', hs, p1, p2, p3, _, p5, p6, _, _⟩ := submitTask.submit_run s begIdx endIdx c
    hbeg hend hrun
  obtain ⟨r1, r2⟩ := pendingRun_spec s.tasks_ s.tasks_.length endIdx (by omega)
    (fun k hk t ht => (hrun k hk t ht).1)
  refine ⟨⟨s', _, rfl, ?_, Effect.batches_execute _ _ _, p6, p5⟩, ⟨r1, r2, p1, p2, p3⟩, ?_, ?_,
    ?_⟩
  · rw [submitTask_range_ready s begIdx endIdx c hbeg hready]
    exact hs
  · intro _ he h
    subst he
    obtain ⟨rest, hrest⟩ := pendingRun_three s.tasks_ h
    exact ⟨rest.map (storedCmdList s.tasks_), by rw [hrest]; rfl⟩
  · intro passNodes d hd hbuf
    have inv := hd.inv
    refine ⟨?_, ?_⟩
    · intro e k hk t ht
      obtain ⟨u, hu, hus⟩ := pendingRun_mem _ _ _ _ hk
      rw [ht] at hu
      cases hu
      obtain ⟨h1, h2⟩ := inv.pending k t ht hus
      have hlt := getElem?_lt ht
      exact ⟨by omega, hbuf _ (lookup_mem h2), by omega⟩
    · intro i b hr hrdy
      obtain ⟨hprog, hmain, _⟩ := batching_reachable passNodes d hd i b hr hrdy
      obtain ⟨d', hd'⟩ := hprog hbuf
      obtain ⟨j, batch, h1, h2, h3, h4, h5, h6, _, _⟩ := hmain d' hd'
      exact ⟨d', j, batch, hd', h1, h2, h3, h4, h5, h6⟩
  · intro s1 s2 r b es hs1
    rcases submitTask_effects s1 r b s2 es hs1 with he | ⟨ext, he⟩
    · exact Or.inl he
    · right
      refine ⟨ext, ?_⟩
      rw [he]
      exact Effect.batches_execute _ _ _

theorem C7_batching_witness :
    1 ≤ 2 ∧ 2 ≤ rangeSched.tasks_.length ∧
    (1 = 0 ∨ ∃ p, rangeSched.tasks_[1 - 1]? = some p ∧ p.taskState = TaskState.Submitted) ∧
    (∀ k ∈ pendingRun rangeSched.tasks_ rangeSched.tasks_.length 2,
      ∀ t, rangeSched.tasks_[k]? = some t →
        1 ≤ t.nodeCount ∧ t.cmdList ≠ none ∧ k + t.nodeCount ≤ rangeSched.tasks_.length) ∧
    pendingRun rangeSched.tasks_ rangeSched.tasks_.length 2 = [2, 4] ∧
    pendingRunEnd rangeSched.tasks_ rangeSched.tasks_.length 2 = 5 ∧
    submitTask rangeSched ⟨some 1, some 2⟩ (some 11) =
      Except.ok (rangeDone,
        [Effect.ExecuteCommandLists 3 [some 11, some 12, some 14],
         Effect.addUnusedGraphicsCmdLists (some 11), Effect.addUnusedGraphicsCmdLists (some 12),
         Effect.addUnusedGraphicsCmdLists (some 14)]) ∧
    ((∃ s' batch,
      batch = some 11 :: (pendingRun rangeSched.tasks_ rangeSched.tasks_.length 2).map (storedCmdList rangeSched.tasks_) ∧
      submitTask rangeSched ⟨some 1, some 2⟩ (some 11) =
        Except.ok (s', Effect.ExecuteCommandLists (batch.length % 2 ^ 32) batch ::
          batch.map Effect.addUnusedGraphicsCmdLists) ∧
      Effect.batches (Effect.ExecuteCommandLists (batch.length % 2 ^ 32) batch ::
          batch.map Effect.addUnusedGraphicsCmdLists) = [batch] ∧
      s'.finishedNodeCount_ = pendingRunEnd rangeSched.tasks_ rangeSched.tasks_.length 2 ∧
      (∀ k, s'.tasks_[k]? =
        if 1 ≤ k ∧ k < pendingRunEnd rangeSched.tasks_ rangeSched.tasks_.length 2 then
          (rangeSched.tasks_[k]?).map (Task.withState TaskState.Submitted)
        else rangeSched.tasks_[k]?)) ∧
    (IsPendingRun rangeSched.tasks_ 2 (pendingRun rangeSched.tasks_ rangeSched.tasks_.length 2)
        (pendingRunEnd rangeSched.tasks_ rangeSched.tasks_.length 2) ∧
      (pendingRun rangeSched.tasks_ rangeSched.tasks_.length 2).Pairwise (fun a b => a < b) ∧
      2 ≤ pendingRunEnd rangeSched.tasks_ rangeSched.tasks_.length 2 ∧
      pendingRunEnd rangeSched.tasks_ rangeSched.tasks_.length 2 ≤ rangeSched.tasks_.length ∧
      (∀ t, rangeSched.tasks_[pendingRunEnd rangeSched.tasks_ rangeSched.tasks_.length 2]? = some t →
        t.taskState ≠ TaskState.Pending)) ∧
    (1 = 1 → 2 = 2 →
      (∀ k, 2 ≤ k → k ≤ 4 →
        ∃ t, rangeSched.tasks_[k]? = some t ∧ t.taskState = TaskState.Pending ∧ t.nodeCount = 1) →
      ∃ rest, some 11 :: (pendingRun rangeSched.tasks_ rangeSched.tasks_.length 2).map (storedCmdList rangeSched.tasks_) =
        some 11 :: storedCmdList rangeSched.tasks_ 2 :: storedCmdList rangeSched.tasks_ 3 ::
          storedCmdList rangeSched.tasks_ 4 :: rest) ∧
    (∀ (passNodes : List FrameGraphPassNode) (d : FrameDriver), Reachable passNodes d →
      (∀ e ∈ d.submitted, e.2 ≠ none) →
      (∀ (e : Nat), ∀ k ∈ pendingRun d.sched.tasks_ d.sched.tasks_.length e,
        ∀ t, d.sched.tasks_[k]? = some t →
          1 ≤ t.nodeCount ∧ t.cmdList ≠ none ∧ k + t.nodeCount ≤ d.sched.tasks_.length) ∧
      ∀ (i : Nat) (b : Option Nat), TaskRange.node i ∈ d.outstanding →
        (i = 0 ∨ ∃ p, d.sched.tasks_[i - 1]? = some p ∧ p.taskState = TaskState.Submitted) →
        ∃ d' j batch, d.call (Call.submitTask (TaskRange.node i) b) = Except.ok d' ∧
          i < j ∧ j ≤ d.sched.tasks_.length ∧
          (∀ k, i < k → k < j →
            ∃ t, d.sched.tasks_[k]? = some t ∧ t.taskState = TaskState.Pending) ∧
          (∀ t, d.sched.tasks_[j]? = some t → t.taskState = TaskState.NotFinished) ∧
          batch = b :: (List.range' (i + 1) (j - (i + 1))).map (storedCmdList d.sched.tasks_) ∧
          d'.replies = d.replies ++
            [Reply.effects (Effect.ExecuteCommandLists (batch.length % 2 ^ 32) batch ::
              batch.map Effect.addUnusedGraphicsCmdLists)]) ∧
    (∀ (s1 s2 : FrameGraphTaskScheduler) (r : TaskRange) (b : Option Nat) (es : List Effect),
      submitTask s1 r b = Except.ok (s2, es) →
      es = [] ∨ ∃ ext, Effect.batches es = [b :: ext])) :=
  have hrun : ∀ k ∈ pendingRun rangeSched.tasks_ rangeSched.tasks_.length 2,
      ∀ t, rangeSched.tasks_[k]? = some t →
        1 ≤ t.nodeCount ∧ t.cmdList ≠ none ∧ k + t.nodeCount ≤ rangeSched.tasks_.length := by
    intro k hk t ht
    have hmem : k ∈ [2, 4] := hk
    have hk' : k = 2 ∨ k = 4 := by simpa using hmem
    rcases hk' with rfl | rfl <;> (cases ht; decide)
  ⟨by decide, by decide, Or.inr ⟨⟨TaskState.Submitted, 0, none⟩, rfl, rfl⟩, hrun, rfl, rfl, by rfl,
    C7_batching rangeSched 1 2 (some 11) (by decide) (by decide)
      (Or.inr ⟨⟨TaskState.Submitted, 0, none⟩, rfl, rfl⟩) hrun⟩

set_option maxHeartbeats 2000000 in
/-- C8. Scenario with five nodes: after five `requestTask` calls on a fresh
scheduler, submitting the nodes in the order 2, 1, 0, 4, 3 (node `i` with
command list `buf i`) issues nothing for nodes 2 and 1, one
`ExecuteCommandLists` call with the command lists of nodes 0, 1, 2 for node 0,
nothing for node 4, and one call with the command lists of nodes 3, 4 for
node 3: two queue calls in all, and `finishedNodeCount_` ends at 5. -/
theorem C8_scenario_five_nodes (n0 n1 n2 n3 n4 : FrameGraphPassNode) (buf : Nat → Nat) :
    ∃ d', (FrameDriver.start (construct [n0, n1, n2, n3, n4])).run
        (cycle 5 [2, 1, 0, 4, 3] buf) = Except.ok d' ∧
      d'.replies.drop 5 =
        [Reply.effects [],
         Reply.effects [],
         Reply.effects
          [Effect.ExecuteCommandLists 3 [some (buf 0), some (buf 1), some (buf 2)],
           Effect.addUnusedGraphicsCmdLists (some (buf 0)),
           Effect.addUnusedGraphicsCmdLists (some (buf 1)),
           Effect.addUnusedGraphicsCmdLists (some (buf 2))],
         Reply.effects [],
         Reply.effects
          [Effect.ExecuteCommandLists 2 [some (buf 3), some (buf 4)],
           Effect.addUnusedGraphicsCmdLists (some (buf 3)),
           Effect.addUnusedGraphicsCmdLists (some (buf 4))]] ∧
      Reply.batches d'.replies =
        [[some (buf 0), some (buf 1), some (buf 2)], [some (buf 3), some (buf 4)]] ∧
      (Reply.batches d'.replies).length = 2 ∧
      d'.sched.finishedNodeCount_ = 5 ∧
      isAllFinished d'.sched = true := by
  have h0 := (run_requests [n0, n1, n2, n3, n4] 5).1
  have h1 : (claimed [n0, n1, n2, n3, n4] 5).run
      [Call.submitTask (TaskRange.node 2) (some (buf 2)),
       Call.submitTask (TaskRange.node 1) (some (buf 1)),
       Call.submitTask (TaskRange.node 0) (some (buf 0))] = Except.ok
      { sched :=
          { passNodes_ := [n0, n1, n2, n3, n4]
            tasks_ := [⟨TaskState.Submitted, 0, none⟩, ⟨TaskState.Submitted, 1, some (buf 1)⟩,
              ⟨TaskState.Submitted, 1, some (buf 2)⟩, ⟨TaskState.NotFinished, 0, none⟩,
              ⟨TaskState.NotFinished, 0, none⟩]
            dispatchedNodeCount_ := 5
            finishedNodeCount_ := 3 }
        replies :=
          [Reply.range (TaskRange.node 0), Reply.range (TaskRange.node 1),
           Reply.range (TaskRange.node 2), Reply.range (TaskRange.node 3),
           Reply.range (TaskRange.node 4),
           Reply.effects [], Reply.effects [],
           Reply.effects
            [Effect.ExecuteCommandLists 3 [some (buf 0), some (buf 1), some (buf 2)],
             Effect.addUnusedGraphicsCmdLists (some (buf 0)),
             Effect.addUnusedGraphicsCmdLists (some (buf 1)),
             Effect.addUnusedGraphicsCmdLists (some (buf 2))]]
        outstanding := [TaskRange.node 4, TaskRange.node 3]
        submitted := [(TaskRange.node 0, some (buf 0)), (TaskRange.node 1, some (buf 1)),
          (TaskRange.node 2, some (buf 2))] } := by
    rfl
  have h2 := FrameDriver.run_append _ _ _
    [Call.submitTask (TaskRange.node 4) (some (buf 4)),
     Call.submitTask (TaskRange.node 3) (some (buf 3))] h1
  have h3 := FrameDriver.run_append _ _ _
    ([Call.submitTask (TaskRange.node 2) (some (buf 2)),
      Call.submitTask (TaskRange.node 1) (some (buf 1)),
      Call.submitTask (TaskRange.node 0) (some (buf 0))] ++
     [Call.submitTask (TaskRange.node 4) (some (buf 4)),
      Call.submitTask (TaskRange.node 3) (some (buf 3))]) h0
  have h4 : FrameDriver.run
      { sched :=
          { passNodes_ := [n0, n1, n2, n3, n4]
            tasks_ := [⟨TaskState.Submitted, 0, none⟩, ⟨TaskState.Submitted, 1, some (buf 1)⟩,
              ⟨TaskState.Submitted, 1, some (buf 2)⟩, ⟨TaskState.NotFinished, 0, none⟩,
              ⟨TaskState.NotFinished, 0, none⟩]
            dispatchedNodeCount_ := 5
            finishedNodeCount_ := 3 }
        replies :=
          [Reply.range (TaskRange.node 0), Reply.range (TaskRange.node 1),
           Reply.range (TaskRange.node 2), Reply.range (TaskRange.node 3),
           Reply.range (TaskRange.node 4),
           Reply.effects [], Reply.effects [],
           Reply.effects
            [Effect.ExecuteCommandLists 3 [some (buf 0), some (buf 1), some (buf 2)],
             Effect.addUnusedGraphicsCmdLists (some (buf 0)),
             Effect.addUnusedGraphicsCmdLists (some (buf 1)),
             Effect.addUnusedGraphicsCmdLists (some (buf 2))]]
        outstanding := [TaskRange.node 4, TaskRange.node 3]
        submitted := [(TaskRange.node 0, some (buf 0)), (TaskRange.node 1, some (buf 1)),
          (TaskRange.node 2, some (buf 2))] }
      [Call.submitTask (TaskRange.node 4) (some (buf 4)),
       Call.submitTask (TaskRange.node 3) (some (buf 3))] = Except.ok
      { sched :=
          { passNodes_ := [n0, n1, n2, n3, n4]
            tasks_ := [⟨TaskState.Submitted, 0, none⟩, ⟨TaskState.Submitted, 1, some (buf 1)⟩,
              ⟨TaskState.Submitted, 1, some (buf 2)⟩, ⟨TaskState.Submitted, 0, none⟩,
              ⟨TaskState.Submitted, 1, some (buf 4)⟩]
            dispatchedNodeCount_ := 5
            finishedNodeCount_ := 5 }
        replies :=
          [Reply.range (TaskRange.node 0), Reply.range (TaskRange.node 1),
           Reply.range (TaskRange.node 2), Reply.range (TaskRange.node 3),
           Reply.range (TaskRange.node 4),
           Reply.effects [], Reply.effects [],
           Reply.effects
            [Effect.ExecuteCommandLists 3 [some (buf 0), some (buf 1), some (buf 2)],
             Effect.addUnusedGraphicsCmdLists (some (buf 0)),
             Effect.addUnusedGraphicsCmdLists (some (buf 1)),
             Effect.addUnusedGraphicsCmdLists (some (buf 2))],
           Reply.effects [],
           Reply.effects
            [Effect.ExecuteCommandLists 2 [some (buf 3), some (buf 4)],
             Effect.addUnusedGraphicsCmdLists (some (buf 3)),
             Effect.addUnusedGraphicsCmdLists (some (buf 4))]]
        outstanding := []
        submitted := [(TaskRange.node 3, some (buf 3)), (TaskRange.node 4, some (buf 4)),
          (TaskRange.node 0, some (buf 0)), (TaskRange.node 1, some (buf 1)),
          (TaskRange.node 2, some (buf 2))] } := by
    rfl
  rw [h2, h4] at h3
  exact ⟨_, h3, rfl, rfl, rfl, rfl, rfl⟩

/-- The `// submit` path on a range whose tasks are already `Submitted` and
whose successor is not `Pending`. -/
theorem submitTask.submit_again (s : FrameGraphTaskScheduler) (begIdx endIdx : Nat)
    (c : Option Nat) (hle : begIdx ≤ endIdx) (hend : endIdx ≤ s.tasks_.length)
    (hsub : ∀ (k : Nat) (t : Task), begIdx ≤ k → k < endIdx → s.tasks_[k]? = some t →
      t.taskState = TaskState.Submitted)
    (hnext : ∀ t : Task, s.tasks_[endIdx]? = some t → t.taskState ≠ TaskState.Pending) :
    submitTask.submit s begIdx endIdx c =
      Except.ok ({ s with finishedNodeCount_ := endIdx },
        [Effect.ExecuteCommandLists 1 [c], Effect.addUnusedGraphicsCmdLists c]) := by
  obtain ⟨ts', h1, h2, h3⟩ := setTaskStates_ok TaskState.Submitted (endIdx - begIdx) begIdx
    s.tasks_ (by omega)
  have hts : ts' = s.tasks_ := by
    apply List.ext_getElem?
    intro k
    rw [h3 k]
    by_cases hk : begIdx ≤ k ∧ k < begIdx + (endIdx - begIdx)
    · rw [if_pos hk]
      cases hkt : s.tasks_[k]? with
      | none => rfl
      | some t =>
        have := hsub k t hk.1 (by omega) hkt
        simp only [Option.map_some', Option.some.injEq]
        rw [← this]
        rfl
    · rw [if_neg hk]
  rw [hts] at h1
  have hloop : submitTask.loop (submitTask.loopBound s)
      { s with tasks_ := s.tasks_, finishedNodeCount_ := endIdx } endIdx [c] [c] =
      Except.ok ({ s with tasks_ := s.tasks_, finishedNodeCount_ := endIdx }, [c], [c]) := by
    by_cases hl : s.tasks_.length ≤ endIdx
    · exact submitTask.loop_stop_end _ _ _ _ _ hl
    · have ht : s.tasks_[endIdx]? = some s.tasks_[endIdx] :=
        List.getElem?_eq_getElem (by omega)
      exact submitTask.loop_stop_state _ _ _ _ _ _ ht (hnext _ ht)
  unfold submitTask.submit
  rw [h1]
  simp only
  rw [hloop]
  simp

/-- C9 (as amended). Double submit is not detected: in every state, for every
range `[beg, end)` of tasks (`beg < end ≤ tasks_.size()`) that is ready
(`beg = 0` or task `beg - 1` is `Submitted`), whose tasks are all already
`Submitted` and whose successor task `end` (if any) is not `Pending`,
`submitTask` does not fail: it issues one `ExecuteCommandLists` call whose
batch is the command list handed in, hands that command list to the pool,
leaves every task as it is and sets `finishedNodeCount_` to `end`. -/
theorem C9_double_submit_not_detected (s : FrameGraphTaskScheduler) (begIdx endIdx : Nat)
    (c : Option Nat) (hlt : begIdx < endIdx) (hend : endIdx ≤ s.tasks_.length)
    (hready : begIdx = 0 ∨
      ∃ p : Task, s.tasks_[begIdx - 1]? = some p ∧ p.taskState = TaskState.Submitted)
    (hsub : ∀ (k : Nat) (t : Task), begIdx ≤ k → k < endIdx → s.tasks_[k]? = some t →
      t.taskState = TaskState.Submitted)
    (hnext : ∀ t : Task, s.tasks_[endIdx]? = some t → t.taskState ≠ TaskState.Pending) :
    submitTask s { begNode := some begIdx, endNode := some endIdx } c =
      Except.ok ({ s with finishedNodeCount_ := endIdx },
        [Effect.ExecuteCommandLists 1 [c], Effect.addUnusedGraphicsCmdLists c]) := by
  have hsubmit := submitTask.submit_again s begIdx endIdx c (Nat.le_of_lt hlt) hend hsub hnext
  rcases hready with h0 | ⟨p, hp, hps⟩
  · subst h0
    simp [submitTask, hsubmit]
  · by_cases hb : begIdx > 0
    · simp [submitTask, Nat.not_lt.mpr (Nat.le_of_lt hlt), hb, hp, hps, hsubmit]
    · have h0 : begIdx = 0 := by omega
      subst h0
      simp [submitTask, hsubmit]

theorem C9_double_submit_not_detected_witness :
    0 < 1 ∧ 1 ≤ doneSched.tasks_.length ∧
    (0 = 0 ∨ ∃ p : Task, doneSched.tasks_[0 - 1]? = some p ∧
      p.taskState = TaskState.Submitted) ∧
    (∀ (k : Nat) (t : Task), 0 ≤ k → k < 1 → doneSched.tasks_[k]? = some t →
      t.taskState = TaskState.Submitted) ∧
    (∀ t : Task, doneSched.tasks_[1]? = some t → t.taskState ≠ TaskState.Pending) ∧
    submitTask doneSched { begNode := some 0, endNode := some 1 } (some 10) =
      Except.ok ({ doneSched with finishedNodeCount_ := 1 },
        [Effect.ExecuteCommandLists 1 [some 10], Effect.addUnusedGraphicsCmdLists (some 10)]) :=
  have hsub : ∀ (k : Nat) (t : Task), 0 ≤ k → k < 1 → doneSched.tasks_[k]? = some t →
      t.taskState = TaskState.Submitted := by
    intro k t _ hk ht
    have : k = 0 := by omega
    subst this
    cases ht
    rfl
  have hnext : ∀ t : Task, doneSched.tasks_[1]? = some t → t.taskState ≠ TaskState.Pending := by
    intro t ht
    cases ht
    decide
  ⟨by decide, by decide, Or.inl rfl, hsub, hnext,
    C9_double_submit_not_detected doneSched 0 1 (some 10) (by decide) (by decide) (Or.inl rfl)
      hsub hnext⟩

/-- C9, as stated, fails: at the end of a frame over five nodes (`doneSched`,
reached by five claims and five submissions; every task `Submitted`,
`finishedNodeCount_ = 5`), submitting node 0 again is ready and
its range is already `Submitted`, yet `submitTask` returns without a fault,
issues a queue call with the command list, and lowers `finishedNodeCount_`
from 5 to 1. -/
theorem C9_double_submit_counterexample :
    (∃ d, (FrameDriver.start (construct demoNodes)).run
        (cycle 5 [0, 2, 3, 4, 1] (fun i => 10 + i)) = Except.ok d ∧ d.sched = doneSched) ∧
    doneSched.finishedNodeCount_ = 5 ∧
    (∀ t ∈ doneSched.tasks_, t.taskState = TaskState.Submitted) ∧
    (∀ e : Fault, submitTask doneSched (TaskRange.node 0) (some 10) ≠ Except.error e) ∧
    submitTask doneSched (TaskRange.node 0) (some 10) =
      Except.ok ({ doneSched with finishedNodeCount_ := 1 },
        [Effect.ExecuteCommandLists 1 [some 10], Effect.addUnusedGraphicsCmdLists (some 10)]) := by
  have h : submitTask doneSched (TaskRange.node 0) (some 10) =
      Except.ok ({ doneSched with finishedNodeCount_ := 1 },
        [Effect.ExecuteCommandLists 1 [some 10], Effect.addUnusedGraphicsCmdLists (some 10)]) := by
    rfl
  refine ⟨⟨_, rfl, rfl⟩, rfl, by decide, ?_, h⟩
  intro e he
  rw [h] at he
  cases he

/-- C10. `restart` erases all history: for every scheduler state `s` over
`passNodes` (as many tasks as pass nodes, in whatever states), `restart s` is
the freshly constructed scheduler: one task per pass node, each `NotFinished`
with length 0 and no command list, and both counters 0.  Hence `restart` is
idempotent, and every sequence of calls gives the same result (same returned
ranges, same queue and pool calls, same final state, same fault if any) after
`restart` as on a freshly constructed scheduler. -/
theorem C10_restart_is_fresh (passNodes : List FrameGraphPassNode)
    (s : FrameGraphTaskScheduler) (hp : s.passNodes_ = passNodes)
    (ht : s.tasks_.length = passNodes.length) :
    restart s = construct passNodes ∧
    restart s =
      { passNodes_ := passNodes
        tasks_ := List.replicate passNodes.length ⟨TaskState.NotFinished, 0, none⟩
        dispatchedNodeCount_ := 0
        finishedNodeCount_ := 0 } ∧
    restart (restart s) = restart s ∧
    (∀ calls : List Call,
      (FrameDriver.start (restart s)).run calls =
        (FrameDriver.start (construct passNodes)).run calls) := by
  have h := restart_of_length s passNodes hp ht
  refine ⟨h, ?_, ?_, ?_⟩
  · rw [h, construct_eq]
  · rw [h]
    apply restart_of_length
    · rw [construct_eq]
    · rw [construct_eq]
      simp
  · intro calls
    rw [h]

theorem C10_restart_is_fresh_witness :
    demoSched.passNodes_ = demoNodes ∧ demoSched.tasks_.length = demoNodes.length ∧
    (restart demoSched = construct demoNodes ∧
    restart demoSched =
      { passNodes_ := demoNodes
        tasks_ := List.replicate demoNodes.length ⟨TaskState.NotFinished, 0, none⟩
        dispatchedNodeCount_ := 0
        finishedNodeCount_ := 0 } ∧
    restart (restart demoSched) = restart demoSched ∧
    (∀ calls : List Call,
      (FrameDriver.start (restart demoSched)).run calls =
        (FrameDriver.start (construct demoNodes)).run calls)) :=
  ⟨rfl, rfl, C10_restart_is_fresh demoNodes demoSched rfl rfl⟩

theorem Effect.reclaimed_execute (n : Nat) (b g : List (Option Nat)) :
    Effect.reclaimed (Effect.ExecuteCommandLists n b :: g.map Effect.addUnusedGraphicsCmdLists) =
      g := by
  have : ∀ g : List (Option Nat),
      Effect.reclaimed (g.map Effect.addUnusedGraphicsCmdLists) = g := by
    intro g
    induction g with
    | nil => rfl
    | cons x xs ih => simp [Effect.reclaimed, ih]
  simp [Effect.reclaimed, this]

theorem Reply.reclaimed_append (rs rs' : List Reply) :
    Reply.reclaimed (rs ++ rs') = Reply.reclaimed rs ++ Reply.reclaimed rs' := by
  induction rs with
  | nil => rfl
  | cons r rs ih =>
    cases r with
    | range _ => simpa [Reply.reclaimed] using ih
    | effects es => simp [Reply.reclaimed, ih]

/-- The pool receives exactly what the queue received, in the same order. -/
theorem submitTask_reclaimed (s : FrameGraphTaskScheduler) (r : TaskRange) (c : Option Nat)
    (s' : FrameGraphTaskScheduler) (es : List Effect)
    (h : submitTask s r c = Except.ok (s', es)) :
    Effect.reclaimed es = (Effect.batches es).flatten := by
  rcases submitTask_effects s r c s' es h with he | ⟨ext, he⟩
  · rw [he]
    rfl
  · rw [he, Effect.reclaimed_execute, Effect.batches_execute]
    simp

/-- A deferred `submitTask` call makes no queue or pool call. -/
theorem submitTask_pend_effects (s : FrameGraphTaskScheduler) (begIdx endIdx : Nat)
    (c : Option Nat) (p : Task) (s' : FrameGraphTaskScheduler) (es : List Effect)
    (hbeg : 0 < begIdx) (hp : s.tasks_[begIdx - 1]? = some p)
    (hps : p.taskState ≠ TaskState.Submitted)
    (h : submitTask s { begNode := some begIdx, endNode := some endIdx } c =
      Except.ok (s', es)) : es = [] := by
  by_cases hr : endIdx < begIdx
  · simp [submitTask, hr] at h
  · cases hpend : submitTask.pend s begIdx endIdx (endIdx - begIdx) c with
    | error e => simp [submitTask, hr, hbeg, hp, hps, hpend] at h
    | ok s1 =>
      simp [submitTask, hr, hbeg, hp, hps, hpend] at h
      exact h.2

theorem FrameDriver.call_replies (d d' : FrameDriver) (c : Call)
    (h : d.call c = Except.ok d') :
    (∃ r, d'.replies = d.replies ++ [Reply.range r]) ∨
    (∃ s' r b es, submitTask s' r b = Except.ok (d'.sched, es) ∧
      d'.replies = d.replies ++ [Reply.effects es]) := by
  cases c with
  | requestTask =>
    left
    unfold FrameDriver.call at h
    cases hs : requestTask d.sched with
    | error e => simp [hs] at h
    | ok p =>
      obtain ⟨s', r⟩ := p
      simp only [hs, Except.ok.injEq] at h
      exact ⟨r, by rw [← h]⟩
  | submitTask r b =>
    right
    obtain ⟨s', es, hs, rfl⟩ := FrameDriver.call_submitTask d d' r b h
    exact ⟨d.sched, r, b, es, hs, rfl⟩

/-- Over any sequence of calls, the pool receives in total what the queue
received, in the same order. -/
theorem FrameDriver.run_reclaimed (calls : List Call) :
    ∀ (d d' : FrameDriver), d.run calls = Except.ok d' →
      Reply.reclaimed d.replies = (Reply.batches d.replies).flatten →
      Reply.reclaimed d'.replies = (Reply.batches d'.replies).flatten := by
  induction calls with
  | nil =>
    intro d d' h hd
    simp only [FrameDriver.run, Except.ok.injEq] at h
    rw [← h]
    exact hd
  | cons c cs ih =>
    intro d d' h hd
    simp only [FrameDriver.run] at h
    cases hc : d.call c with
    | error e => simp [hc] at h
    | ok d1 =>
      simp only [hc] at h
      apply ih d1 d' h
      rcases FrameDriver.call_replies d d1 c hc with ⟨r, hr⟩ | ⟨s', r, b, es, hs, hr⟩
      · rw [hr, Reply.reclaimed_append, Reply.batches_range]
        simp [Reply.reclaimed, hd]
      · rw [hr, Reply.reclaimed_append, Reply.batches_effects, List.flatten_append, hd]
        simp [Reply.reclaimed, submitTask_reclaimed _ _ _ _ _ hs]

/-- C11. Pool reclaim: in any state, a `submitTask` call that returns either
made no queue or pool call (this is the case whenever it was deferred), or
made one `ExecuteCommandLists` call and then handed exactly the command lists
of that batch, each once and in batch order, to `addUnusedGraphicsCmdLists`.
Hence over a complete cycle on a constructed or restarted scheduler, with the
`N` claimed ranges submitted once each in any order, the pool receives
`buf 0, ..., buf (N-1)`: each of the `N` command lists exactly once. -/
theorem C11_pool_reclaim (passNodes : List FrameGraphPassNode)
    (s0 : FrameGraphTaskScheduler) (hs0 : Fresh passNodes s0) (p : List Nat) (buf : Nat → Nat)
    (hp : p.Perm (List.range passNodes.length)) :
    (∀ (s s' : FrameGraphTaskScheduler) (r : TaskRange) (c : Option Nat) (es : List Effect),
      submitTask s r c = Except.ok (s', es) →
      (es = [] ∨
        ∃ batch, es = Effect.ExecuteCommandLists (batch.length % 2 ^ 32) batch ::
          batch.map Effect.addUnusedGraphicsCmdLists) ∧
      Effect.reclaimed es = (Effect.batches es).flatten) ∧
    (∀ (s s' : FrameGraphTaskScheduler) (begIdx endIdx : Nat) (c : Option Nat) (q : Task)
      (es : List Effect), 0 < begIdx → s.tasks_[begIdx - 1]? = some q →
      q.taskState ≠ TaskState.Submitted →
      submitTask s { begNode := some begIdx, endNode := some endIdx } c = Except.ok (s', es) →
      es = []) ∧
    ∃ d', (FrameDriver.start s0).run (cycle passNodes.length p buf) = Except.ok d' ∧
      Reply.reclaimed d'.replies = (Reply.batches d'.replies).flatten ∧
      Reply.reclaimed d'.replies = (List.range passNodes.length).map (fun i => some (buf i)) ∧
      (Function.Injective buf → (Reply.reclaimed d'.replies).Nodup) := by
  refine ⟨?_, ?_, ?_⟩
  · intro s s' r c es h
    refine ⟨?_, submitTask_reclaimed s r c s' es h⟩
    rcases submitTask_effects s r c s' es h with he | ⟨ext, he⟩
    · exact Or.inl he
    · exact Or.inr ⟨_, he⟩
  · intro s s' b e c q es hb hq hqs h
    exact submitTask_pend_effects s b e c q s' es hb hq hqs h
  · rw [hs0.eq]
    obtain ⟨d', hrun, _, _, hb, _⟩ := cycle_complete passNodes p buf hp
    have hre := FrameDriver.run_reclaimed _ _ _ hrun rfl
    refine ⟨d', hrun, hre, by rw [hre, hb], ?_⟩
    intro hinj
    rw [hre, hb]
    exact (List.nodup_range _).map (fun a b h => hinj (Option.some.inj h))

theorem C11_pool_reclaim_witness :
    Fresh demoNodes (construct demoNodes) ∧ [3, 0, 4, 1, 2].Perm (List.range demoNodes.length) ∧
    ((∀ (s s' : FrameGraphTaskScheduler) (r : TaskRange) (c : Option Nat) (es : List Effect),
      submitTask s r c = Except.ok (s', es) →
      (es = [] ∨
        ∃ batch, es = Effect.ExecuteCommandLists (batch.length % 2 ^ 32) batch ::
          batch.map Effect.addUnusedGraphicsCmdLists) ∧
      Effect.reclaimed es = (Effect.batches es).flatten) ∧
    (∀ (s s' : FrameGraphTaskScheduler) (begIdx endIdx : Nat) (c : Option Nat) (q : Task)
      (es : List Effect), 0 < begIdx → s.tasks_[begIdx - 1]? = some q →
      q.taskState ≠ TaskState.Submitted →
      submitTask s { begNode := some begIdx, endNode := some endIdx } c = Except.ok (s', es) →
      es = []) ∧
    ∃ d', (FrameDriver.start (construct demoNodes)).run
        (cycle demoNodes.length [3, 0, 4, 1, 2] (fun i => 10 + i)) = Except.ok d' ∧
      Reply.reclaimed d'.replies = (Reply.batches d'.replies).flatten ∧
      Reply.reclaimed d'.replies =
        (List.range demoNodes.length).map (fun i => some ((fun i => 10 + i) i)) ∧
      (Function.Injective (fun i => 10 + i) → (Reply.reclaimed d'.replies).Nodup)) :=
  ⟨Or.inl rfl, by decide,
    C11_pool_reclaim demoNodes (construct demoNodes) (Or.inl rfl) [3, 0, 4, 1, 2]
      (fun i => 10 + i) (by decide)⟩

theorem demoDriver_submit :
    demoDriver.call (Call.submitTask (TaskRange.node 1) (some 11)) = Except.ok doneDriver := by
  rfl

theorem doneDriver_reachable : Reachable demoNodes doneDriver :=
  Reachable.submitTask demoDriver doneDriver (TaskRange.node 1) (some 11) demoDriver_reachable
    (by decide) demoDriver_submit

theorem request_step_tasks (passNodes : List FrameGraphPassNode) (d d' : FrameDriver)
    (inv : Inv passNodes d) (hc : d.call Call.requestTask = Except.ok d') :
    d'.sched.tasks_ = d.sched.tasks_ ∧
    d'.sched.finishedNodeCount_ = d.sched.finishedNodeCount_ ∧
    d'.submitted = d.submitted := by
  rw [request_step passNodes d inv] at hc
  simp only [Except.ok.injEq] at hc
  subst hc
  by_cases h : d.sched.dispatchedNodeCount_ < passNodes.length
  · rw [if_pos h]
    exact ⟨rfl, rfl, rfl⟩
  · rw [if_neg h]
    exact ⟨rfl, rfl, rfl⟩

/-- C12. State monotonicity: a `requestTask` call, or a `submitTask` call on
an outstanding range, made in a state of intended use keeps the number of
tasks and takes every task from its state to the same state, or from
`NotFinished` to `Pending`, from `Pending` to `Submitted`, or from
`NotFinished` to `Submitted`; so no step takes a task from `Submitted` to
another state or from `Pending` to `NotFinished`. -/
theorem C12_state_monotone (passNodes : List FrameGraphPassNode) (d d' : FrameDriver)
    (h : Reachable passNodes d)
    (hstep : d.call Call.requestTask = Except.ok d' ∨
      ∃ r c, r ∈ d.outstanding ∧ d.call (Call.submitTask r c) = Except.ok d') :
    d'.sched.tasks_.length = d.sched.tasks_.length ∧
    ∀ (i : Nat) (t t' : Task), d.sched.tasks_[i]? = some t → d'.sched.tasks_[i]? = some t' →
      (t'.taskState = t.taskState ∨
        (t.taskState = TaskState.NotFinished ∧ t'.taskState = TaskState.Pending) ∨
        (t.taskState = TaskState.Pending ∧ t'.taskState = TaskState.Submitted) ∨
        (t.taskState = TaskState.NotFinished ∧ t'.taskState = TaskState.Submitted)) ∧
      (t.taskState = TaskState.Submitted → t'.taskState = TaskState.Submitted) ∧
      (t.taskState = TaskState.Pending → t'.taskState ≠ TaskState.NotFinished) := by
  have inv := h.inv
  have key : d'.sched.tasks_.length = d.sched.tasks_.length ∧
      ∀ (i : Nat) (t t' : Task), d.sched.tasks_[i]? = some t → d'.sched.tasks_[i]? = some t' →
        (t'.taskState = t.taskState ∨
          (t.taskState = TaskState.NotFinished ∧ t'.taskState = TaskState.Pending) ∨
          (t.taskState = TaskState.Pending ∧ t'.taskState = TaskState.Submitted) ∨
          (t.taskState = TaskState.NotFinished ∧ t'.taskState = TaskState.Submitted)) := by
    rcases hstep with hc | ⟨r, c, hr, hc⟩
    · obtain ⟨ht, _, _⟩ := request_step_tasks passNodes d d' inv hc
      refine ⟨by rw [ht], ?_⟩
      intro i t t' h1 h2
      rw [ht, h1] at h2
      cases h2
      exact Or.inl rfl
    · obtain ⟨i, u, rfl, hi, hu, hus, _, _, step | step⟩ :=
        submit_step passNodes d d' r c inv hr hc
      · obtain ⟨_, hsched, _⟩ := step
        refine ⟨by rw [hsched]; simp, ?_⟩
        intro k t t' h1 h2
        rw [hsched] at h2
        simp only at h2
        by_cases hk : k = i
        · subst hk
          rw [List.getElem?_set_self (getElem?_lt hu)] at h2
          rw [hu] at h1
          cases h1
          cases h2
          exact Or.inr (Or.inl ⟨hus, rfl⟩)
        · rw [List.getElem?_set_ne (fun e => hk e.symm), h1] at h2
          cases h2
          exact Or.inl rfl
      · obtain ⟨_, j, hij, hrun, _, hlen, hpt, _⟩ := step
        refine ⟨hlen, ?_⟩
        intro k t t' h1 h2
        rw [hpt k, h1] at h2
        by_cases hk : i ≤ k ∧ k < j
        · rw [if_pos hk] at h2
          simp only [Option.map_some', Option.some.injEq] at h2
          have hs' : t'.taskState = TaskState.Submitted := by rw [← h2]; rfl
          by_cases hki : k = i
          · subst hki
            rw [hu] at h1
            cases h1
            exact Or.inr (Or.inr (Or.inr ⟨hus, hs'⟩))
          · obtain ⟨v, hv, hvs, _⟩ := hrun k (by omega) hk.2
            rw [h1] at hv
            cases hv
            exact Or.inr (Or.inr (Or.inl ⟨hvs, hs'⟩))
        · rw [if_neg hk] at h2
          cases h2
          exact Or.inl rfl
  refine ⟨key.1, ?_⟩
  intro i t t' h1 h2
  have hcase := key.2 i t t' h1 h2
  refine ⟨hcase, ?_, ?_⟩
  · intro hs
    rcases hcase with e | ⟨a, _⟩ | ⟨a, _⟩ | ⟨a, _⟩
    · rw [e, hs]
    · rw [hs] at a; cases a
    · rw [hs] at a; cases a
    · rw [hs] at a; cases a
  · intro hs hn
    rcases hcase with e | ⟨a, _⟩ | ⟨_, b⟩ | ⟨a, _⟩
    · rw [hn, hs] at e; cases e
    · rw [hs] at a; cases a
    · rw [hn] at b; cases b
    · rw [hs] at a; cases a

theorem C12_state_monotone_witness :
    Reachable demoNodes demoDriver ∧
    (demoDriver.call Call.requestTask = Except.ok doneDriver ∨
      ∃ r c, r ∈ demoDriver.outstanding ∧
        demoDriver.call (Call.submitTask r c) = Except.ok doneDriver) ∧
    (doneDriver.sched.tasks_.length = demoDriver.sched.tasks_.length ∧
    ∀ (i : Nat) (t t' : Task), demoDriver.sched.tasks_[i]? = some t →
      doneDriver.sched.tasks_[i]? = some t' →
      (t'.taskState = t.taskState ∨
        (t.taskState = TaskState.NotFinished ∧ t'.taskState = TaskState.Pending) ∨
        (t.taskState = TaskState.Pending ∧ t'.taskState = TaskState.Submitted) ∨
        (t.taskState = TaskState.NotFinished ∧ t'.taskState = TaskState.Submitted)) ∧
      (t.taskState = TaskState.Submitted → t'.taskState = TaskState.Submitted) ∧
      (t.taskState = TaskState.Pending → t'.taskState ≠ TaskState.NotFinished)) :=
  ⟨demoDriver_reachable,
    Or.inr ⟨TaskRange.node 1, some 11, by decide, demoDriver_submit⟩,
    C12_state_monotone demoNodes demoDriver doneDriver demoDriver_reachable
      (Or.inr ⟨TaskRange.node 1, some 11, by decide, demoDriver_submit⟩)⟩

theorem Inv.lookup_of_lt (passNodes : List FrameGraphPassNode) (d : FrameDriver)
    (inv : Inv passNodes d) (i : Nat) (hi : i < d.sched.finishedNodeCount_) :
    ∃ c, (Reply.batches d.replies).flatten[i]? = some c ∧
      d.submitted.lookup (TaskRange.node i) = some c := by
  have h := congrArg (fun l => l[i]?) inv.batches
  simp only [List.getElem?_map, List.getElem?_range hi, Option.map_some'] at h
  cases hc : (Reply.batches d.replies).flatten[i]? with
  | none => rw [hc] at h; cases h
  | some c =>
    rw [hc] at h
    simp only [Option.map_some', Option.some.injEq] at h
    exact ⟨c, rfl, h⟩

theorem Inv.batches_length (passNodes : List FrameGraphPassNode) (d : FrameDriver)
    (inv : Inv passNodes d) :
    (Reply.batches d.replies).flatten.length = d.sched.finishedNodeCount_ := by
  have h := congrArg List.length inv.batches
  simp only [List.length_map, List.length_range] at h
  exact h.symm

theorem mem_snd_unique {l : List (TaskRange × Option Nat)} (hnd : (l.map Prod.snd).Nodup)
    {a b : TaskRange} {c : Option Nat} (ha : (a, c) ∈ l) (hb : (b, c) ∈ l) : a = b := by
  induction l with
  | nil => cases ha
  | cons x xs ih =>
    simp only [List.map_cons, List.nodup_cons, List.mem_map, not_exists, not_and] at hnd
    rcases List.mem_cons.mp ha with ha | ha <;> rcases List.mem_cons.mp hb with hb | hb
    · rw [← ha] at hb
      exact (Prod.mk.inj hb).1.symm
    · exact absurd (by rw [← ha]) (hnd.1 (b, c) hb)
    · exact absurd (by rw [← hb]) (hnd.1 (a, c) ha)
    · exact ih hnd.2 ha hb

/-- C13. A stalled producer blocks its successors: in every state of intended
use in which the range of node `k` has not been passed to `submitTask`,
`finishedNodeCount_` is at most `k`, no node with index `k` or more is
`Submitted`, and the queue has received exactly the command lists of the nodes
below `finishedNodeCount_`, in index order; so, the command lists handed in
being distinct, no batch contains the command list of a node with index `k` or
more. -/
theorem C13_stalled_producer (passNodes : List FrameGraphPassNode) (d : FrameDriver)
    (h : Reachable passNodes d) (k : Nat)
    (hnever : ∀ c, (TaskRange.node k, c) ∉ d.submitted) :
    d.sched.finishedNodeCount_ ≤ k ∧
    (∀ (i : Nat) (t : Task), k ≤ i → d.sched.tasks_[i]? = some t →
      t.taskState ≠ TaskState.Submitted) ∧
    (Reply.batches d.replies).flatten.length = d.sched.finishedNodeCount_ ∧
    (∀ i, i < d.sched.finishedNodeCount_ →
      ∃ c, (Reply.batches d.replies).flatten[i]? = some c ∧ (TaskRange.node i, c) ∈ d.submitted) ∧
    ((d.submitted.map Prod.snd).Nodup →
      ∀ (i : Nat) (c : Option Nat), k ≤ i → (TaskRange.node i, c) ∈ d.submitted →
        ∀ batch ∈ Reply.batches d.replies, c ∉ batch) := by
  have inv := h.inv
  have hfin : d.sched.finishedNodeCount_ ≤ k := by
    by_contra hlt
    obtain ⟨c, _, hc⟩ := Inv.lookup_of_lt passNodes d inv k (by omega)
    exact hnever c (lookup_mem hc)
  refine ⟨hfin, ?_, Inv.batches_length passNodes d inv, ?_, ?_⟩
  · intro i t hki ht hs
    have := (inv.submitted_iff i t ht).mp hs
    omega
  · intro i hi
    obtain ⟨c, h1, h2⟩ := Inv.lookup_of_lt passNodes d inv i hi
    exact ⟨c, h1, lookup_mem h2⟩
  · intro hnd i c hki hic batch hb hcb
    have hmem : c ∈ (Reply.batches d.replies).flatten :=
      List.mem_flatten.mpr ⟨batch, hb, hcb⟩
    obtain ⟨n, hn⟩ := List.mem_iff_getElem?.mp hmem
    have hnlt : n < d.sched.finishedNodeCount_ := by
      rw [← Inv.batches_length passNodes d inv]
      exact getElem?_lt hn
    obtain ⟨c', h1, h2⟩ := Inv.lookup_of_lt passNodes d inv n hnlt
    rw [hn] at h1
    cases h1
    have := TaskRange.node_inj (mem_snd_unique hnd (lookup_mem h2) hic)
    omega

theorem C13_stalled_producer_witness :
    Reachable demoNodes demoDriver ∧ (∀ c, (TaskRange.node 1, c) ∉ demoDriver.submitted) ∧
    (demoDriver.sched.finishedNodeCount_ ≤ 1 ∧
    (∀ (i : Nat) (t : Task), 1 ≤ i → demoDriver.sched.tasks_[i]? = some t →
      t.taskState ≠ TaskState.Submitted) ∧
    (Reply.batches demoDriver.replies).flatten.length = demoDriver.sched.finishedNodeCount_ ∧
    (∀ i, i < demoDriver.sched.finishedNodeCount_ →
      ∃ c, (Reply.batches demoDriver.replies).flatten[i]? = some c ∧
        (TaskRange.node i, c) ∈ demoDriver.submitted) ∧
    ((demoDriver.submitted.map Prod.snd).Nodup →
      ∀ (i : Nat) (c : Option Nat), 1 ≤ i → (TaskRange.node i, c) ∈ demoDriver.submitted →
        ∀ batch ∈ Reply.batches demoDriver.replies, c ∉ batch)) :=
  have hnever : ∀ c, (TaskRange.node 1, c) ∉ demoDriver.submitted := by
    intro c hc
    simp [demoDriver, TaskRange.node] at hc
  ⟨demoDriver_reachable, hnever,
    C13_stalled_producer demoNodes demoDriver demoDriver_reachable 1 hnever⟩

/-- C14. Empty node list: on a scheduler constructed over zero pass nodes,
`requestTask` returns the empty sentinel and changes nothing, on the first and
on every later call, and `isAllFinished()` is true from the start, without any
`submitTask` call. -/
theorem C14_empty_node_list :
    requestTask (construct []) = Except.ok (construct [], TaskRange.sentinel) ∧
    (∀ m : Nat, (FrameDriver.start (construct [])).run (List.replicate m Call.requestTask) =
      Except.ok
        { sched := construct []
          replies := List.replicate m (Reply.range TaskRange.sentinel)
          outstanding := []
          submitted := [] }) ∧
    isAllFinished (construct []) = true ∧
    TaskRange.sentinel = { begNode := none, endNode := none } := by
  refine ⟨rfl, ?_, rfl, rfl⟩
  intro m
  rw [(run_requests [] m).1]
  congr 1
  simp only [claimed, List.length_nil, Nat.min_zero, Nat.not_lt_zero, if_false, List.range_zero,
    List.map_nil, List.reverse_nil]
  congr 1
  induction m with
  | zero => rfl
  | succ n ih =>
    rw [List.range_succ, List.map_append, ih, List.replicate_succ']
    rfl

/-- C15. `isAllFinished()` is `finishedNodeCount_ >= tasks_.size()`; in every
state of intended use it is true exactly when every task is `Submitted`, which
is exactly when the queue has received a command list for every pass node. -/
theorem C15_isAllFinished (passNodes : List FrameGraphPassNode) (d : FrameDriver)
    (h : Reachable passNodes d) :
    (∀ s : FrameGraphTaskScheduler,
      isAllFinished s = decide (s.finishedNodeCount_ ≥ s.tasks_.length)) ∧
    (isAllFinished d.sched = true ↔
      ∀ t ∈ d.sched.tasks_, t.taskState = TaskState.Submitted) ∧
    (isAllFinished d.sched = true ↔
      (Reply.batches d.replies).flatten.length = passNodes.length) := by
  have inv := h.inv
  have h1 := inv.finished_le
  have h2 := inv.dispatched_le
  have h3 := inv.length_eq
  refine ⟨fun s => rfl, ?_, ?_⟩
  · simp only [isAllFinished, decide_eq_true_eq]
    constructor
    · intro hfin t ht
      obtain ⟨k, hk⟩ := List.mem_iff_getElem?.mp ht
      have := getElem?_lt hk
      exact (inv.submitted_iff k t hk).mpr (by omega)
    · intro hall
      by_contra hlt
      have hf : d.sched.finishedNodeCount_ < d.sched.tasks_.length := by omega
      have ht := List.getElem?_eq_getElem hf
      have hn := inv.front _ ht
      have hs := hall _ (List.getElem_mem hf)
      rw [hn] at hs
      cases hs
  · simp only [isAllFinished, decide_eq_true_eq, Inv.batches_length passNodes d inv]
    constructor <;> intro <;> omega

theorem C15_isAllFinished_witness :
    Reachable demoNodes doneDriver ∧
    ((∀ s : FrameGraphTaskScheduler,
      isAllFinished s = decide (s.finishedNodeCount_ ≥ s.tasks_.length)) ∧
    (isAllFinished doneDriver.sched = true ↔
      ∀ t ∈ doneDriver.sched.tasks_, t.taskState = TaskState.Submitted) ∧
    (isAllFinished doneDriver.sched = true ↔
      (Reply.batches doneDriver.replies).flatten.length = demoNodes.length)) :=
  ⟨doneDriver_reachable, C15_isAllFinished demoNodes doneDriver doneDriver_reachable⟩

/-- C17 (as amended). In every state of intended use a `NotFinished` task
holds no command list and a `Pending` task holds the command list its range
was submitted with; the greedy extension does not clear anything: a task that
a `submitTask` call takes from `Pending` to `Submitted` still holds its
command list afterwards (only `restart` resets it). -/
theorem C17_stored_buffer (passNodes : List FrameGraphPassNode) (d : FrameDriver)
    (h : Reachable passNodes d) :
    (∀ (i : Nat) (t : Task), d.sched.tasks_[i]? = some t →
      t.taskState = TaskState.NotFinished → t.cmdList = none) ∧
    (∀ (i : Nat) (t : Task), d.sched.tasks_[i]? = some t →
      t.taskState = TaskState.Pending →
      d.submitted.lookup (TaskRange.node i) = some t.cmdList) ∧
    (∀ (r : TaskRange) (c : Option Nat) (d' : FrameDriver), r ∈ d.outstanding →
      d.call (Call.submitTask r c) = Except.ok d' →
      ∀ (k : Nat) (t t' : Task), d.sched.tasks_[k]? = some t → d'.sched.tasks_[k]? = some t' →
        t.taskState = TaskState.Pending → t'.cmdList = t.cmdList) := by
  have inv := h.inv
  refine ⟨fun i t ht hs => (inv.blank i t ht hs).2, fun i t ht hs => (inv.pending i t ht hs).2, ?_⟩
  intro r c d' hr hc k t t' h1 h2 hp
  obtain ⟨i, u, rfl, hi, hu, hus, _, _, step | step⟩ := submit_step passNodes d d' r c inv hr hc
  · obtain ⟨_, hsched, _⟩ := step
    have hki : k ≠ i := by
      intro e
      subst e
      rw [hu] at h1
      cases h1
      rw [hus] at hp
      cases hp
    rw [hsched] at h2
    simp only at h2
    rw [List.getElem?_set_ne (fun e => hki e.symm), h1] at h2
    cases h2
    rfl
  · obtain ⟨_, j, _, _, _, _, hpt, _⟩ := step
    rw [hpt k, h1] at h2
    by_cases hk : i ≤ k ∧ k < j
    · rw [if_pos hk] at h2
      simp only [Option.map_some', Option.some.injEq] at h2
      rw [← h2]
      rfl
    · rw [if_neg hk] at h2
      cases h2
      rfl

theorem C17_stored_buffer_witness :
    Reachable demoNodes demoDriver ∧
    ((∀ (i : Nat) (t : Task), demoDriver.sched.tasks_[i]? = some t →
      t.taskState = TaskState.NotFinished → t.cmdList = none) ∧
    (∀ (i : Nat) (t : Task), demoDriver.sched.tasks_[i]? = some t →
      t.taskState = TaskState.Pending →
      demoDriver.submitted.lookup (TaskRange.node i) = some t.cmdList) ∧
    (∀ (r : TaskRange) (c : Option Nat) (d' : FrameDriver), r ∈ demoDriver.outstanding →
      demoDriver.call (Call.submitTask r c) = Except.ok d' →
      ∀ (k : Nat) (t t' : Task), demoDriver.sched.tasks_[k]? = some t →
        d'.sched.tasks_[k]? = some t' →
        t.taskState = TaskState.Pending → t'.cmdList = t.cmdList)) :=
  ⟨demoDriver_reachable, C17_stored_buffer demoNodes demoDriver demoDriver_reachable⟩

/-- C17, as stated, fails: `doneDriver` is a state of intended use (five
claims, nodes 0, 2, 3, 4 submitted, then node 1, whose call flushes the
`Pending` nodes 2, 3, 4), and in it task 2 is `Submitted` and still holds the
command list 12 it held while `Pending`. -/
theorem C17_stored_buffer_counterexample :
    Reachable demoNodes doneDriver ∧
    demoDriver.sched.tasks_[2]? = some ⟨TaskState.Pending, 1, some 12⟩ ∧
    demoDriver.call (Call.submitTask (TaskRange.node 1) (some 11)) = Except.ok doneDriver ∧
    doneDriver.sched.tasks_[2]? = some ⟨TaskState.Submitted, 1, some 12⟩ ∧
    ¬ (∀ (i : Nat) (t : Task), doneDriver.sched.tasks_[i]? = some t →
      t.taskState = TaskState.NotFinished ∨ t.taskState = TaskState.Submitted →
      t.cmdList = none) := by
  refine ⟨doneDriver_reachable, rfl, demoDriver_submit, rfl, ?_⟩
  intro hall
  have := hall 2 ⟨TaskState.Submitted, 1, some 12⟩ rfl (Or.inr rfl)
  cases this

theorem ReachableReady.reachable {passNodes : List FrameGraphPassNode} {d : FrameDriver}
    {n : Nat} (h : ReachableReady passNodes d n) : Reachable passNodes d := by
  induction h with
  | construct => exact Reachable.construct
  | restart s hp ht => exact Reachable.restart s hp ht
  | requestTask d d' n _ hc ih => exact Reachable.requestTask d d' ih hc
  | submitTask d d' n r c _ hr hc ih => exact Reachable.submitTask d d' r c ih hr hc

theorem Reachable.counted {passNodes : List FrameGraphPassNode} {d : FrameDriver}
    (h : Reachable passNodes d) : ∃ n, ReachableReady passNodes d n := by
  induction h with
  | construct => exact ⟨0, ReachableReady.construct⟩
  | restart s hp ht => exact ⟨0, ReachableReady.restart s hp ht⟩
  | requestTask d d' _ hc ih =>
    obtain ⟨n, hn⟩ := ih
    exact ⟨n, ReachableReady.requestTask d d' n hn hc⟩
  | submitTask d d' r c _ hr hc ih =>
    obtain ⟨n, hn⟩ := ih
    exact ⟨_, ReachableReady.submitTask d d' n r c hn hr hc⟩

/-- A `submitTask` call on an outstanding range issues one batch, starting
with the command list handed in, if the range is ready, and nothing if not. -/
theorem submit_step_ready (passNodes : List FrameGraphPassNode) (d d' : FrameDriver)
    (r : TaskRange) (c : Option Nat) (inv : Inv passNodes d) (hr : r ∈ d.outstanding)
    (hc : d.call (Call.submitTask r c) = Except.ok d') :
    ∃ es, d'.replies = d.replies ++ [Reply.effects es] ∧
      ((r.ready d.sched = true ∧ ∃ ext, Effect.batches es = [c :: ext]) ∨
        (r.ready d.sched = false ∧ es = [])) := by
  obtain ⟨i, t, rfl, hi, ht, hst, _, _, step | step⟩ := submit_step passNodes d d' r c inv hr hc
  · obtain ⟨hfi, _, hrep⟩ := step
    refine ⟨[], hrep, Or.inr ⟨?_, rfl⟩⟩
    have hilt := getElem?_lt ht
    have hp : d.sched.tasks_[i - 1]? = some d.sched.tasks_[i - 1] :=
      List.getElem?_eq_getElem (by omega)
    have hps : (d.sched.tasks_[i - 1]).taskState ≠ TaskState.Submitted := by
      intro hs
      have := (inv.submitted_iff (i - 1) _ hp).mp hs
      omega
    have hi0 : i ≠ 0 := by omega
    simp [TaskRange.ready, TaskRange.node, hp, hps, hi0]
  · obtain ⟨hfi, j, hij, _, _, _, _, _, _, _, hrep⟩ := step
    refine ⟨_, hrep, Or.inl ⟨?_, _, Effect.batches_execute _ _ _⟩⟩
    rcases Nat.eq_zero_or_pos i with h0 | hpos
    · simp [TaskRange.ready, TaskRange.node, h0]
    · have hilt := getElem?_lt ht
      have hp : d.sched.tasks_[i - 1]? = some d.sched.tasks_[i - 1] :=
        List.getElem?_eq_getElem (by omega)
      have hps := (inv.submitted_iff (i - 1) _ hp).mpr (by omega)
      simp [TaskRange.ready, TaskRange.node, hp, hps]

theorem ReachableReady.queue_calls {passNodes : List FrameGraphPassNode} {d : FrameDriver}
    {n : Nat} (h : ReachableReady passNodes d n) : (Reply.batches d.replies).length = n := by
  induction h with
  | construct => rfl
  | restart s hp ht => rfl
  | requestTask d d' n hd hc ih =>
    rcases FrameDriver.call_replies d d' Call.requestTask hc with ⟨r, hr⟩ | ⟨s', r, b, es, hs, hr⟩
    · rw [hr, Reply.batches_range]
      exact ih
    · have hstep := request_step passNodes d hd.reachable.inv
      rw [hstep] at hc
      simp only [Except.ok.injEq] at hc
      subst hc
      by_cases hlt : d.sched.dispatchedNodeCount_ < passNodes.length
      · rw [if_pos hlt]
        simp only [Reply.batches_range]
        exact ih
      · rw [if_neg hlt]
        simp only [Reply.batches_range]
        exact ih
  | submitTask d d' n r c hd hr hc ih =>
    obtain ⟨es, hrep, hcase⟩ := submit_step_ready passNodes d d' r c hd.reachable.inv hr hc
    rw [hrep, Reply.batches_effects, List.length_append, ih]
    rcases hcase with ⟨h1, ext, h2⟩ | ⟨h1, h2⟩
    · rw [h1, h2]
      rfl
    · rw [h1, h2]
      rfl

/-- C18. No ready command list is withheld: in every state of intended use
the task at index 0 is not `Pending`, no `Pending` task follows a `Submitted`
one, and the task at index `finishedNodeCount_` (if any) is `NotFinished`.
A `submitTask` call on an outstanding range issues nothing when its range is
not ready and exactly one batch when it is, and that batch starts with the
command list handed in by this very call, so that no earlier queue call could
have carried it; hence the number of queue calls so far equals the number of
`submitTask` calls that found their range ready. -/
theorem C18_nothing_withheld (passNodes : List FrameGraphPassNode) (d : FrameDriver)
    (h : Reachable passNodes d) :
    (∀ t : Task, d.sched.tasks_[0]? = some t → t.taskState ≠ TaskState.Pending) ∧
    (∀ (i : Nat) (p t : Task), d.sched.tasks_[i]? = some p → d.sched.tasks_[i + 1]? = some t →
      t.taskState = TaskState.Pending → p.taskState ≠ TaskState.Submitted) ∧
    (∀ t : Task, d.sched.tasks_[d.sched.finishedNodeCount_]? = some t →
      t.taskState = TaskState.NotFinished) ∧
    (∀ (r : TaskRange) (c : Option Nat) (d' : FrameDriver), r ∈ d.outstanding →
      d.call (Call.submitTask r c) = Except.ok d' →
      (∀ t : Task, d'.sched.tasks_[d'.sched.finishedNodeCount_]? = some t →
        t.taskState = TaskState.NotFinished) ∧
      ∃ es, d'.replies = d.replies ++ [Reply.effects es] ∧
        ((r.ready d.sched = true ∧ ∃ ext, Effect.batches es = [c :: ext]) ∨
          (r.ready d.sched = false ∧ es = []))) ∧
    (∃ n, ReachableReady passNodes d n) ∧
    (∀ n, ReachableReady passNodes d n → (Reply.batches d.replies).length = n) := by
  have inv := h.inv
  refine ⟨?_, ?_, inv.front, ?_, h.counted, fun n hn => hn.queue_calls⟩
  · intro t ht hp
    rcases Nat.eq_zero_or_pos d.sched.finishedNodeCount_ with h0 | hpos
    · have := inv.front t (by rw [h0]; exact ht)
      rw [this] at hp
      cases hp
    · have := (inv.submitted_iff 0 t ht).mpr hpos
      rw [this] at hp
      cases hp
  · intro i p t hp ht hpend hsub
    have h1 := (inv.submitted_iff i p hp).mp hsub
    have h2 : ¬ (i + 1 < d.sched.finishedNodeCount_) := by
      intro hlt
      have := (inv.submitted_iff (i + 1) t ht).mpr hlt
      rw [this] at hpend
      cases hpend
    have h3 : i + 1 = d.sched.finishedNodeCount_ := by omega
    have := inv.front t (by rw [← h3]; exact ht)
    rw [this] at hpend
    cases hpend
  · intro r c d' hr hc
    exact ⟨(Inv.submitTask passNodes d d' r c inv hr hc).front,
      submit_step_ready passNodes d d' r c inv hr hc⟩

theorem C18_nothing_withheld_witness :
    Reachable demoNodes demoDriver ∧
    ((∀ t : Task, demoDriver.sched.tasks_[0]? = some t → t.taskState ≠ TaskState.Pending) ∧
    (∀ (i : Nat) (p t : Task), demoDriver.sched.tasks_[i]? = some p →
      demoDriver.sched.tasks_[i + 1]? = some t →
      t.taskState = TaskState.Pending → p.taskState ≠ TaskState.Submitted) ∧
    (∀ t : Task, demoDriver.sched.tasks_[demoDriver.sched.finishedNodeCount_]? = some t →
      t.taskState = TaskState.NotFinished) ∧
    (∀ (r : TaskRange) (c : Option Nat) (d' : FrameDriver), r ∈ demoDriver.outstanding →
      demoDriver.call (Call.submitTask r c) = Except.ok d' →
      (∀ t : Task, d'.sched.tasks_[d'.sched.finishedNodeCount_]? = some t →
        t.taskState = TaskState.NotFinished) ∧
      ∃ es, d'.replies = demoDriver.replies ++ [Reply.effects es] ∧
        ((r.ready demoDriver.sched = true ∧ ∃ ext, Effect.batches es = [c :: ext]) ∨
          (r.ready demoDriver.sched = false ∧ es = []))) ∧
    (∃ n, ReachableReady demoNodes demoDriver n) ∧
    (∀ n, ReachableReady demoNodes demoDriver n →
      (Reply.batches demoDriver.replies).length = n)) :=
  ⟨demoDriver_reachable, C18_nothing_withheld demoNodes demoDriver demoDriver_reachable⟩

/-- The vector of raw pointers built by the loop keeps what it was entered
with as a prefix. -/
theorem submitTask.loop_nonempty (fuel : Nat) (s : FrameGraphTaskScheduler) (a : Nat)
    (c : Option Nat) (gcl : List (Option Nat)) (s' : FrameGraphTaskScheduler)
    (cl' gcl' : List (Option Nat))
    (h : submitTask.loop fuel s a [c] gcl = Except.ok (s', cl', gcl')) :
    ∃ ext, cl' = c :: ext := by
  obtain ⟨ext, e1, _⟩ := submitTask.loop_sync _ _ _ _ _ _ _ _ h
  exact ⟨ext, by rw [e1]; rfl⟩

/-- C19. In any state and for any input, every `ExecuteCommandLists` call
issued by a `submitTask` call that returns carries a batch whose first element
is the command list handed in, so the batch is not empty.  The assertion
`!cmdLists.empty()` never fails: the vector the loop returns always starts
with the command list handed in, and whenever the loop returns, the
`// submit` path returns as well, with the queue call and the pool calls. -/
theorem C19_batch_nonempty (s s' : FrameGraphTaskScheduler) (r : TaskRange) (c : Option Nat)
    (es : List Effect) (h : submitTask s r c = Except.ok (s', es)) :
    (∀ (n : Nat) (batch : List (Option Nat)), Effect.ExecuteCommandLists n batch ∈ es →
      batch ≠ [] ∧ ∃ ext, batch = c :: ext) ∧
    (∀ (fuel : Nat) (s1 s2 : FrameGraphTaskScheduler) (a : Nat) (b : Option Nat)
      (gcl cl' gcl' : List (Option Nat)),
      submitTask.loop fuel s1 a [b] gcl = Except.ok (s2, cl', gcl') →
      cl'.isEmpty = false ∧ ∃ ext, cl' = b :: ext) ∧
    (∀ (fuel : Nat) (s1 s2 : FrameGraphTaskScheduler) (begIdx endIdx : Nat) (b : Option Nat)
      (ts : List Task) (cl gcl : List (Option Nat)),
      fuel ≤ submitTask.loopBound s1 →
      setTaskStates TaskState.Submitted (endIdx - begIdx) begIdx s1.tasks_ = Except.ok ts →
      submitTask.loop fuel
        { s1 with tasks_ := ts, finishedNodeCount_ := endIdx } endIdx [b] [b] =
          Except.ok (s2, cl, gcl) →
      submitTask.submit s1 begIdx endIdx b =
        Except.ok (s2, Effect.ExecuteCommandLists (cl.length % 2 ^ 32) cl ::
          gcl.map Effect.addUnusedGraphicsCmdLists)) := by
  refine ⟨?_, ?_, ?_⟩
  · intro n batch hmem
    rcases submitTask_effects s r c s' es h with he | ⟨ext, he⟩
    · rw [he] at hmem
      cases hmem
    · rw [he] at hmem
      rcases List.mem_cons.mp hmem with heq | hin
      · simp only [Effect.ExecuteCommandLists.injEq] at heq
        exact ⟨by rw [heq.2]; simp, ext, heq.2⟩
      · obtain ⟨x, _, hx⟩ := List.mem_map.mp hin
        cases hx
  · intro fuel s1 s2 a b gcl cl' gcl' hl
    obtain ⟨ext, he⟩ := submitTask.loop_nonempty fuel s1 a b gcl s2 cl' gcl' hl
    exact ⟨by rw [he]; rfl, ext, he⟩
  · intro fuel s1 s2 b e x ts cl gcl hfuel hset hl
    obtain ⟨ext, he⟩ := submitTask.loop_nonempty _ _ _ _ _ _ _ _ hl
    have hbound := submitTask.loop_mono fuel (submitTask.loopBound s1) _ _ _ _ hfuel
      (by rw [hl]; simp)
    rw [hl] at hbound
    unfold submitTask.submit
    rw [hset]
    simp only
    rw [hbound]
    simp [he]

theorem C19_batch_nonempty_witness :
    submitTask demoSched (TaskRange.node 1) (some 11) =
      Except.ok (doneSched,
        [Effect.ExecuteCommandLists 4 [some 11, some 12, some 13, some 14],
         Effect.addUnusedGraphicsCmdLists (some 11), Effect.addUnusedGraphicsCmdLists (some 12),
         Effect.addUnusedGraphicsCmdLists (some 13),
         Effect.addUnusedGraphicsCmdLists (some 14)]) ∧
    ((∀ (n : Nat) (batch : List (Option Nat)),
      Effect.ExecuteCommandLists n batch ∈
        [Effect.ExecuteCommandLists 4 [some 11, some 12, some 13, some 14],
         Effect.addUnusedGraphicsCmdLists (some 11), Effect.addUnusedGraphicsCmdLists (some 12),
         Effect.addUnusedGraphicsCmdLists (some 13),
         Effect.addUnusedGraphicsCmdLists (some 14)] →
      batch ≠ [] ∧ ∃ ext, batch = some 11 :: ext) ∧
    (∀ (fuel : Nat) (s1 s2 : FrameGraphTaskScheduler) (a : Nat) (b : Option Nat)
      (gcl cl' gcl' : List (Option Nat)),
      submitTask.loop fuel s1 a [b] gcl = Except.ok (s2, cl', gcl') →
      cl'.isEmpty = false ∧ ∃ ext, cl' = b :: ext) ∧
    (∀ (fuel : Nat) (s1 s2 : FrameGraphTaskScheduler) (begIdx endIdx : Nat) (b : Option Nat)
      (ts : List Task) (cl gcl : List (Option Nat)),
      fuel ≤ submitTask.loopBound s1 →
      setTaskStates TaskState.Submitted (endIdx - begIdx) begIdx s1.tasks_ = Except.ok ts →
      submitTask.loop fuel
        { s1 with tasks_ := ts, finishedNodeCount_ := endIdx } endIdx [b] [b] =
          Except.ok (s2, cl, gcl) →
      submitTask.submit s1 begIdx endIdx b =
        Except.ok (s2, Effect.ExecuteCommandLists (cl.length % 2 ^ 32) cl ::
          gcl.map Effect.addUnusedGraphicsCmdLists))) :=
  have hrun : submitTask demoSched (TaskRange.node 1) (some 11) =
      Except.ok (doneSched,
        [Effect.ExecuteCommandLists 4 [some 11, some 12, some 13, some 14],
         Effect.addUnusedGraphicsCmdLists (some 11), Effect.addUnusedGraphicsCmdLists (some 12),
         Effect.addUnusedGraphicsCmdLists (some 13),
         Effect.addUnusedGraphicsCmdLists (some 14)]) := by
    rfl
  ⟨hrun, C19_batch_nonempty demoSched doneSched (TaskRange.node 1) (some 11) _ hrun⟩

/-- C20. In every state of intended use in which every `submitTask` call so
far handed in a command list, every `Pending` task is the first (and only)
task of a range that was passed to `submitTask`, holds the command list of
that range, has stored length 1, and index plus stored length does not exceed
the number of tasks.  Hence a `submitTask` call on an outstanding range
returns: neither assertion inside the loop fails and no task index is out of
bounds. -/
theorem C20_pending_well_formed (passNodes : List FrameGraphPassNode) (d : FrameDriver)
    (h : Reachable passNodes d) (hbuf : ∀ e ∈ d.submitted, e.2 ≠ none) :
    (∀ (i : Nat) (t : Task), d.sched.tasks_[i]? = some t → t.taskState = TaskState.Pending →
      t.nodeCount ≥ 1 ∧ t.cmdList ≠ none ∧ i + t.nodeCount ≤ d.sched.tasks_.length ∧
      (TaskRange.node i, t.cmdList) ∈ d.submitted ∧ TaskRange.node i ∉ d.outstanding) ∧
    (∀ (r : TaskRange) (c : Option Nat), r ∈ d.outstanding →
      ∃ d', d.call (Call.submitTask r c) = Except.ok d') := by
  have inv := h.inv
  constructor
  · intro i t ht hp
    obtain ⟨h1, h2⟩ := inv.pending i t ht hp
    have hmem := lookup_mem h2
    have hlt := getElem?_lt ht
    refine ⟨by omega, hbuf _ hmem, by omega, hmem, ?_⟩
    intro hout
    obtain ⟨k, u, e, _, hu, hus⟩ := (inv.outstanding_iff _).mp hout
    have := TaskRange.node_inj e
    subst this
    rw [ht] at hu
    cases hu
    rw [hp] at hus
    cases hus
  · intro r c hr
    obtain ⟨i, t, e, _, _, _⟩ := (inv.outstanding_iff r).mp hr
    subst e
    exact submit_progress passNodes d i c inv hbuf hr

theorem C20_pending_well_formed_witness :
    Reachable demoNodes demoDriver ∧ (∀ e ∈ demoDriver.submitted, e.2 ≠ none) ∧
    ((∀ (i : Nat) (t : Task), demoDriver.sched.tasks_[i]? = some t →
      t.taskState = TaskState.Pending →
      t.nodeCount ≥ 1 ∧ t.cmdList ≠ none ∧ i + t.nodeCount ≤ demoDriver.sched.tasks_.length ∧
      (TaskRange.node i, t.cmdList) ∈ demoDriver.submitted ∧
      TaskRange.node i ∉ demoDriver.outstanding) ∧
    (∀ (r : TaskRange) (c : Option Nat), r ∈ demoDriver.outstanding →
      ∃ d', demoDriver.call (Call.submitTask r c) = Except.ok d')) :=
  ⟨demoDriver_reachable, by decide,
    C20_pending_well_formed demoNodes demoDriver demoDriver_reachable (by decide)⟩

/-- C20, as stated, fails when a null command list is handed in.  `nullDriver`
is reached by two claims and a `submitTask` call on the claimed, not yet
submitted range of node 1, with a null command list.  Its task 1 is `Pending`
and holds no command list, and the next `submitTask` call on a claimed range,
that of node 0, reaches it in the loop, where the assertion on the stored
command list fails. -/
theorem C20_pending_well_formed_counterexample :
    Reachable pairNodes nullDriver ∧
    (∃ t, nullDriver.sched.tasks_[1]? = some t ∧ t.taskState = TaskState.Pending ∧
      t.cmdList = none) ∧
    TaskRange.node 0 ∈ nullDriver.outstanding ∧
    (∀ k, submitTask.loop (k + 1)
        { nullDriver.sched with
          tasks_ := [⟨TaskState.Submitted, 0, none⟩, ⟨TaskState.Pending, 1, none⟩]
          finishedNodeCount_ := 1 } 1 [some 5] [some 5] =
      Except.error Fault.assertFailed) ∧
    nullDriver.call (Call.submitTask (TaskRange.node 0) (some 5)) =
      Except.error Fault.assertFailed :=
  ⟨nullDriver_reachable, ⟨_, rfl, rfl, rfl⟩, by decide, fun _ => rfl, by rfl⟩

end FrameGraph
